import Mathlib

/-!
# TNL (ghmc / noa third-party) — verification development

Shallow embedding of

* `TNL/Containers/detail/VectorAssignment.h` (`VectorAssignmentWithOperation`),
* `TNL/Matrices/MatrixOperations.h` (host `gemv`),
* `TNL/Algorithms/Sorting/detail/Quicksorter.hpp` (the host-side scheduler of the
  device quicksort) and `TNL/Algorithms/Sorting/Quicksort.h`,
* `TNL/Algorithms/Sorting/BubbleSort.h` (`BubbleSort::inplaceSort`).

Machine integers (`int`, `IndexType`) are modelled by `Int`/`Nat`; wrap-around matters in
one place, the `size_t` arithmetic of `Quicksorter::sort`, which is reduced modulo `2^64`
and converted to `int` explicitly.  Device arrays are lists of fixed length with
bounds-checked element access, raw pointers are functions `Nat → α`, and the array
`BubbleSort::inplaceSort` works on is a function `Int → α` behind its two callables.
-/

namespace TNL

/-! ## Containers/detail/VectorAssignment.h -/

namespace VectorAssignmentWithOperation

/-- The common body of the element-wise operations of the specialization
`VectorAssignmentWithOperation< Vector, T, true, false >`: after the size assertion
`TNL_ASSERT_EQ( v.getSize(), t.getSize() )`, `ParallelFor` runs
`data[ i ] = data[ i ] op t[ i ]` for every `0 <= i < v.getSize()`. -/
def parallelForOp {α : Type} (op : α → α → α) (v t : List α) : Option (List α) :=
  if v.length = t.length then some (List.zipWith op v t) else none

namespace View

/-- Method `VectorAssignmentWithOperation< Vector, T, true, false >::addition`: `data[ i ] += t[ i ]`. -/
def addition {α : Type} [Add α] (v t : List α) : Option (List α) :=
  parallelForOp (fun a b => a + b) v t

/-- Method `VectorAssignmentWithOperation< Vector, T, true, false >::subtraction`: `data[ i ] -= t[ i ]`. -/
def subtraction {α : Type} [Sub α] (v t : List α) : Option (List α) :=
  parallelForOp (fun a b => a - b) v t

/-- Method `VectorAssignmentWithOperation< Vector, T, true, false >::multiplication`: `data[ i ] *= t[ i ]`. -/
def multiplication {α : Type} [Mul α] (v t : List α) : Option (List α) :=
  parallelForOp (fun a b => a * b) v t

/-- Method `VectorAssignmentWithOperation< Vector, T, true, false >::division`: `data[ i ] /= t[ i ]`. -/
def division {α : Type} [Div α] (v t : List α) : Option (List α) :=
  parallelForOp (fun a b => a / b) v t

/-- Method `VectorAssignmentWithOperation< Vector, T, true, false >::modulo`: `data[ i ] %= t[ i ]`. -/
def modulo {α : Type} [Mod α] (v t : List α) : Option (List α) :=
  parallelForOp (fun a b => a % b) v t

end View

/-- Method `T::getConstView()`: a constant view of the same elements. -/
def getConstView {α : Type} (t : List α) : List α := t

namespace Resizable

/-- Method `VectorAssignmentWithOperation< Vector, T, true, true >::addition`. -/
def addition {α : Type} [Add α] (v t : List α) : Option (List α) :=
  View.addition v (getConstView t)

/-- Method `VectorAssignmentWithOperation< Vector, T, true, true >::subtraction`. -/
def subtraction {α : Type} [Sub α] (v t : List α) : Option (List α) :=
  View.subtraction v (getConstView t)

/-- Method `VectorAssignmentWithOperation< Vector, T, true, true >::multiplication`. -/
def multiplication {α : Type} [Mul α] (v t : List α) : Option (List α) :=
  View.multiplication v (getConstView t)

/-- Method `VectorAssignmentWithOperation< Vector, T, true, true >::division`; the body in the
source forwards to `subtraction` of the view specialization. -/
def division {α : Type} [Sub α] (v t : List α) : Option (List α) :=
  View.subtraction v (getConstView t)

end Resizable

end VectorAssignmentWithOperation

/-! ## Matrices/MatrixOperations.h -/

namespace MatrixOperations

/-- The assignment `p[ i ] = v` through a raw pointer. -/
def store {α : Type} (p : Nat → α) (i : Nat) (v : α) : Nat → α :=
  fun j => if j = i then v else p j

/-- The loop `for( IndexType j = lo; j < hi; j++ ) body`, as a fold over `lo, lo+1, …, hi-1`. -/
def forLoop {σ : Type} (lo hi : Nat) (body : Nat → σ → σ) (s : σ) : σ :=
  (List.range' lo (hi - lo)).foldl (fun acc j => body j acc) s

/-- Method `MatrixOperations< Devices::Host >::gemv( m, n, alpha, A, lda, x, beta, y )`; the result
is the memory behind `y` after the call, `none` when one of the three assertions fails. -/
def gemv {α : Type} [CommRing α] [DecidableEq α]
    (m n : Nat) (alpha : α) (A : Nat → α) (lda : Nat) (x : Nat → α) (beta : α)
    (y : Nat → α) : Option (Nat → α) :=
  if ¬ (0 < m) then none
  else if ¬ (0 < n) then none
  else if ¬ (m ≤ lda) then none
  else
    let alphax : Nat → α :=
      forLoop 0 n (fun k ax => store ax k (alpha * x k)) (fun _ => 0)
    if n = 1 then
      if beta ≠ 0 then
        some (forLoop 0 m (fun j y => store y j (A j * alphax 0 + beta * y j)) y)
      else
        some (forLoop 0 m (fun j y => store y j (A j * alphax 0)) y)
    else
      let block_size : Nat := 128
      let blocks : Nat := m / block_size
      let y1 : Nat → α :=
        forLoop 0 blocks (fun b y =>
          let block_offset := b * block_size
          -- initialize array for thread-local results
          let aux0 : Nat → α := forLoop 0 block_size (fun j aux => store aux j 0) (fun _ => 0)
          -- compute aux = A * alphax
          let aux1 : Nat → α :=
            forLoop 0 n (fun k aux =>
              let offset := block_offset + k * lda
              forLoop 0 block_size
                (fun j aux => store aux j (aux j + A (offset + j) * alphax k)) aux) aux0
          -- write result: y = aux + beta * y
          if beta ≠ 0 then
            forLoop 0 block_size
              (fun j y => store y (block_offset + j) (aux1 j + beta * y (block_offset + j))) y
          else
            forLoop 0 block_size (fun j y => store y (block_offset + j) (aux1 j)) y) y
      -- the last, incomplete block
      if beta ≠ 0 then
        some (forLoop (blocks * block_size) m (fun j y =>
          let tmp : α := forLoop 0 n (fun k tmp => tmp + A (j + k * lda) * alphax k) 0
          store y j (tmp + beta * y j)) y1)
      else
        some (forLoop (blocks * block_size) m (fun j y =>
          let tmp : α := forLoop 0 n (fun k tmp => tmp + A (j + k * lda) * alphax k) 0
          store y j tmp) y1)

/-- The reference value of `y[ j ]` after `gemv`: row `j` of `alpha * A * x + beta * y`. -/
def gemvRef {α : Type} [CommRing α]
    (n : Nat) (alpha : α) (A : Nat → α) (lda : Nat) (x : Nat → α) (beta : α)
    (y : Nat → α) (j : Nat) : α :=
  (∑ k in Finset.range n, A (j + k * lda) * (alpha * x k)) + beta * y j

end MatrixOperations

namespace Algorithms
namespace Sorting

/-! ## Algorithms/Sorting/detail/Quicksorter.hpp -/

/-- C++ integer division `a / b` on `int` (truncation towards zero). -/
def cdiv (a b : Int) : Int := Int.tdiv a b

/-- C++ integer remainder `a % b` on `int` (sign of the dividend). -/
def cmod (a b : Int) : Int := Int.tmod a b

/-- What stops a run of the model: an array access or view outside the array (the
`TNL_ASSERT` of `Array::setElement`, `getElement`, `getView`), a failed `TNL_ASSERT_*` of
the scheduler, or a loop that used up the fuel given to it. -/
inductive Fault where
  | outOfBounds
  | assertionFailed
  | outOfFuel
deriving DecidableEq

/-- Modelled from the spec: `detail/task.h` is not among the sources.  §3: "Task:
`{ begin: index, end: index, depth: integer }`"; the field names `partitionBegin` and
`partitionEnd` are the ones `getSetsNeededFunction` reads, and `TASK( b, e, d )` is the
constructor `init` calls. -/
structure TASK where
  partitionBegin : Int
  partitionEnd : Int
  depth : Int
deriving DecidableEq, Inhabited

/-- Modelled from the spec: `TNL/Containers/Array.h` is not among the sources; §3 has
"fixed-capacity" buffers and §6 a sequence with "bulk sized allocation".  `Array::setSize( n )`
keeps an array that already has `n` elements and otherwise allocates `n` elements (their
contents are taken to be default values). -/
def setSize {α : Type} [Inhabited α] (a : List α) (n : Int) : List α :=
  if (a.length : Int) = n then a else List.replicate n.toNat default

/-- Modelled from the spec: `Array::setElement( i, v )` (`TNL/Containers/Array.h`, not among
the sources) writes element `i` of a fixed-capacity buffer (§3); an index outside the buffer
is a fault (§7 (b): it must "fail loudly"). -/
def setElement {α : Type} (a : List α) (i : Int) (v : α) : Except Fault (List α) :=
  if 0 ≤ i ∧ i < a.length then .ok (a.set i.toNat v) else .error .outOfBounds

/-- Modelled from the spec: `Array::getElement( i )` (`TNL/Containers/Array.h`, not among the
sources) reads element `i` of a fixed-capacity buffer (§3); an index outside the buffer is
a fault. -/
def getElement {α : Type} [Inhabited α] (a : List α) (i : Int) : Except Fault α :=
  if 0 ≤ i ∧ i < a.length then .ok (a.getD i.toNat default) else .error .outOfBounds

/-- Modelled from the spec: `Array::getView( 0, n )` (`TNL/Containers/Array.h`, not among the
sources) is the view of the first `n` elements of a fixed-capacity buffer (§3); a view
longer than the buffer is a fault. -/
def getView {α : Type} (a : List α) (n : Int) : Except Fault (List α) :=
  if 0 ≤ n ∧ n ≤ a.length then .ok (a.take n.toNat) else .error .outOfBounds

/-- The two ping-pong task buffers `cuda_tasks`, `cuda_newTasks` and the queue of the
self-contained phase `cuda_2ndPhaseTasks`. -/
inductive TaskQueue where
  | cuda_tasks
  | cuda_newTasks
  | cuda_2ndPhaseTasks
deriving DecidableEq

/-- The sorted array `arr` and the scratch array `aux`. -/
inductive DataArray where
  | arr
  | aux
deriving DecidableEq

/-- Modelled from the spec: `Cuda::LaunchConfiguration` (`TNL/Cuda/LaunchHelpers.h`) is not
among the sources; these are the three fields the scheduler sets.  The byte count
`dynamicSharedMemorySize` is compared with `maxSharable` as a number (§4.2: the required
bytes "fit the group's fast-memory budget"). -/
structure LaunchConfiguration where
  blockSize : Int
  gridSize : Int
  dynamicSharedMemorySize : Int
deriving DecidableEq

/-- One call of `Cuda::launchKernelSync`: the kernel, its launch configuration and the
arguments that vary between calls (`arr`, `aux`, the comparator, the block map and the two
counters are the same objects in every call). A prefix view `q.getView( 0, n )` is given by
the queue and `n`. -/
inductive Launch where
  | cudaCalcBlocksNeeded (cfg : LaunchConfiguration) (tasks : TaskQueue) (count : Int)
      (elemPerBlock : Int)
  | cudaInitTask (cfg : LaunchConfiguration) (tasks : TaskQueue) (count : Int)
      (blocksNeeded : Int) (src : DataArray)
  | cudaQuickSort1stPhase (useShared : Bool) (cfg : LaunchConfiguration) (elemPerBlock : Int)
      (task : TaskQueue)
  | cudaWritePivot (cfg : LaunchConfiguration) (maxElemFor2ndPhase : Int)
      (task newTask : TaskQueue)
  | cudaQuickSort2ndPhase (cfg : LaunchConfiguration) (tasks : TaskQueue) (count : Int)
      (elemInShared : Int) (maxElemFor2ndPhase : Int)
  | cudaQuickSort2ndPhase2 (cfg : LaunchConfiguration) (tasks : TaskQueue) (count : Int)
      (count2 : Int) (elemInShared : Int) (maxElemFor2ndPhase : Int)
deriving DecidableEq

/-- Whether a launch is one of the two kernels of the self-contained stage. -/
def Launch.isSecondPhase : Launch → Bool
  | .cudaQuickSort2ndPhase .. => true
  | .cudaQuickSort2ndPhase2 .. => true
  | _ => false

/-- Whether a launch is the partition kernel. -/
def Launch.isPartition : Launch → Bool
  | .cudaQuickSort1stPhase .. => true
  | _ => false

/-- Whether a launch is the spawn kernel `cudaWritePivot`. -/
def Launch.isWritePivot : Launch → Bool
  | .cudaWritePivot .. => true
  | _ => false

/-- The launch configuration of a launch. -/
def Launch.config : Launch → LaunchConfiguration
  | .cudaCalcBlocksNeeded cfg _ _ _ => cfg
  | .cudaInitTask cfg _ _ _ _ => cfg
  | .cudaQuickSort1stPhase _ cfg _ _ => cfg
  | .cudaWritePivot cfg _ _ _ => cfg
  | .cudaQuickSort2ndPhase cfg _ _ _ _ => cfg
  | .cudaQuickSort2ndPhase2 cfg _ _ _ _ _ => cfg

/-- The prefix views of task queues a launch is given, as (queue, number of tasks): the
kernels of the self-contained stage and of the block assignment get views
`queue.getView( 0, n )`, the partition and the spawn kernel get whole buffers. -/
def Launch.taskViews : Launch → List (TaskQueue × Int)
  | .cudaCalcBlocksNeeded _ tasks count _ => [(tasks, count)]
  | .cudaInitTask _ tasks count _ _ => [(tasks, count)]
  | .cudaQuickSort1stPhase _ _ _ _ => []
  | .cudaWritePivot _ _ _ _ => []
  | .cudaQuickSort2ndPhase _ tasks count _ _ => [(tasks, count)]
  | .cudaQuickSort2ndPhase2 _ tasks count count2 _ _ =>
    [(tasks, count), (.cuda_2ndPhaseTasks, count2)]

/-- The arrays of the `Quicksorter` object that live in device memory. The two counters
`cuda_newTasksAmount`, `cuda_2ndPhaseTasksAmount` are arrays of one `int` each and are kept
as that `int`. -/
structure Device (Value : Type) where
  arr : List Value
  aux : List Value
  cuda_tasks : List TASK
  cuda_newTasks : List TASK
  cuda_2ndPhaseTasks : List TASK
  cuda_newTasksAmount : Int
  cuda_2ndPhaseTasksAmount : Int
  cuda_blockToTaskMapping : List Int
  cuda_reductionTaskInitMem : List Int
deriving DecidableEq

/-- The contents of one of the three task queues. -/
def Device.queue {Value : Type} (d : Device Value) : TaskQueue → List TASK
  | .cuda_tasks => d.cuda_tasks
  | .cuda_newTasks => d.cuda_newTasks
  | .cuda_2ndPhaseTasks => d.cuda_2ndPhaseTasks

/-- What the scheduler is compiled against and runs on: `sizeof( Value )`, the constant
`g_maxTasks` of the class declaration (`detail/Quicksorter.h`, not among the sources) and the
effect `exec` of one synchronous kernel launch on device memory, for the kernels
`cudaInitTask`, `cudaQuickSort1stPhase`, `cudaWritePivot`, `cudaQuickSort2ndPhase` and
`cudaQuickSort2ndPhase2` of `quicksort_kernel.h` and `quicksort_1Block.h` (not among the
sources; the comparator handed to the kernels is part of `exec`).  The theorems about the
scheduler hold for every `exec`. -/
structure Machine (Value : Type) where
  sizeofValue : Int
  g_maxTasks : Int
  exec : Launch → Device Value → Device Value

/-- Class `Quicksorter< Value, Devices::Cuda >`: the host fields, the device arrays and, as a ghost
field, the kernel launches made so far in the order they were made. -/
structure Quicksorter (Value : Type) where
  maxBlocks : Int
  threadsPerBlock : Int
  desiredElemPerBlock : Int
  maxSharable : Int
  desired_2ndPhasElemPerBlock : Int
  maxTasks : Int
  host_1stPhaseTasksAmount : Int
  host_2ndPhaseTasksAmount : Int
  iteration : Int
  dev : Device Value
  launches : List Launch
deriving DecidableEq

/-- Modelled from the spec: the class declaration `detail/Quicksorter.h` is not among the
sources.  A freshly constructed scheduler holds no task, no array, and its round counter is
zero (§4.6: the round counter "drives ping-pong parity" and starts a sort at the first
round). -/
def Quicksorter.fresh (Value : Type) : Quicksorter Value :=
  { maxBlocks := 0, threadsPerBlock := 0, desiredElemPerBlock := 0, maxSharable := 0,
    desired_2ndPhasElemPerBlock := 0, maxTasks := 0,
    host_1stPhaseTasksAmount := 0, host_2ndPhaseTasksAmount := 0, iteration := 0,
    dev := { arr := [], aux := [], cuda_tasks := [], cuda_newTasks := [],
             cuda_2ndPhaseTasks := [], cuda_newTasksAmount := 0,
             cuda_2ndPhaseTasksAmount := 0, cuda_blockToTaskMapping := [],
             cuda_reductionTaskInitMem := [] },
    launches := [] }

/-- The elements of `new` in an array of the size of `old`: a kernel writes elements of the
arrays it is given, it cannot change their sizes. -/
def fitTo {α : Type} (old new : List α) : List α :=
  new.take old.length ++ old.drop new.length

/-- Device memory after a kernel: the contents the kernel leaves, in arrays of the sizes the
host allocated. -/
def Device.keepSizes {Value : Type} (old new : Device Value) : Device Value :=
  { arr := fitTo old.arr new.arr
    aux := fitTo old.aux new.aux
    cuda_tasks := fitTo old.cuda_tasks new.cuda_tasks
    cuda_newTasks := fitTo old.cuda_newTasks new.cuda_newTasks
    cuda_2ndPhaseTasks := fitTo old.cuda_2ndPhaseTasks new.cuda_2ndPhaseTasks
    cuda_newTasksAmount := new.cuda_newTasksAmount
    cuda_2ndPhaseTasksAmount := new.cuda_2ndPhaseTasksAmount
    cuda_blockToTaskMapping := fitTo old.cuda_blockToTaskMapping new.cuda_blockToTaskMapping
    cuda_reductionTaskInitMem :=
      fitTo old.cuda_reductionTaskInitMem new.cuda_reductionTaskInitMem }

/-- Modelled from the spec: `Cuda::launchKernelSync` (`TNL/Cuda/KernelLaunch.h`) is not among
the sources; §5: "the host blocks until a round's launches complete".  The launch is recorded
and the kernel's effect is applied to device memory before the next host statement. -/
def launchKernelSync {Value : Type} (M : Machine Value) (l : Launch) (q : Quicksorter Value) :
    Quicksorter Value :=
  { q with dev := q.dev.keepSizes (M.exec l q.dev), launches := q.launches ++ [l] }

/-- The buffer `iteration % 2 == 0 ? cuda_tasks : cuda_newTasks` that `firstPhase`,
`secondPhase`, `initTasks` and `getSetsNeededFunction` read the current tasks from. -/
def currentTasks (iteration : Int) : TaskQueue :=
  if cmod iteration 2 = 0 then .cuda_tasks else .cuda_newTasks

/-- The buffer `iteration % 2 == 0 ? cuda_newTasks : cuda_tasks` the spawn kernel writes
new distributed tasks to. -/
def nextTasks (iteration : Int) : TaskQueue :=
  if cmod iteration 2 = 0 then .cuda_newTasks else .cuda_tasks

/-- Method `Quicksorter::init( arr, gridDim, blockDim, desiredElemPerBlock, maxSharable )`. -/
def init {Value : Type} [Inhabited Value] (M : Machine Value) (q : Quicksorter Value)
    (arr : List Value) (gridDim blockDim desiredElemPerBlock maxSharable : Int) :
    Except Fault (Quicksorter Value) :=
  let size : Int := arr.length
  let maxTasks : Int := min size M.g_maxTasks
  let q : Quicksorter Value :=
    { q with
      maxBlocks := gridDim
      threadsPerBlock := blockDim
      desiredElemPerBlock := desiredElemPerBlock
      maxSharable := maxSharable
      desired_2ndPhasElemPerBlock := desiredElemPerBlock
      maxTasks := maxTasks
      dev :=
        { q.dev with
          arr := arr
          aux := setSize q.dev.aux size
          cuda_tasks := setSize q.dev.cuda_tasks maxTasks
          cuda_newTasks := setSize q.dev.cuda_newTasks maxTasks
          cuda_2ndPhaseTasks := setSize q.dev.cuda_2ndPhaseTasks maxTasks
          cuda_blockToTaskMapping := setSize q.dev.cuda_blockToTaskMapping gridDim
          cuda_reductionTaskInitMem := setSize q.dev.cuda_reductionTaskInitMem maxTasks } }
  do
    let q ←
      if size > q.desired_2ndPhasElemPerBlock then do
        let t ← setElement q.dev.cuda_tasks 0 (TASK.mk 0 size 0)
        pure { q with dev := { q.dev with cuda_tasks := t }, host_1stPhaseTasksAmount := 1 }
      else do
        let t ← setElement q.dev.cuda_2ndPhaseTasks 0 (TASK.mk 0 size 0)
        pure { q with
          dev := { q.dev with cuda_2ndPhaseTasks := t }, host_2ndPhaseTasksAmount := 1 }
    pure { q with dev := { q.dev with cuda_2ndPhaseTasksAmount := 0 } }

/-- Method `Quicksorter::processNewTasks()`. -/
def processNewTasks {Value : Type} (q : Quicksorter Value) : Quicksorter Value :=
  { q with
    host_1stPhaseTasksAmount := min q.dev.cuda_newTasksAmount q.maxTasks
    host_2ndPhaseTasksAmount := min q.dev.cuda_2ndPhaseTasksAmount q.maxTasks }

/-- Method `Quicksorter::getElemPerBlock()`: the first statement returns `desiredElemPerBlock`; the
statements after it are never reached. -/
def getElemPerBlock {Value : Type} (q : Quicksorter Value) : Int :=
  q.desiredElemPerBlock

/-- The number of blocks one task needs, as the lambda `fetch` of `getSetsNeededFunction`
computes it: `size / elemPerBlock + ( size % elemPerBlock != 0 )`. -/
def blocksForTask (elemPerBlock : Int) (task : TASK) : Int :=
  let size := task.partitionEnd - task.partitionBegin
  cdiv size elemPerBlock + (if cmod size elemPerBlock ≠ 0 then 1 else 0)

/-- Function `getSetsNeededFunction( elemPerBlock, quicksort )` / `Quicksorter::getSetsNeeded`: the
reduction with `Plus` of `fetch` over the indices `0 <= i < host_1stPhaseTasksAmount` of the
current task buffer (0 for an empty range). -/
def getSetsNeeded {Value : Type} (elemPerBlock : Int) (q : Quicksorter Value) :
    Except Fault Int :=
  if q.host_1stPhaseTasksAmount ≤ 0 then
    pure 0
  else do
    let view ← getView (q.dev.queue (currentTasks q.iteration)) q.host_1stPhaseTasksAmount
    pure ((view.map (blocksForTask elemPerBlock)).sum)

/-- Modelled from the spec: the kernel `cudaCalcBlocksNeeded` (`quicksort_kernel.h`) is not
among the sources.  §4.5: "for every current distributed task, the number of execution
groups it needs is `ceil(taskSize / groupElementCapacity)`"; entry `i` of the result is that
number for task `i`, computed as `getSetsNeededFunction` computes it. -/
def cudaCalcBlocksNeeded (tasks : List TASK) (elemPerBlock : Int) : List Int :=
  tasks.map (blocksForTask elemPerBlock)

/-- Running sums of a list, starting from `acc`. -/
def inclusiveScanFrom : Int → List Int → List Int
  | _, [] => []
  | acc, x :: xs => (acc + x) :: inclusiveScanFrom (acc + x) xs

/-- Modelled from the spec: `inplaceInclusiveScan` (`TNL/Algorithms/scan.h`) is not among
the sources.  §4.5: "an inclusive prefix sum over tasks"; entry `i` becomes the sum of the
entries `0..i`. -/
def inplaceInclusiveScan (a : List Int) : List Int :=
  inclusiveScanFrom 0 a

/-- The scheduler after the launch of `cudaCalcBlocksNeeded` on the first
`host_1stPhaseTasksAmount` current tasks and after `inplaceInclusiveScan(
cuda_reductionTaskInitMem )`: entry `i` of `cuda_reductionTaskInitMem` is the number of
blocks the tasks `0..i` need. -/
def afterCalcBlocksNeeded {Value : Type} (elemPerBlock : Int) (q : Quicksorter Value) :
    Quicksorter Value :=
  let tasks : TaskQueue := currentTasks q.iteration
  let launch_config : LaunchConfiguration :=
    { blockSize := q.threadsPerBlock
      gridSize := cdiv q.host_1stPhaseTasksAmount q.threadsPerBlock
        + (if cmod q.host_1stPhaseTasksAmount q.threadsPerBlock ≠ 0 then 1 else 0)
      dynamicSharedMemorySize := 0 }
  let tasksView : List TASK := (q.dev.queue tasks).take q.host_1stPhaseTasksAmount.toNat
  -- cuda_reductionTaskInitMem[i] == how many blocks task i needs
  let counted : List Int :=
    cudaCalcBlocksNeeded tasksView elemPerBlock
      ++ q.dev.cuda_reductionTaskInitMem.drop q.host_1stPhaseTasksAmount.toNat
  -- cuda_reductionTaskInitMem[i] == how many blocks task [0..i] need
  { q with
    dev := { q.dev with cuda_reductionTaskInitMem := inplaceInclusiveScan counted }
    launches := q.launches
      ++ [.cudaCalcBlocksNeeded launch_config tasks q.host_1stPhaseTasksAmount elemPerBlock] }

/-- The first half of `Quicksorter::initTasks` (up to the read of `blocksNeeded`): the two
views handed to `cudaCalcBlocksNeeded`, the kernel and the scan, and
`cuda_reductionTaskInitMem.getElement( host_1stPhaseTasksAmount - 1 )`. -/
def initTasksCount {Value : Type} (elemPerBlock : Int) (q : Quicksorter Value) :
    Except Fault (Int × Quicksorter Value) := do
  let _ ← getView (q.dev.queue (currentTasks q.iteration)) q.host_1stPhaseTasksAmount
  let _ ← getView q.dev.cuda_reductionTaskInitMem q.host_1stPhaseTasksAmount
  let q := afterCalcBlocksNeeded elemPerBlock q
  let blocksNeeded ← getElement q.dev.cuda_reductionTaskInitMem (q.host_1stPhaseTasksAmount - 1)
  pure (blocksNeeded, q)

/-- The scheduler after the launch of `cudaInitTask` and the reset of the new-task counter
(`cuda_newTasksAmount.setElement( 0, 0 )`) at the end of `initTasks`. -/
def afterInitTask {Value : Type} (M : Machine Value) (q : Quicksorter Value)
    (blocksNeeded : Int) : Quicksorter Value :=
  let src : DataArray := if cmod q.iteration 2 = 0 then .arr else .aux
  let tasks : TaskQueue := currentTasks q.iteration
  let launch_config : LaunchConfiguration :=
    { blockSize := q.threadsPerBlock
      gridSize := q.host_1stPhaseTasksAmount
      dynamicSharedMemorySize := 0 }
  let q := launchKernelSync M
    (.cudaInitTask launch_config tasks q.host_1stPhaseTasksAmount blocksNeeded src) q
  -- resets new element counter
  { q with dev := { q.dev with cuda_newTasksAmount := 0 } }

/-- Method `Quicksorter::initTasks( elemPerBlock, Cmp )`; returns the block count and the new state. -/
def initTasks {Value : Type} (M : Machine Value) (elemPerBlock : Int) (q : Quicksorter Value) :
    Except Fault (Int × Quicksorter Value) := do
  let (blocksNeeded, q) ← initTasksCount elemPerBlock q
  -- need too many blocks, give back control
  if blocksNeeded > q.dev.cuda_blockToTaskMapping.length then
    pure (blocksNeeded, q)
  else do
    let _ ← getView (q.dev.queue (currentTasks q.iteration)) q.host_1stPhaseTasksAmount
    let _ ← getView q.dev.cuda_blockToTaskMapping blocksNeeded
    let _ ← getView q.dev.cuda_reductionTaskInitMem q.host_1stPhaseTasksAmount
    pure (blocksNeeded, afterInitTask M q blocksNeeded)

/-- Method `Quicksorter::secondPhase( Cmp )`. -/
def secondPhase {Value : Type} (M : Machine Value) (q : Quicksorter Value) :
    Except Fault (Quicksorter Value) :=
  let leftoverTasks : TaskQueue := currentTasks q.iteration
  let requested : Int := q.desiredElemPerBlock * M.sizeofValue + M.sizeofValue
  -- reserve space for storing elements + 1 pivot
  let elemInShared : Int := if requested > q.maxSharable then 0 else q.desiredElemPerBlock
  let cfg : LaunchConfiguration :=
    { blockSize := q.threadsPerBlock
      gridSize := q.host_1stPhaseTasksAmount + q.host_2ndPhaseTasksAmount
      dynamicSharedMemorySize := if requested > q.maxSharable then M.sizeofValue else requested }
  if q.host_1stPhaseTasksAmount > 0 ∧ q.host_2ndPhaseTasksAmount > 0 then do
    let _ ← getView (q.dev.queue leftoverTasks) q.host_1stPhaseTasksAmount
    let _ ← getView q.dev.cuda_2ndPhaseTasks q.host_2ndPhaseTasksAmount
    pure (launchKernelSync M
      (.cudaQuickSort2ndPhase2 cfg leftoverTasks q.host_1stPhaseTasksAmount
        q.host_2ndPhaseTasksAmount elemInShared q.desired_2ndPhasElemPerBlock) q)
  else if q.host_1stPhaseTasksAmount > 0 then do
    let _ ← getView (q.dev.queue leftoverTasks) q.host_1stPhaseTasksAmount
    pure (launchKernelSync M
      (.cudaQuickSort2ndPhase cfg leftoverTasks q.host_1stPhaseTasksAmount elemInShared
        q.desired_2ndPhasElemPerBlock) q)
  else do
    let _ ← getView q.dev.cuda_2ndPhaseTasks q.host_2ndPhaseTasksAmount
    pure (launchKernelSync M
      (.cudaQuickSort2ndPhase cfg .cuda_2ndPhaseTasks q.host_2ndPhaseTasksAmount elemInShared
        q.desired_2ndPhasElemPerBlock) q)

/-- The premature second-phase sort inside `firstPhase` (the same four statements at both
sites): `tmp = host_1stPhaseTasksAmount; host_1stPhaseTasksAmount = 0; secondPhase( Cmp );
cuda_2ndPhaseTasksAmount = host_2ndPhaseTasksAmount = 0; host_1stPhaseTasksAmount = tmp`. -/
def prematureSecondPhase {Value : Type} (M : Machine Value) (q : Quicksorter Value) :
    Except Fault (Quicksorter Value) := do
  let tmp := q.host_1stPhaseTasksAmount
  let q ← secondPhase M { q with host_1stPhaseTasksAmount := 0 }
  pure { q with
    dev := { q.dev with cuda_2ndPhaseTasksAmount := 0 }
    host_2ndPhaseTasksAmount := 0
    host_1stPhaseTasksAmount := tmp }

/-- How one pass through the body of the `while` loop of `firstPhase` ends: with `break`, or
at the end of the body (the loop condition is tested next). -/
inductive LoopStep (σ : Type) where
  | exit (s : σ)
  | next (s : σ)
deriving DecidableEq

/-- The partition part of the loop body of `firstPhase`: the kernel variant and its
launch configuration are chosen and `cudaQuickSort1stPhase` is launched. -/
def partitionLaunch {Value : Type} (M : Machine Value) (q : Quicksorter Value)
    (elemPerBlock blocksCnt : Int) : Launch :=
  let task : TaskQueue := currentTasks q.iteration
  let launch_config : LaunchConfiguration :=
    { blockSize := q.threadsPerBlock
      gridSize := blocksCnt
      -- elems + 1 for pivot
      dynamicSharedMemorySize := elemPerBlock * M.sizeofValue + M.sizeofValue }
  if launch_config.dynamicSharedMemorySize ≤ q.maxSharable then
    .cudaQuickSort1stPhase true launch_config elemPerBlock task
  else
    .cudaQuickSort1stPhase false
      { launch_config with dynamicSharedMemorySize := M.sizeofValue } elemPerBlock task

/-- The spawn part of the loop body of `firstPhase`: the launch of `cudaWritePivot`. -/
def writePivotLaunch {Value : Type} (M : Machine Value) (q : Quicksorter Value) : Launch :=
  .cudaWritePivot
    { blockSize := q.threadsPerBlock
      gridSize := q.host_1stPhaseTasksAmount
      dynamicSharedMemorySize := M.sizeofValue }
    q.desired_2ndPhasElemPerBlock (currentTasks q.iteration) (nextTasks q.iteration)

/-- The end of the loop body of `firstPhase` (from `auto& task = …` to `iteration++`): the
partition launch, the spawn launch, `processNewTasks()` and `iteration++`. -/
def partitionAndSpawn {Value : Type} (M : Machine Value) (q : Quicksorter Value)
    (elemPerBlock blocksCnt : Int) : Quicksorter Value :=
  -- do the partitioning
  let q := launchKernelSync M (partitionLaunch M q elemPerBlock blocksCnt) q
  -- fill in the gap between smaller and bigger with elements == pivot
  let q := launchKernelSync M (writePivotLaunch M q) q
  let q := processNewTasks q
  { q with iteration := q.iteration + 1 }

/-- The second half of the loop body of `firstPhase` (from `int elemPerBlock =
getElemPerBlock();` to `iteration++`): block assignment, partition, spawn, new counts. -/
def distributedRound {Value : Type} (M : Machine Value) (q : Quicksorter Value) :
    Except Fault (LoopStep (Quicksorter Value)) := do
  let elemPerBlock := getElemPerBlock q
  let (blocksCnt, q) ← initTasks M elemPerBlock q
  -- not enough or too many blocks needed, switch to 2nd phase
  if blocksCnt ≤ 1 ∨ blocksCnt > q.dev.cuda_blockToTaskMapping.length then
    pure (.exit q)
  else
    pure (.next (partitionAndSpawn M q elemPerBlock blocksCnt))

/-- The body of the `while` loop of `Quicksorter::firstPhase( Cmp )`, entered with
`host_1stPhaseTasksAmount > 0`.  The test `host_2ndPhaseTasksAmount >= 0.75 * maxTasks`
compares two integers below `2^31` in `double`, where `0.75` and the product are exact; it
is written `4 * host_2ndPhaseTasksAmount >= 3 * maxTasks`. -/
def firstPhaseBody {Value : Type} (M : Machine Value) (q : Quicksorter Value) :
    Except Fault (LoopStep (Quicksorter Value)) :=
  if q.host_1stPhaseTasksAmount ≥ q.maxTasks then
    pure (.exit q)
  else do
    -- 2nd phase occupies enoughs tasks to warrant premature 2nd phase sort
    let q ← if q.host_2ndPhaseTasksAmount ≥ q.maxTasks then prematureSecondPhase M q else pure q
    -- just in case newly created tasks wouldnt fit
    -- bite the bullet and sort with single blocks
    if q.host_1stPhaseTasksAmount * 2 ≥ q.maxTasks + (q.maxTasks - q.host_2ndPhaseTasksAmount)
    then
      if 4 * q.host_2ndPhaseTasksAmount ≥ 3 * q.maxTasks then do
        let q ← prematureSecondPhase M q
        distributedRound M q
      else
        pure (.exit q)
    else
      distributedRound M q

/-- Method `Quicksorter::firstPhase( Cmp )`: the `while( host_1stPhaseTasksAmount > 0 )` loop, run
for at most `fuel` passes through its body. -/
def firstPhase {Value : Type} (M : Machine Value) :
    Nat → Quicksorter Value → Except Fault (Quicksorter Value)
  | 0, q => if q.host_1stPhaseTasksAmount > 0 then .error .outOfFuel else .ok q
  | fuel + 1, q =>
    if q.host_1stPhaseTasksAmount > 0 then
      match firstPhaseBody M q with
      | .error e => .error e
      | .ok (.exit q) => .ok q
      | .ok (.next q) => firstPhase M fuel q
    else .ok q

/-- Method `Quicksorter::performSort( Cmp )` (without the `CHECK_RESULT_SORT` diagnostics). -/
def performSort {Value : Type} (M : Machine Value) (fuel : Nat) (q : Quicksorter Value) :
    Except Fault (Quicksorter Value) := do
  let q ← firstPhase M fuel q
  let total2ndPhase := q.host_1stPhaseTasksAmount + q.host_2ndPhaseTasksAmount
  if total2ndPhase > 0 then secondPhase M q else pure q

/-- The scheduler `q'` has the configuration of `q`: the fields `init` sets and no later
statement assigns, the round counter, and the sizes of the device arrays. -/
def SameConfig {Value : Type} (q q' : Quicksorter Value) : Prop :=
  q'.maxBlocks = q.maxBlocks ∧ q'.threadsPerBlock = q.threadsPerBlock ∧
  q'.desiredElemPerBlock = q.desiredElemPerBlock ∧ q'.maxSharable = q.maxSharable ∧
  q'.desired_2ndPhasElemPerBlock = q.desired_2ndPhasElemPerBlock ∧
  q'.maxTasks = q.maxTasks ∧ q'.iteration = q.iteration ∧
  q'.dev.cuda_tasks.length = q.dev.cuda_tasks.length ∧
  q'.dev.cuda_newTasks.length = q.dev.cuda_newTasks.length ∧
  q'.dev.cuda_2ndPhaseTasks.length = q.dev.cuda_2ndPhaseTasks.length ∧
  q'.dev.cuda_blockToTaskMapping.length = q.dev.cuda_blockToTaskMapping.length ∧
  q'.dev.cuda_reductionTaskInitMem.length = q.dev.cuda_reductionTaskInitMem.length

instance {Value : Type} (q q' : Quicksorter Value) : Decidable (SameConfig q q') := by
  unfold SameConfig
  infer_instance

/-- The scheduler `q'` has the set-up of `q`: the fields `init` sets and no later statement
assigns, and the sizes of the device arrays (the round counter may differ). -/
def SameSetup {Value : Type} (q q' : Quicksorter Value) : Prop :=
  q'.maxBlocks = q.maxBlocks ∧ q'.threadsPerBlock = q.threadsPerBlock ∧
  q'.desiredElemPerBlock = q.desiredElemPerBlock ∧ q'.maxSharable = q.maxSharable ∧
  q'.desired_2ndPhasElemPerBlock = q.desired_2ndPhasElemPerBlock ∧
  q'.maxTasks = q.maxTasks ∧
  q'.dev.cuda_tasks.length = q.dev.cuda_tasks.length ∧
  q'.dev.cuda_newTasks.length = q.dev.cuda_newTasks.length ∧
  q'.dev.cuda_2ndPhaseTasks.length = q.dev.cuda_2ndPhaseTasks.length ∧
  q'.dev.cuda_blockToTaskMapping.length = q.dev.cuda_blockToTaskMapping.length ∧
  q'.dev.cuda_reductionTaskInitMem.length = q.dev.cuda_reductionTaskInitMem.length

instance {Value : Type} (q q' : Quicksorter Value) : Decidable (SameSetup q q') := by
  unfold SameSetup
  infer_instance

/-- The scheduler a pass through the loop body of `firstPhase` ends with. -/
def LoopStep.state {σ : Type} : LoopStep σ → σ
  | .exit s => s
  | .next s => s

/-- The host task counts are within the queue capacity: `0 <= host_1stPhaseTasksAmount <=
maxTasks`, `0 <= host_2ndPhaseTasksAmount <= maxTasks`, the three task queues and
`cuda_reductionTaskInitMem` have `maxTasks` entries (as `init` sizes them) and the device
counter of the terminal queue is not negative. -/
def CountsInBounds {Value : Type} (q : Quicksorter Value) : Prop :=
  0 ≤ q.host_1stPhaseTasksAmount ∧ q.host_1stPhaseTasksAmount ≤ q.maxTasks ∧
  0 ≤ q.host_2ndPhaseTasksAmount ∧ q.host_2ndPhaseTasksAmount ≤ q.maxTasks ∧
  (q.dev.cuda_tasks.length : Int) = q.maxTasks ∧
  (q.dev.cuda_newTasks.length : Int) = q.maxTasks ∧
  (q.dev.cuda_2ndPhaseTasks.length : Int) = q.maxTasks ∧
  (q.dev.cuda_reductionTaskInitMem.length : Int) = q.maxTasks ∧
  0 ≤ q.dev.cuda_2ndPhaseTasksAmount

instance {Value : Type} (q : Quicksorter Value) : Decidable (CountsInBounds q) := by
  unfold CountsInBounds
  infer_instance

/-- Modelled from the spec: the kernels are not among the sources.  §4.3: the spawn stage is
"the only place new tasks are created" and it counts them; no kernel takes a task back, so a
launch never decreases either of the two device counters. -/
def CountersOnlyGrow {Value : Type} (M : Machine Value) : Prop :=
  ∀ (l : Launch) (d : Device Value),
    d.cuda_newTasksAmount ≤ (M.exec l d).cuda_newTasksAmount ∧
    d.cuda_2ndPhaseTasksAmount ≤ (M.exec l d).cuda_2ndPhaseTasksAmount

/-- The argument `elemInShared` of a launch of the self-contained stage: how many elements
of a task the kernel may stage in the dynamic shared memory of its block. -/
def Launch.elemInShared : Launch → Option Int
  | .cudaQuickSort2ndPhase _ _ _ elemInShared _ => some elemInShared
  | .cudaQuickSort2ndPhase2 _ _ _ _ elemInShared _ => some elemInShared
  | _ => none

/-- The value of an unsigned 64-bit expression (`size_t` arithmetic wraps modulo `2^64`). -/
def toSizeT (x : Int) : Int := x % 2 ^ 64

/-- The conversion of an integer value to `int` (32 bits, two's complement). -/
def toInt (x : Int) : Int :=
  let r := x % 2 ^ 32
  if r < 2 ^ 31 then r else r - 2 ^ 32

/-- The end of `Quicksorter::sort( arr, cmp )` for a shared-memory configuration: the
assertion, `init` and `performSort`. -/
def sortShared {Value : Type} [Inhabited Value] (M : Machine Value) (fuel : Nat)
    (q : Quicksorter Value) (arr : List Value) (maxBlocks blockDim multiplier maxSharable : Int) :
    Except Fault (Quicksorter Value) :=
  if ¬ (toInt (toSizeT (blockDim * multiplier * M.sizeofValue)) ≤ maxSharable) then
    .error .assertionFailed
  else do
    let q ← init M q arr maxBlocks blockDim (multiplier * blockDim) maxSharable
    performSort M fuel q

/-- Method `Quicksorter< Value, Devices::Cuda >::sort( arr, cmp )` compiled with CUDA, on a device
whose `cudaDeviceProp::sharedMemPerBlock` is `sharedMemPerBlock`; `sizeof( int )` is 4 and
`size_t` has 64 bits. -/
def Quicksorter.sort {Value : Type} [Inhabited Value] (M : Machine Value)
    (sharedMemPerBlock : Int) (fuel : Nat) (q : Quicksorter Value) (arr : List Value) :
    Except Fault (Quicksorter Value) :=
  let sharedReserve : Int := toInt (toSizeT (4 * (16 + 3 * 32)))
  let maxSharable : Int := toInt (toSizeT (sharedMemPerBlock - sharedReserve))
  let blockDim : Int := 512
  -- try to use up all of shared memory to store elements
  let elemPerBlock : Int := toInt (toSizeT (maxSharable - M.sizeofValue) / M.sizeofValue)
  let maxBlocks : Int := 2 ^ 20
  let maxMultiplier : Int := 8
  let multiplier : Int := min (cdiv elemPerBlock blockDim) maxMultiplier
  if multiplier ≤ 0 then
    -- a block cant store 512 elements, sorting some really big data
    let blockDim : Int := 256
    let multiplier : Int := min (cdiv elemPerBlock blockDim) maxMultiplier
    if multiplier ≤ 0 then do
      -- sort has to be done with the use of global memory alone
      let q ← init M q arr maxBlocks 512 0 0
      performSort M fuel q
    else
      sortShared M fuel q arr maxBlocks blockDim multiplier maxSharable
  else
    sortShared M fuel q arr maxBlocks blockDim multiplier maxSharable

/-- Method `Quicksort::sort( array, compare )`: a new `Quicksorter` sorts the array in place; the
result is the array after the call. -/
def Quicksort.sort {Value : Type} [Inhabited Value] (M : Machine Value)
    (sharedMemPerBlock : Int) (fuel : Nat) (array : List Value) : Except Fault (List Value) :=
  match Quicksorter.sort M sharedMemPerBlock fuel (Quicksorter.fresh Value) array with
  | .ok qs => .ok qs.dev.arr
  | .error e => .error e

/-! ### The kernels, modelled from the spec -/

/-- One of the two data arrays. -/
def Device.data {Value : Type} (d : Device Value) : DataArray → List Value
  | .arr => d.arr
  | .aux => d.aux

/-- Replace one of the two data arrays. -/
def Device.setData {Value : Type} (d : Device Value) (a : DataArray) (xs : List Value) :
    Device Value :=
  match a with
  | .arr => { d with arr := xs }
  | .aux => { d with aux := xs }

/-- Replace one of the three task queues. -/
def Device.setQueue {Value : Type} (d : Device Value) (k : TaskQueue) (ts : List TASK) :
    Device Value :=
  match k with
  | .cuda_tasks => { d with cuda_tasks := ts }
  | .cuda_newTasks => { d with cuda_newTasks := ts }
  | .cuda_2ndPhaseTasks => { d with cuda_2ndPhaseTasks := ts }

/-- Modelled from the spec: §3 "the algorithm alternates which one is source and which is
destination each round (parity of round counter)"; a task created in round `depth` has its
elements in `arr` when `depth` is even and in `aux` when it is odd. -/
def sourceOf (depth : Int) : DataArray := if cmod depth 2 = 0 then .arr else .aux

/-- The other array: where the partition of a task of this depth writes. -/
def destinationOf (depth : Int) : DataArray := if cmod depth 2 = 0 then .aux else .arr

/-- The elements `a[ b ], …, a[ e - 1 ]`. -/
def slice {α : Type} (a : List α) (b e : Int) : List α :=
  (a.drop b.toNat).take (e - b).toNat

/-- Store `xs` at the positions `pos, pos + 1, …` of `a` (positions outside `a` are not
written). -/
def writeAt {α : Type} : List α → Nat → List α → List α
  | a, _, [] => a
  | a, pos, x :: xs => writeAt (a.set pos x) (pos + 1) xs

/-- Modelled from the spec: the partition kernel `cudaQuickSort1stPhase`
(`quicksort_kernel.h`) is not among the sources.  §4.2 for one task: the pivot is the first
element of the range; the elements `< pivot` go to the destination array from `begin` on, the
elements `> pivot` to the positions ending at `end`; the gap between them is left for the
next stage. -/
def partitionTask {Value : Type} (cmp : Value → Value → Bool) (d : Device Value) (t : TASK) :
    Device Value :=
  match slice (d.data (sourceOf t.depth)) t.partitionBegin t.partitionEnd with
  | [] => d
  | pivot :: rest =>
    let smaller := (pivot :: rest).filter (fun x => cmp x pivot)
    let bigger := (pivot :: rest).filter (fun x => cmp pivot x)
    let dst := d.data (destinationOf t.depth)
    let dst := writeAt dst t.partitionBegin.toNat smaller
    let dst := writeAt dst (t.partitionEnd.toNat - bigger.length) bigger
    d.setData (destinationOf t.depth) dst

/-- Modelled from the spec: §4.3 "emit into the opposite ping-pong buffer as a new
distributed task"; the device counter counts every emitted task, a task whose index is
beyond the capacity of the buffer is not stored. -/
def emitDistributed {Value : Type} (newTask : TaskQueue) (d : Device Value) (t : TASK) :
    Device Value :=
  { d.setQueue newTask ((d.queue newTask).set d.cuda_newTasksAmount.toNat t) with
    cuda_newTasksAmount := d.cuda_newTasksAmount + 1 }

/-- Modelled from the spec: §4.3 "emit into the self-contained queue". -/
def emitSelfContained {Value : Type} (d : Device Value) (t : TASK) : Device Value :=
  { d with
    cuda_2ndPhaseTasks := d.cuda_2ndPhaseTasks.set d.cuda_2ndPhaseTasksAmount.toNat t
    cuda_2ndPhaseTasksAmount := d.cuda_2ndPhaseTasksAmount + 1 }

/-- Modelled from the spec: §4.3 for one sub-range: nothing for an empty range, the
self-contained queue for a range of at most `threshold` elements, the opposite ping-pong
buffer otherwise. -/
def emitChild {Value : Type} (threshold : Int) (newTask : TaskQueue) (d : Device Value)
    (t : TASK) : Device Value :=
  if t.partitionEnd - t.partitionBegin ≤ 0 then d
  else if t.partitionEnd - t.partitionBegin ≤ threshold then emitSelfContained d t
  else emitDistributed newTask d t

/-- Modelled from the spec: the spawn kernel `cudaWritePivot` (`quicksort_kernel.h`) is not
among the sources.  §4.3 over the tasks of the round, one after the other: the pivot run is
written into the gap (its final place in `arr`, §2) and the left and the right sub-range
are emitted with `depth + 1`; when the self-contained queue cannot take the sub-ranges of a
task, spawning stops and that task and the remaining ones are carried over unprocessed in
the opposite buffer. -/
def spawnTasks {Value : Type} (cmp : Value → Value → Bool) (threshold : Int)
    (newTask : TaskQueue) : List TASK → Device Value → Device Value
  | [], d => d
  | t :: ts, d =>
    match slice (d.data (sourceOf t.depth)) t.partitionBegin t.partitionEnd with
    | [] => spawnTasks cmp threshold newTask ts d
    | pivot :: rest =>
      let smaller : Int := ((pivot :: rest).filter (fun x => cmp x pivot)).length
      let bigger : Int := ((pivot :: rest).filter (fun x => cmp pivot x)).length
      let left : TASK := ⟨t.partitionBegin, t.partitionBegin + smaller, t.depth + 1⟩
      let right : TASK := ⟨t.partitionEnd - bigger, t.partitionEnd, t.depth + 1⟩
      let small : Int :=
        (if 0 < smaller ∧ smaller ≤ threshold then 1 else 0)
          + (if 0 < bigger ∧ bigger ≤ threshold then 1 else 0)
      if d.cuda_2ndPhaseTasksAmount + small > d.cuda_2ndPhaseTasks.length then
        (t :: ts).foldl (emitDistributed newTask) d
      else
        let gap : Nat := (t.partitionEnd - t.partitionBegin - smaller - bigger).toNat
        let d := { d with
          arr := writeAt d.arr (t.partitionBegin + smaller).toNat (List.replicate gap pivot) }
        let d := emitChild threshold newTask d left
        let d := emitChild threshold newTask d right
        spawnTasks cmp threshold newTask ts d

/-- Modelled from the spec: the kernels `cudaQuickSort2ndPhase` and `cudaQuickSort2ndPhase2`
(`quicksort_1Block.h`) are not among the sources.  §4.4: "for each task in the terminal
queue, a single execution group completes the sort independently"; the sorted range ends in
the caller's array `arr`. -/
def sortTasks {Value : Type} (cmp : Value → Value → Bool) : List TASK → Device Value →
    Device Value
  | [], d => d
  | t :: ts, d =>
    let range := slice (d.data (sourceOf t.depth)) t.partitionBegin t.partitionEnd
    let sorted := range.insertionSort (fun a b => cmp b a = false)
    sortTasks cmp ts { d with arr := writeAt d.arr t.partitionBegin.toNat sorted }

/-- Modelled from the spec: the kernel `cudaInitTask` (`quicksort_kernel.h`) is not among the
sources.  §4.5: the inclusive prefix sum "yields, for each group index, which task it
serves": group `g` serves the first task whose prefix sum exceeds `g`. -/
def blockToTask (sums : List Int) (blocksNeeded : Nat) : List Int :=
  (List.range blocksNeeded).map
    (fun g => ((sums.findIdx (fun s => decide ((g : Int) < s)) : Nat) : Int))

/-- Modelled from the spec: the effect of one kernel launch with comparator `cmp` (§4.2 to
§4.5), the kernels themselves not being among the sources. -/
def specExec {Value : Type} (cmp : Value → Value → Bool) : Launch → Device Value → Device Value
  | .cudaCalcBlocksNeeded .., d => d
  | .cudaInitTask _ _ count blocksNeeded _, d =>
    { d with
      cuda_blockToTaskMapping :=
        blockToTask (d.cuda_reductionTaskInitMem.take count.toNat) blocksNeeded.toNat
          ++ d.cuda_blockToTaskMapping.drop blocksNeeded.toNat }
  | .cudaQuickSort1stPhase _ cfg _ task, d =>
    ((d.cuda_blockToTaskMapping.take cfg.gridSize.toNat).dedup).foldl
      (fun d i => match (d.queue task).get? i.toNat with
        | some t => partitionTask cmp d t
        | none => d) d
  | .cudaWritePivot cfg threshold task newTask, d =>
    spawnTasks cmp threshold newTask ((d.queue task).take cfg.gridSize.toNat) d
  | .cudaQuickSort2ndPhase _ tasks count _ _, d =>
    sortTasks cmp ((d.queue tasks).take count.toNat) d
  | .cudaQuickSort2ndPhase2 _ tasks count count2 _ _, d =>
    sortTasks cmp ((d.queue tasks).take count.toNat ++ d.cuda_2ndPhaseTasks.take count2.toNat) d

/-! ### Example machines -/

/-- A machine for examples: `int` elements (4 bytes) compared with `<`, `g_maxTasks = 1 << 14`
and the kernels as modelled from the spec. -/
def exampleMachine : Machine Int :=
  { sizeofValue := 4, g_maxTasks := 16384, exec := specExec (fun a b => decide (a < b)) }

/-- The result of a run, or `d` when the run faulted. -/
def valueOr {α : Type} (d : α) : Except Fault α → α
  | .ok a => a
  | .error _ => d

/-- The scheduler `init` leaves for the array `[3, 1, 2]` with 8 blocks of 2 threads,
threshold 2 and 1000 bytes of shared memory, on a machine with `g_maxTasks >= 3`. -/
def exampleScheduler : Quicksorter Int :=
  { maxBlocks := 8, threadsPerBlock := 2, desiredElemPerBlock := 2, maxSharable := 1000,
    desired_2ndPhasElemPerBlock := 2, maxTasks := 3,
    host_1stPhaseTasksAmount := 1, host_2ndPhaseTasksAmount := 0, iteration := 0,
    dev :=
      { arr := [3, 1, 2], aux := [0, 0, 0],
        cuda_tasks := [⟨0, 3, 0⟩, ⟨0, 0, 0⟩, ⟨0, 0, 0⟩],
        cuda_newTasks := [⟨0, 0, 0⟩, ⟨0, 0, 0⟩, ⟨0, 0, 0⟩],
        cuda_2ndPhaseTasks := [⟨0, 0, 0⟩, ⟨0, 0, 0⟩, ⟨0, 0, 0⟩],
        cuda_newTasksAmount := 0, cuda_2ndPhaseTasksAmount := 0,
        cuda_blockToTaskMapping := [0, 0, 0, 0, 0, 0, 0, 0],
        cuda_reductionTaskInitMem := [0, 0, 0] },
    launches := [] }

/-- The scheduler at the end of the first distributed round on `[3, 1, 2]`. -/
def exampleRoundEnd : Quicksorter Int :=
  partitionAndSpawn exampleMachine
    (afterInitTask exampleMachine (afterCalcBlocksNeeded 2 exampleScheduler) 2) 2 2

/-- The scheduler `firstPhase` returns for `[3, 1, 2]`. -/
def exampleAfterFirstPhase : Quicksorter Int :=
  valueOr exampleScheduler (firstPhase exampleMachine 3 exampleScheduler)

/-- The example machine with a task queue of two entries (`g_maxTasks = 2`). -/
def smallQueueMachine : Machine Int :=
  { exampleMachine with g_maxTasks := 2 }

/-- The scheduler `init` leaves on `smallQueueMachine` for the array `[2, 1, 1, 3, 3]` with
threshold 1, after `initTasks` has counted the 5 blocks of its single task. -/
def smallQueueScheduler : Quicksorter Int :=
  afterInitTask smallQueueMachine
    (afterCalcBlocksNeeded 1
      (valueOr (Quicksorter.fresh Int)
        (init smallQueueMachine (Quicksorter.fresh Int) [2, 1, 1, 3, 3] 8 2 1 1000))) 5

/-- The example machine with a task queue of four entries (`g_maxTasks = 4`). -/
def growthMachine : Machine Int :=
  { exampleMachine with g_maxTasks := 4 }

/-- The scheduler at the top of the loop of `firstPhase` after `n` distributed rounds on the
array `[8, 2, 5, 3, 4, 6, 7, 1, 10, 11, 12, 13, 9]`, sorted on `growthMachine` with 16
blocks of 2 threads, threshold 1 and 1000 bytes of shared memory. -/
def growthRound : Nat → Quicksorter Int
  | 0 =>
    valueOr (Quicksorter.fresh Int)
      (init growthMachine (Quicksorter.fresh Int) [8, 2, 5, 3, 4, 6, 7, 1, 10, 11, 12, 13, 9]
        16 2 1 1000)
  | n + 1 =>
    match firstPhaseBody growthMachine (growthRound n) with
    | .ok (.next q) => q
    | _ => growthRound n

/-- The scheduler at the top of the loop of `firstPhase` after `n` distributed rounds on the
array `[8, 2, 5, 3, 4, 6, 7, 1, 10, 12, 11, 13, 14, 9]`, with the same configuration. -/
def drainRound : Nat → Quicksorter Int
  | 0 =>
    valueOr (Quicksorter.fresh Int)
      (init growthMachine (Quicksorter.fresh Int)
        [8, 2, 5, 3, 4, 6, 7, 1, 10, 12, 11, 13, 14, 9] 16 2 1 1000)
  | n + 1 =>
    match firstPhaseBody growthMachine (drainRound n) with
    | .ok (.next q) => q
    | _ => drainRound n

/-- A machine whose elements have 50000 bytes, with kernels that leave device memory as it
is. -/
def bigValueMachine : Machine Int :=
  { sizeofValue := 50000, g_maxTasks := 16384, exec := fun _ d => d }

/-- The scheduler `init` leaves on `exampleMachine` for the array `[3, 1, 5, 2, 4]` with a
block map of 2 entries, 2 threads per block, threshold 2 and 1000 bytes of shared memory. -/
def blockOverflowScheduler : Quicksorter Int :=
  valueOr (Quicksorter.fresh Int)
    (init exampleMachine (Quicksorter.fresh Int) [3, 1, 5, 2, 4] 2 2 2 1000)

/-! ## Algorithms/Sorting/BubbleSort.h -/

namespace BubbleSort

/-- What stops `BubbleSort::inplaceSort`: the `NotImplementedError` thrown for the CUDA device, a
failed `TNL_ASSERT_LT`, or a loop that used up the fuel given to it. -/
inductive Stop where
  | notImplemented
  | assertionFailed
  | outOfFuel
deriving DecidableEq

/-- The body of both `for` loops of `inplaceSort`: `TNL_ASSERT_LT( j + 1, end, "" );
if( ! compare( j, j + 1 ) ) swap( j, j + 1 );`.  The callables `compare` and `swap` are passed
by reference and act on a state `σ`. -/
def compareSwap {σ : Type} (end_ : Int) (compare : Int → Int → σ → Bool × σ)
    (swap : Int → Int → σ → σ) (j : Int) (s : σ) : Except Stop σ :=
  if ¬ (j + 1 < end_) then .error .assertionFailed
  else
    let r := compare j (j + 1) s
    if ¬ r.1 then .ok (swap j (j + 1) r.2) else .ok r.2

/-- The forward loop `for( Index j = left; j < right - 1; j++ ) { … }` from its loop variable
`j` on, for at most `fuel` passes. -/
def forwardPass {σ : Type} (end_ : Int) (compare : Int → Int → σ → Bool × σ)
    (swap : Int → Int → σ → σ) (right : Int) : Nat → Int → σ → Except Stop σ
  | 0, j, s => if j < right - 1 then .error .outOfFuel else .ok s
  | fuel + 1, j, s =>
    if j < right - 1 then
      match compareSwap end_ compare swap j s with
      | .error e => .error e
      | .ok s => forwardPass end_ compare swap right fuel (j + 1) s
    else .ok s

/-- The backward loop `for( Index j = right; j >= left; j-- ) { … }` from its loop variable
`j` on, for at most `fuel` passes. -/
def backwardPass {σ : Type} (end_ : Int) (compare : Int → Int → σ → Bool × σ)
    (swap : Int → Int → σ → σ) (left : Int) : Nat → Int → σ → Except Stop σ
  | 0, j, s => if j ≥ left then .error .outOfFuel else .ok s
  | fuel + 1, j, s =>
    if j ≥ left then
      match compareSwap end_ compare swap j s with
      | .error e => .error e
      | .ok s => backwardPass end_ compare swap left fuel (j - 1) s
    else .ok s

/-- The loop `while( left < right ) { forward loop; right--; backward loop; left++; }` of
`inplaceSort`, for at most `fuel` passes; the two `for` loops are given `end - begin` passes
each. -/
def sortLoop {σ : Type} (begin end_ : Int) (compare : Int → Int → σ → Bool × σ)
    (swap : Int → Int → σ → σ) : Nat → Int → Int → σ → Except Stop σ
  | 0, left, right, s => if left < right then .error .outOfFuel else .ok s
  | fuel + 1, left, right, s =>
    if left < right then
      match forwardPass end_ compare swap right (end_ - begin).toNat left s with
      | .error e => .error e
      | .ok s =>
        let right := right - 1
        match backwardPass end_ compare swap left (end_ - begin).toNat right s with
        | .error e => .error e
        | .ok s => sortLoop begin end_ compare swap fuel (left + 1) right s
    else .ok s

/-- Method `BubbleSort::inplaceSort< Device, Index, Compare, Swap >( begin, end, compare, swap )`
for a signed `Index`; `deviceIsCuda` is `std::is_same< Device, Devices::Cuda >::value`.  The
`while` loop is given `end - begin` passes. -/
def inplaceSort {σ : Type} (deviceIsCuda : Bool) (begin end_ : Int)
    (compare : Int → Int → σ → Bool × σ) (swap : Int → Int → σ → σ) (s : σ) : Except Stop σ :=
  if deviceIsCuda then .error .notImplemented
  else
    let left := begin
    let right := end_ - 1
    sortLoop begin end_ compare swap (end_ - begin).toNat left right s

/-- A `compare` that also records the index pair it is called with. -/
def recordCompare {σ : Type} (compare : Int → Int → σ → Bool × σ) :
    Int → Int → σ × List (Int × Int) → Bool × (σ × List (Int × Int)) :=
  fun i j st => ((compare i j st.1).1, ((compare i j st.1).2, st.2 ++ [(i, j)]))

/-- A `swap` that also records the index pair it is called with. -/
def recordSwap {σ : Type} (swap : Int → Int → σ → σ) :
    Int → Int → σ × List (Int × Int) → σ × List (Int × Int) :=
  fun i j st => (swap i j st.1, st.2 ++ [(i, j)])

/-- The elements of `s` with those at `i` and `j` exchanged. -/
def exchange {α : Type} (s : Int → α) (i j : Int) : Int → α :=
  fun k => if k = i then s j else if k = j then s i else s k

/-- A `compare( i, j )` meaning "the element at `i` is `<=` the element at `j`", on an array
given by its elements. -/
def elementCompare {α : Type} (le : α → α → Bool) :
    Int → Int → (Int → α) → Bool × (Int → α) :=
  fun i j s => (le (s i) (s j), s)

/-- A `swap( i, j )` exchanging the elements at `i` and `j`. -/
def elementSwap {α : Type} : Int → Int → (Int → α) → (Int → α) :=
  fun i j s => exchange s i j

/-- The array whose elements at `0, 1, …` are those of `xs` (0 elsewhere). -/
def arrayOf (xs : List Int) : Int → Int :=
  fun k => if 0 ≤ k then xs.getD k.toNat 0 else 0

/-- The elements at `begin, …, end - 1` of the array `inplaceSort` leaves (none when it
stops). -/
def sortedElements (begin end_ : Int) (r : Except Stop (Int → Int)) : List Int :=
  match r with
  | .ok s => (List.range (end_ - begin).toNat).map (fun k => s (begin + k))
  | .error _ => []

end BubbleSort


/-- A machine whose elements have 30000 bytes, with the kernels as modelled from the spec. -/
def largeValueMachine : Machine Int :=
  { sizeofValue := 30000, g_maxTasks := 16384, exec := specExec (fun a b => decide (a < b)) }

/-- Modelled from the spec: the kernels are not among the sources.  §4.4: in the
self-contained stage "a single execution group completes the sort independently" of each
task; the kernel is given `arr`, `aux` and views of the tasks to sort, and writes the two data
arrays only. -/
def SelfContainedStageWritesData {Value : Type} (M : Machine Value) : Prop :=
  ∀ (l : Launch) (d : Device Value), l.isSecondPhase = true →
    (M.exec l d).cuda_tasks = d.cuda_tasks ∧
    (M.exec l d).cuda_newTasks = d.cuda_newTasks ∧
    (M.exec l d).cuda_2ndPhaseTasks = d.cuda_2ndPhaseTasks ∧
    (M.exec l d).cuda_newTasksAmount = d.cuda_newTasksAmount ∧
    (M.exec l d).cuda_blockToTaskMapping = d.cuda_blockToTaskMapping ∧
    (M.exec l d).cuda_reductionTaskInitMem = d.cuda_reductionTaskInitMem


end Sorting
end Algorithms

/-! ## Theorems -/

namespace MatrixOperations

theorem forLoop_of_le {σ : Type} (lo hi : Nat) (body : Nat → σ → σ) (s : σ) (h : hi ≤ lo) :
    forLoop lo hi body s = s := by
  unfold forLoop
  have : hi - lo = 0 := by omega
  simp [this]

theorem forLoop_succ {σ : Type} (lo hi : Nat) (body : Nat → σ → σ) (s : σ) (h : lo ≤ hi) :
    forLoop lo (hi + 1) body s = body hi (forLoop lo hi body s) := by
  unfold forLoop
  have e : hi + 1 - lo = (hi - lo) + 1 := by omega
  rw [e, List.range'_concat, List.foldl_append]
  have e2 : lo + (hi - lo) = hi := by omega
  simp [e2]

theorem forLoop_store {α : Type} (off lo hi : Nat) (g : Nat → α → α) (y : Nat → α) (i : Nat) :
    forLoop lo hi (fun j y => store y (off + j) (g j (y (off + j)))) y i
      = if off + lo ≤ i ∧ i < off + hi then g (i - off) (y i) else y i := by
  induction hi with
  | zero =>
    rw [forLoop_of_le _ _ _ _ (Nat.zero_le _)]
    have : ¬ (off + lo ≤ i ∧ i < off + 0) := by omega
    rw [if_neg this]
  | succ hi ih =>
    by_cases h : lo ≤ hi
    · rw [forLoop_succ _ _ _ _ h]
      simp only [store]
      by_cases hi' : i = off + hi
      · subst hi'
        have c1 : off + lo ≤ off + hi ∧ off + hi < off + (hi + 1) := by omega
        have c2 : ¬ (off + lo ≤ off + hi ∧ off + hi < off + hi) := by omega
        rw [if_pos rfl, if_pos c1, ih, if_neg c2]
        simp
      · rw [if_neg hi', ih]
        by_cases c : off + lo ≤ i ∧ i < off + hi
        · have c' : off + lo ≤ i ∧ i < off + (hi + 1) := by omega
          rw [if_pos c, if_pos c']
        · have c' : ¬ (off + lo ≤ i ∧ i < off + (hi + 1)) := by omega
          rw [if_neg c, if_neg c']
    · rw [forLoop_of_le _ _ _ _ (by omega)]
      have : ¬ (off + lo ≤ i ∧ i < off + (hi + 1)) := by omega
      rw [if_neg this]

theorem forLoop_sum {α : Type} [CommRing α] (n : Nat) (f : Nat → α) (c : α) :
    forLoop 0 n (fun k tmp => tmp + f k) c = c + ∑ k in Finset.range n, f k := by
  induction n with
  | zero => simp [forLoop]
  | succ n ih =>
    rw [forLoop_succ _ _ _ _ (Nat.zero_le _), ih, Finset.sum_range_succ]
    ring

theorem alphax_eq {α : Type} [CommRing α] (n : Nat) (alpha : α) (x : Nat → α) (k : Nat)
    (hk : k < n) :
    forLoop 0 n (fun k ax => store ax k (alpha * x k)) (fun _ => 0) k = alpha * x k := by
  have h := forLoop_store 0 0 n (fun k _ => alpha * x k) (fun _ => (0 : α)) k
  simp only [Nat.zero_add] at h
  rw [h, if_pos (by omega)]
  simp

theorem aux_accumulate {α : Type} [CommRing α] (n bs bo lda : Nat) (A ax : Nat → α)
    (aux0 : Nat → α) (j : Nat) (hj : j < bs) :
    forLoop 0 n (fun k aux =>
        forLoop 0 bs (fun j aux => store aux j (aux j + A (bo + k * lda + j) * ax k)) aux) aux0 j
      = aux0 j + ∑ k in Finset.range n, A (bo + k * lda + j) * ax k := by
  induction n with
  | zero => simp [forLoop]
  | succ n ih =>
    rw [forLoop_succ _ _ _ _ (Nat.zero_le _)]
    have h := forLoop_store 0 0 bs (fun j v => v + A (bo + n * lda + j) * ax n)
      (forLoop 0 n (fun k aux =>
        forLoop 0 bs (fun j aux => store aux j (aux j + A (bo + k * lda + j) * ax k)) aux) aux0) j
    simp only [Nat.zero_add] at h
    rw [h, if_pos (by omega), ih, Finset.sum_range_succ]
    simp only [Nat.sub_zero]
    ring

theorem aux_zero {α : Type} [CommRing α] (bs : Nat) (a : Nat → α) (j : Nat) (hj : j < bs) :
    forLoop 0 bs (fun j aux => store aux j 0) a j = 0 := by
  have h := forLoop_store 0 0 bs (fun _ _ => (0 : α)) a j
  simp only [Nat.zero_add] at h
  rw [h, if_pos (by omega)]


/-- One complete block of `gemv`: the rows `b*bs ≤ i < b*bs + bs` receive their final value. -/
theorem block_body {α : Type} [CommRing α] [DecidableEq α] (n bs lda b : Nat) (A ax : Nat → α)
    (beta : α) (y : Nat → α) (i : Nat) :
    (if beta ≠ 0 then
        forLoop 0 bs (fun j y => store y (b * bs + j)
          ((forLoop 0 n (fun k aux =>
              forLoop 0 bs (fun j aux => store aux j (aux j + A (b * bs + k * lda + j) * ax k)) aux)
            (forLoop 0 bs (fun j aux => store aux j 0) (fun _ => 0))) j
            + beta * y (b * bs + j))) y
      else
        forLoop 0 bs (fun j y => store y (b * bs + j)
          ((forLoop 0 n (fun k aux =>
              forLoop 0 bs (fun j aux => store aux j (aux j + A (b * bs + k * lda + j) * ax k)) aux)
            (forLoop 0 bs (fun j aux => store aux j 0) (fun _ => 0))) j)) y) i
      = if b * bs ≤ i ∧ i < b * bs + bs then
          (∑ k in Finset.range n, A (i + k * lda) * ax k) + beta * y i
        else y i := by
  have haux : ∀ j, j < bs →
      (forLoop 0 n (fun k aux =>
              forLoop 0 bs (fun j aux => store aux j (aux j + A (b * bs + k * lda + j) * ax k)) aux)
            (forLoop 0 bs (fun j aux => store aux j 0) (fun _ => 0))) j
        = ∑ k in Finset.range n, A (b * bs + k * lda + j) * ax k := by
    intro j hj
    rw [aux_accumulate n bs (b * bs) lda A ax _ j hj, aux_zero bs _ j hj, zero_add]
  have hidx : ∀ k, b * bs ≤ i → b * bs + k * lda + (i - b * bs) = i + k * lda := by
    intro k h; omega
  by_cases hb : beta = 0
  · subst hb
    rw [if_neg (by simp)]
    have h := forLoop_store (b * bs) 0 bs (fun j _ =>
      (forLoop 0 n (fun k aux =>
              forLoop 0 bs (fun j aux => store aux j (aux j + A (b * bs + k * lda + j) * ax k)) aux)
            (forLoop 0 bs (fun j aux => store aux j 0) (fun _ => 0))) j) y i
    rw [h]
    by_cases c : b * bs ≤ i ∧ i < b * bs + bs
    · rw [if_pos (by omega), if_pos c, haux _ (by omega)]
      simp only [zero_mul, add_zero]
      refine Finset.sum_congr rfl ?_
      intro k _
      rw [hidx k c.1]
    · rw [if_neg (by omega), if_neg c]
  · rw [if_pos hb]
    have h := forLoop_store (b * bs) 0 bs (fun j v =>
      (forLoop 0 n (fun k aux =>
              forLoop 0 bs (fun j aux => store aux j (aux j + A (b * bs + k * lda + j) * ax k)) aux)
            (forLoop 0 bs (fun j aux => store aux j 0) (fun _ => 0))) j + beta * v) y i
    rw [h]
    by_cases c : b * bs ≤ i ∧ i < b * bs + bs
    · rw [if_pos (by omega), if_pos c, haux _ (by omega)]
      congr 1
      refine Finset.sum_congr rfl ?_
      intro k _
      rw [hidx k c.1]
    · rw [if_neg (by omega), if_neg c]

/-- The loop over the complete blocks of `gemv`: rows below `blocks*bs` are final, the others
are untouched. -/
theorem blocks_loop {α : Type} [CommRing α] [DecidableEq α] (n bs lda blocks : Nat)
    (A ax : Nat → α) (beta : α) (y : Nat → α) (i : Nat) :
    forLoop 0 blocks (fun b y =>
      if beta ≠ 0 then
        forLoop 0 bs (fun j y => store y (b * bs + j)
          ((forLoop 0 n (fun k aux =>
              forLoop 0 bs (fun j aux => store aux j (aux j + A (b * bs + k * lda + j) * ax k)) aux)
            (forLoop 0 bs (fun j aux => store aux j 0) (fun _ => 0))) j
            + beta * y (b * bs + j))) y
      else
        forLoop 0 bs (fun j y => store y (b * bs + j)
          ((forLoop 0 n (fun k aux =>
              forLoop 0 bs (fun j aux => store aux j (aux j + A (b * bs + k * lda + j) * ax k)) aux)
            (forLoop 0 bs (fun j aux => store aux j 0) (fun _ => 0))) j)) y) y i
      = if i < blocks * bs then
          (∑ k in Finset.range n, A (i + k * lda) * ax k) + beta * y i
        else y i := by
  induction blocks with
  | zero => simp [forLoop]
  | succ blocks ih =>
    rw [forLoop_succ _ _ _ _ (Nat.zero_le _), block_body, ih]
    have e : (blocks + 1) * bs = blocks * bs + bs := by ring
    by_cases c : blocks * bs ≤ i ∧ i < blocks * bs + bs
    · rw [if_pos c, if_neg (by omega), if_pos (by omega)]
    · rw [if_neg c]
      by_cases c2 : i < blocks * bs
      · rw [if_pos c2, if_pos (by omega)]
      · rw [if_neg c2, if_neg (by omega)]

/-- The row-wise tail of `gemv`. -/
theorem tail_loop {α : Type} [CommRing α] (n lda lo m : Nat) (A ax : Nat → α)
    (g : α → α → α) (y : Nat → α) (i : Nat) :
    forLoop lo m (fun j y =>
        store y j (g (forLoop 0 n (fun k tmp => tmp + A (j + k * lda) * ax k) 0) (y j))) y i
      = if lo ≤ i ∧ i < m then g (∑ k in Finset.range n, A (i + k * lda) * ax k) (y i)
        else y i := by
  have h := forLoop_store 0 lo m
    (fun j v => g (forLoop 0 n (fun k tmp => tmp + A (j + k * lda) * ax k) 0) v) y i
  simp only [Nat.zero_add] at h
  rw [h]
  by_cases c : lo ≤ i ∧ i < m
  · rw [if_pos c, if_pos c, forLoop_sum, zero_add, Nat.sub_zero]
  · rw [if_neg c, if_neg c]

theorem sum_alphax {α : Type} [CommRing α] (n lda : Nat) (alpha : α) (A x : Nat → α) (i : Nat) :
    (∑ k in Finset.range n, A (i + k * lda) *
        forLoop 0 n (fun k ax => store ax k (alpha * x k)) (fun _ => 0) k)
      = ∑ k in Finset.range n, A (i + k * lda) * (alpha * x k) := by
  refine Finset.sum_congr rfl ?_
  intro k hk
  rw [alphax_eq n alpha x k (Finset.mem_range.mp hk)]

/-- C9: host `gemv` computes `y = alpha*A*x + beta*y` for `m > 0`, `n > 0`, `lda >= m`. -/
theorem gemv_computes_reference {α : Type} [CommRing α] [DecidableEq α]
    (m n : Nat) (alpha : α) (A : Nat → α) (lda : Nat) (x : Nat → α) (beta : α) (y : Nat → α)
    (hm : 0 < m) (hn : 0 < n) (hlda : m ≤ lda) :
    ∃ y' : Nat → α, gemv m n alpha A lda x beta y = some y' ∧
      (∀ j, j < m → y' j = gemvRef n alpha A lda x beta y j) ∧
      (beta = 0 → ∀ j, j < m →
        y' j = ∑ k in Finset.range n, A (j + k * lda) * (alpha * x k)) := by
  have key : ∃ y' : Nat → α, gemv m n alpha A lda x beta y = some y' ∧
      (∀ j, j < m → y' j = gemvRef n alpha A lda x beta y j) := by
    unfold gemv gemvRef
    rw [if_neg (by omega), if_neg (by omega), if_neg (by omega)]
    dsimp only
    by_cases hn1 : n = 1
    · subst hn1
      rw [if_pos rfl]
      by_cases hb : beta = 0
      · subst hb
        rw [if_neg (by simp)]
        refine ⟨_, rfl, ?_⟩
        intro j hj
        have h := forLoop_store 0 0 m (fun j _ =>
          A j * forLoop 0 1 (fun k ax => store ax k (alpha * x k)) (fun _ => 0) 0) y j
        simp only [Nat.zero_add] at h
        rw [h, if_pos (by omega), alphax_eq 1 alpha x 0 (by omega)]
        simp
      · rw [if_pos hb]
        refine ⟨_, rfl, ?_⟩
        intro j hj
        have h := forLoop_store 0 0 m (fun j v =>
          A j * forLoop 0 1 (fun k ax => store ax k (alpha * x k)) (fun _ => 0) 0 + beta * v) y j
        simp only [Nat.zero_add] at h
        rw [h, if_pos (by omega), alphax_eq 1 alpha x 0 (by omega)]
        simp
    · rw [if_neg hn1]
      by_cases hb : beta = 0
      · subst hb
        rw [if_neg (by simp)]
        refine ⟨_, rfl, ?_⟩
        intro j hj
        rw [tail_loop n lda (m / 128 * 128) m A _ (fun t _ => t), blocks_loop, sum_alphax]
        by_cases c : m / 128 * 128 ≤ j ∧ j < m
        · rw [if_pos c]; simp
        · rw [if_neg c, if_pos (by omega)]
      · rw [if_pos hb]
        refine ⟨_, rfl, ?_⟩
        intro j hj
        rw [tail_loop n lda (m / 128 * 128) m A _ (fun t v => t + beta * v), blocks_loop,
          sum_alphax]
        by_cases c : m / 128 * 128 ≤ j ∧ j < m
        · rw [if_pos c, if_neg (by omega)]
        · rw [if_neg c, if_pos (by omega)]
  obtain ⟨y', h1, h2⟩ := key
  refine ⟨y', h1, h2, ?_⟩
  intro hb j hj
  rw [h2 j hj, gemvRef, hb]
  simp

/-- Witness for `gemv_computes_reference`: a 2×2 system over the integers. -/
theorem gemv_computes_reference_witness :
    (0 < 2 ∧ 0 < 2 ∧ 2 ≤ 2) ∧
    ∃ y' : Nat → Int, gemv 2 2 (3 : Int) (fun i => (i : Int) + 1) 2 (fun k => (k : Int) + 5) 7
        (fun j => (j : Int)) = some y' ∧
      (∀ j, j < 2 → y' j = gemvRef 2 (3 : Int) (fun i => (i : Int) + 1) 2 (fun k => (k : Int) + 5) 7
        (fun j => (j : Int)) j) ∧
      ((7 : Int) = 0 → ∀ j, j < 2 →
        y' j = ∑ k in Finset.range 2, (fun i => (i : Int) + 1) (j + k * 2) * (3 * (fun k => (k : Int) + 5) k)) :=
  ⟨by decide, gemv_computes_reference 2 2 3 _ 2 _ 7 _ (by decide) (by decide) (by decide)⟩

end MatrixOperations

namespace VectorAssignmentWithOperation

/-- C8 (failing input): for resizable vectors `division( v, t )` forwards to the subtraction
of the view specialization; for `v = [6]`, `t = [3]` it leaves `[3] = [6 - 3]`, where
`VectorAssignmentWithOperation< Vector, T::ConstViewType >::division( v, t.getConstView() )`
leaves `[2] = [6 / 3]`. -/
theorem division_of_resizable_subtracts :
    Resizable.division ([6] : List Int) [3] = some [3] ∧
    View.division ([6] : List Int) (getConstView [3]) = some [2] ∧
    ∀ v t : List Int, Resizable.division v t = View.subtraction v (getConstView t) :=
  ⟨rfl, rfl, fun _ _ => rfl⟩

end VectorAssignmentWithOperation

namespace Algorithms
namespace Sorting

theorem setSize_nil {α : Type} [Inhabited α] (n : Int) :
    setSize ([] : List α) n = List.replicate n.toNat default := by
  unfold setSize
  by_cases h : ((([] : List α).length : Int)) = n
  · rw [if_pos h]
    have : n = 0 := by simpa using h.symm
    subst this
    rfl
  · rw [if_neg h]

theorem blocksForTask_one_above (T : Int) (hT : 1 ≤ T) (d : Int) :
    blocksForTask T ⟨0, T + 1, d⟩ = 2 := by
  unfold blocksForTask cdiv cmod
  simp only [sub_zero]
  rw [Int.tdiv_eq_ediv (by omega) (by omega), Int.tmod_eq_emod (by omega) (by omega)]
  by_cases h1 : T = 1
  · subst h1; decide
  · have h2 : 2 ≤ T := by omega
    have e1 : (T + 1) / T = 1 := by
      have : (T + 1) / T = (1 + 1 * T) / T := by ring_nf
      rw [this, Int.add_mul_ediv_right _ _ (by omega), Int.ediv_eq_zero_of_lt (by omega) (by omega)]
      rfl
    have e2 : (T + 1) % T = 1 := by
      have : (T + 1) % T = (1 + T * 1) % T := by ring_nf
      rw [this, Int.add_mul_emod_self_left, Int.emod_eq_of_lt (by omega) (by omega)]
    rw [e1, e2]
    decide

theorem init_fresh_above_threshold {Value : Type} [Inhabited Value] (M : Machine Value)
    (arr : List Value) (gridDim blockDim T maxSharable : Int)
    (hT0 : 0 ≤ T) (hT : T < arr.length) (hg : 1 ≤ M.g_maxTasks) :
    init M (Quicksorter.fresh Value) arr gridDim blockDim T maxSharable = .ok
      { maxBlocks := gridDim, threadsPerBlock := blockDim, desiredElemPerBlock := T,
        maxSharable := maxSharable, desired_2ndPhasElemPerBlock := T,
        maxTasks := min (arr.length : Int) M.g_maxTasks,
        host_1stPhaseTasksAmount := 1, host_2ndPhaseTasksAmount := 0, iteration := 0,
        dev :=
          { arr := arr
            aux := List.replicate arr.length default
            cuda_tasks := (List.replicate (min (arr.length : Int) M.g_maxTasks).toNat default).set 0
              ⟨0, arr.length, 0⟩
            cuda_newTasks := List.replicate (min (arr.length : Int) M.g_maxTasks).toNat default
            cuda_2ndPhaseTasks := List.replicate (min (arr.length : Int) M.g_maxTasks).toNat default
            cuda_newTasksAmount := 0
            cuda_2ndPhaseTasksAmount := 0
            cuda_blockToTaskMapping := List.replicate gridDim.toNat default
            cuda_reductionTaskInitMem :=
              List.replicate (min (arr.length : Int) M.g_maxTasks).toNat default }
        launches := [] } := by
  have hlen : 0 < (min (arr.length : Int) M.g_maxTasks).toNat := by
    have : (1 : Int) ≤ min (arr.length : Int) M.g_maxTasks := by
      have : (0:Int) ≤ arr.length := Int.natCast_nonneg _
      omega
    omega
  unfold init
  simp only [Quicksorter.fresh, setSize_nil, Int.toNat_ofNat]
  rw [if_pos (by simpa using hT)]
  simp only [setElement, List.length_replicate]
  rw [if_pos ⟨le_refl _, by exact_mod_cast hlen⟩]
  rfl


theorem fitTo_length {α : Type} (old new : List α) : (fitTo old new).length = old.length := by
  simp only [fitTo, List.length_append, List.length_take, List.length_drop]
  omega

theorem getView_ok {α : Type} (a : List α) (n : Int) (h0 : 0 ≤ n) (h1 : n ≤ a.length) :
    getView a n = .ok (a.take n.toNat) := by
  unfold getView
  rw [if_pos ⟨h0, h1⟩]

theorem getView_eq_ok {α : Type} (a : List α) (n : Int) (v : List α)
    (h : getView a n = .ok v) : 0 ≤ n ∧ n ≤ a.length ∧ v = a.take n.toNat := by
  unfold getView at h
  by_cases c : 0 ≤ n ∧ n ≤ a.length
  · rw [if_pos c] at h
    injection h with h
    exact ⟨c.1, c.2, h.symm⟩
  · rw [if_neg c] at h
    cases h

theorem getElement_ok {α : Type} [Inhabited α] (a : List α) (i : Int) (h0 : 0 ≤ i)
    (h1 : i < a.length) : getElement a i = .ok (a.getD i.toNat default) := by
  unfold getElement
  rw [if_pos ⟨h0, h1⟩]

theorem inclusiveScanFrom_length (acc : Int) (a : List Int) :
    (inclusiveScanFrom acc a).length = a.length := by
  induction a generalizing acc with
  | nil => rfl
  | cons x xs ih => simp [inclusiveScanFrom, ih]

theorem inplaceInclusiveScan_length (a : List Int) :
    (inplaceInclusiveScan a).length = a.length :=
  inclusiveScanFrom_length 0 a

/-- The length of `cuda_reductionTaskInitMem` is kept by the block count. -/
theorem afterCalcBlocksNeeded_length {Value : Type} (e : Int) (q : Quicksorter Value)
    (h0 : 0 ≤ q.host_1stPhaseTasksAmount)
    (h1 : q.host_1stPhaseTasksAmount ≤ (q.dev.queue (currentTasks q.iteration)).length)
    (h2 : q.host_1stPhaseTasksAmount ≤ q.dev.cuda_reductionTaskInitMem.length) :
    (afterCalcBlocksNeeded e q).dev.cuda_reductionTaskInitMem.length
      = q.dev.cuda_reductionTaskInitMem.length := by
  simp only [afterCalcBlocksNeeded, inplaceInclusiveScan_length, List.length_append,
    cudaCalcBlocksNeeded, List.length_map, List.length_take, List.length_drop]
  omega

/-- Function `initTasksCount` succeeds when there is at least one current task and the count does
not exceed the two arrays. -/
theorem initTasksCount_eq {Value : Type} (e : Int) (q : Quicksorter Value)
    (h0 : 1 ≤ q.host_1stPhaseTasksAmount)
    (h1 : q.host_1stPhaseTasksAmount ≤ (q.dev.queue (currentTasks q.iteration)).length)
    (h2 : q.host_1stPhaseTasksAmount ≤ q.dev.cuda_reductionTaskInitMem.length) :
    initTasksCount e q = .ok
      ((afterCalcBlocksNeeded e q).dev.cuda_reductionTaskInitMem.getD
          (q.host_1stPhaseTasksAmount - 1).toNat default,
        afterCalcBlocksNeeded e q) := by
  unfold initTasksCount
  rw [getView_ok _ _ (by omega) h1, getView_ok _ _ (by omega) h2]
  have hl := afterCalcBlocksNeeded_length e q (by omega) h1 h2
  have e1 : (afterCalcBlocksNeeded e q).host_1stPhaseTasksAmount = q.host_1stPhaseTasksAmount := rfl
  simp only [bind, Except.bind, e1]
  rw [getElement_ok _ _ (by omega) (by rw [hl]; omega)]
  rfl

/-- Function `initTasks` when the counted blocks fit the block map: `cudaInitTask` is launched and the
new-task counter is reset. -/
theorem initTasks_of_count {Value : Type} (M : Machine Value) (e : Int)
    (q q' : Quicksorter Value) (b : Int)
    (hc : initTasksCount e q = .ok (b, q')) (h0 : 0 ≤ b)
    (hb : b ≤ q.dev.cuda_blockToTaskMapping.length)
    (h0' : 1 ≤ q.host_1stPhaseTasksAmount)
    (h1 : q.host_1stPhaseTasksAmount ≤ (q.dev.queue (currentTasks q.iteration)).length)
    (h2 : q.host_1stPhaseTasksAmount ≤ q.dev.cuda_reductionTaskInitMem.length) :
    initTasks M e q = .ok (b, afterInitTask M q' b) := by
  have hq := initTasksCount_eq e q h0' h1 h2
  rw [hc] at hq
  injection hq with hq
  injection hq with hb' hq'
  have hl := afterCalcBlocksNeeded_length e q (by omega) h1 h2
  have e1 : q'.dev.queue (currentTasks q'.iteration) = q.dev.queue (currentTasks q.iteration) := by
    rw [hq']; cases hcur : currentTasks q.iteration <;>
      simp [afterCalcBlocksNeeded, Device.queue, hcur]
  have e2 : q'.host_1stPhaseTasksAmount = q.host_1stPhaseTasksAmount := by rw [hq']; rfl
  have e3 : q'.dev.cuda_blockToTaskMapping = q.dev.cuda_blockToTaskMapping := by rw [hq']; rfl
  have e4 : q'.dev.cuda_reductionTaskInitMem.length = q.dev.cuda_reductionTaskInitMem.length := by
    rw [hq']; exact hl
  unfold initTasks
  simp only [hc, bind, Except.bind]
  rw [if_neg (by rw [e3]; omega), e1, e2, e3, getView_ok _ _ (by omega) h1,
    getView_ok _ _ h0 hb, getView_ok _ _ (by omega) (by rw [e4]; exact h2)]
  rfl

/-- Function `initTasks` when the counted blocks exceed the block map: nothing more is launched. -/
theorem initTasks_of_count_too_many {Value : Type} (M : Machine Value) (e : Int)
    (q q' : Quicksorter Value) (b : Int)
    (hc : initTasksCount e q = .ok (b, q'))
    (hb : b > q'.dev.cuda_blockToTaskMapping.length) :
    initTasks M e q = .ok (b, q') := by
  unfold initTasks
  simp only [hc, bind, Except.bind]
  rw [if_pos hb]
  rfl

/-- The loop body of `firstPhase` goes on to the distributed round when none of the three
capacity tests fires. -/
theorem firstPhaseBody_eq_distributedRound {Value : Type} (M : Machine Value)
    (q : Quicksorter Value) (h1 : q.host_1stPhaseTasksAmount < q.maxTasks)
    (h2 : q.host_2ndPhaseTasksAmount < q.maxTasks)
    (h3 : q.host_1stPhaseTasksAmount * 2 < q.maxTasks + (q.maxTasks - q.host_2ndPhaseTasksAmount)) :
    firstPhaseBody M q = distributedRound M q := by
  unfold firstPhaseBody
  rw [if_neg (by omega), if_neg (by omega)]
  show (if q.host_1stPhaseTasksAmount * 2 ≥ q.maxTasks + (q.maxTasks - q.host_2ndPhaseTasksAmount)
    then _ else distributedRound M q) = _
  rw [if_neg (by omega)]

/-- The distributed round, once `initTasks` has returned. -/
theorem distributedRound_of_initTasks {Value : Type} (M : Machine Value)
    (q q' : Quicksorter Value) (b : Int)
    (hi : initTasks M (getElemPerBlock q) q = .ok (b, q')) :
    distributedRound M q =
      if b ≤ 1 ∨ b > q'.dev.cuda_blockToTaskMapping.length then .ok (.exit q')
      else .ok (.next (partitionAndSpawn M q' (getElemPerBlock q) b)) := by
  unfold distributedRound
  simp only [hi, bind, Except.bind]
  rfl

/-- C4: an array one element above the threshold forces a distributed round. -/
theorem one_above_threshold_forces_round {Value : Type} [Inhabited Value] (M : Machine Value)
    (arr : List Value) (gridDim blockDim T maxSharable : Int)
    (hT : 1 ≤ T) (hg : 2 ≤ M.g_maxTasks) (hb : 2 ≤ gridDim)
    (hlen : (arr.length : Int) = T + 1) :
    ∃ q0 q1 : Quicksorter Value,
      init M (Quicksorter.fresh Value) arr gridDim blockDim T maxSharable = .ok q0 ∧
      q0.host_1stPhaseTasksAmount = 1 ∧ 1 < q0.maxTasks ∧
      getElemPerBlock q0 = T ∧
      firstPhaseBody M q0 = .ok (.next q1) ∧
      q1.iteration = 1 ∧
      q1.launches =
        [ .cudaCalcBlocksNeeded
            ⟨blockDim, cdiv 1 blockDim + (if cmod 1 blockDim ≠ 0 then 1 else 0), 0⟩
            .cuda_tasks 1 T,
          .cudaInitTask ⟨blockDim, 1, 0⟩ .cuda_tasks 1 2 .arr,
          partitionLaunch M q0 T 2,
          writePivotLaunch M q0 ] ∧
      ∀ fuel, firstPhase M (fuel + 1) q0 = firstPhase M fuel q1 := by
  have hmt : 2 ≤ min (arr.length : Int) M.g_maxTasks := by omega
  obtain ⟨n, hn⟩ : ∃ n, (min (arr.length : Int) M.g_maxTasks).toNat = n + 2 :=
    ⟨(min (arr.length : Int) M.g_maxTasks).toNat - 2, by omega⟩
  obtain ⟨g, hgn⟩ : ∃ g, gridDim.toNat = g + 2 := ⟨gridDim.toNat - 2, by omega⟩
  have hinit := init_fresh_above_threshold M arr gridDim blockDim T maxSharable
    (by omega) (by omega) (by omega)
  rw [hn, hgn] at hinit
  obtain ⟨q0, hq0⟩ : ∃ q0 : Quicksorter Value, q0 = _ ∧
      init M (Quicksorter.fresh Value) arr gridDim blockDim T maxSharable = .ok q0 :=
    ⟨_, rfl, hinit⟩
  obtain ⟨hrec, hq0⟩ := hq0
  clear hinit
  -- the fields of the initial state
  have f1 : q0.host_1stPhaseTasksAmount = 1 := by rw [hrec]
  have f2 : q0.host_2ndPhaseTasksAmount = 0 := by rw [hrec]
  have f3 : q0.maxTasks = min (arr.length : Int) M.g_maxTasks := by rw [hrec]
  have f4 : q0.iteration = 0 := by rw [hrec]
  have f5 : q0.dev.cuda_tasks = ⟨0, arr.length, 0⟩ :: default :: List.replicate n default := by
    rw [hrec]; rfl
  have f6 : q0.dev.cuda_reductionTaskInitMem = 0 :: 0 :: List.replicate n 0 := by
    rw [hrec]; rfl
  have f7 : q0.dev.cuda_blockToTaskMapping.length = g + 2 := by rw [hrec]; simp
  have f8 : q0.desiredElemPerBlock = T := by rw [hrec]
  have f9 : q0.threadsPerBlock = blockDim := by rw [hrec]
  have f10 : q0.launches = [] := by rw [hrec]
  have hcur : currentTasks q0.iteration = .cuda_tasks := by rw [f4]; rfl
  have hqueue : q0.dev.queue (currentTasks q0.iteration)
      = ⟨0, arr.length, 0⟩ :: default :: List.replicate n default := by
    rw [hcur]; exact f5
  have hb2 : blocksForTask T ⟨0, (arr.length : Int), 0⟩ = 2 := by
    rw [hlen]; exact blocksForTask_one_above T hT 0
  have hql : (q0.dev.queue (currentTasks q0.iteration)).length = n + 2 := by
    rw [hqueue]; simp
  have hrl : q0.dev.cuda_reductionTaskInitMem.length = n + 2 := by
    rw [f6]; simp
  have hv1 : q0.host_1stPhaseTasksAmount ≤ (q0.dev.queue (currentTasks q0.iteration)).length := by
    rw [f1, hql]; push_cast; omega
  have hv2 : q0.host_1stPhaseTasksAmount ≤ q0.dev.cuda_reductionTaskInitMem.length := by
    rw [f1, hrl]; push_cast; omega
  -- the block count of the single task
  have hcount := initTasksCount_eq T q0 (by omega) hv1 hv2
  have hval : (afterCalcBlocksNeeded T q0).dev.cuda_reductionTaskInitMem.getD
      (q0.host_1stPhaseTasksAmount - 1).toNat default = 2 := by
    simp only [afterCalcBlocksNeeded, hqueue, f1, f6, cudaCalcBlocksNeeded, inplaceInclusiveScan,
      Int.toNat_one, List.take_succ_cons, List.take_zero, List.map_cons, List.map_nil, hb2,
      List.cons_append, List.nil_append, List.drop_succ_cons, List.drop_zero, inclusiveScanFrom]
    rfl
  rw [hval] at hcount
  have hit := initTasks_of_count M T q0 _ 2 hcount (by omega) (by rw [f7]; push_cast; omega)
    (by omega) hv1 hv2
  have hround := distributedRound_of_initTasks M q0 _ 2 (by
    have : getElemPerBlock q0 = T := f8
    rw [this]; exact hit)
  have hmap : (afterInitTask M (afterCalcBlocksNeeded T q0) 2).dev.cuda_blockToTaskMapping.length
      = g + 2 := by
    simp [afterInitTask, launchKernelSync, afterCalcBlocksNeeded, Device.keepSizes, fitTo_length, f7]
  have hne : ¬ ((2 : Int) ≤ 1 ∨ (2 : Int) >
      ((afterInitTask M (afterCalcBlocksNeeded T q0) 2).dev.cuda_blockToTaskMapping.length : Int)) := by
    rw [hmap]; omega
  rw [if_neg hne] at hround
  have hbody : firstPhaseBody M q0 = .ok (.next (partitionAndSpawn M
      (afterInitTask M (afterCalcBlocksNeeded T q0) 2) (getElemPerBlock q0) 2)) := by
    rw [firstPhaseBody_eq_distributedRound M q0 (by rw [f1, f3]; omega) (by rw [f2, f3]; omega)
      (by rw [f1, f2, f3]; omega)]
    exact hround
  refine ⟨q0, _, hq0, f1, by rw [f3]; omega, f8, hbody, ?_, ?_, ?_⟩
  · simp [partitionAndSpawn, processNewTasks, launchKernelSync, afterInitTask,
      afterCalcBlocksNeeded, f4]
  · simp [partitionAndSpawn, processNewTasks, launchKernelSync, afterInitTask,
      afterCalcBlocksNeeded, f1, f4, f8, f9, f10, currentTasks, cmod, getElemPerBlock,
      partitionLaunch, writePivotLaunch]
  · intro fuel
    show (if q0.host_1stPhaseTasksAmount > 0 then _ else _) = _
    rw [if_pos (by omega), hbody]


theorem SameConfig.refl {Value : Type} (q : Quicksorter Value) : SameConfig q q :=
  ⟨rfl, rfl, rfl, rfl, rfl, rfl, rfl, rfl, rfl, rfl, rfl, rfl⟩

theorem SameConfig.trans {Value : Type} {a b c : Quicksorter Value} (h1 : SameConfig a b)
    (h2 : SameConfig b c) : SameConfig a c := by
  obtain ⟨a1, a2, a3, a4, a5, a6, a7, a8, a9, a10, a11, a12⟩ := h1
  obtain ⟨b1, b2, b3, b4, b5, b6, b7, b8, b9, b10, b11, b12⟩ := h2
  exact ⟨b1.trans a1, b2.trans a2, b3.trans a3, b4.trans a4, b5.trans a5, b6.trans a6,
    b7.trans a7, b8.trans a8, b9.trans a9, b10.trans a10, b11.trans a11, b12.trans a12⟩

/-- A kernel launch keeps the configuration and the host counts and appends its launch. -/
theorem launchKernelSync_spec {Value : Type} (M : Machine Value) (l : Launch)
    (q : Quicksorter Value) :
    SameConfig q (launchKernelSync M l q) ∧
    (launchKernelSync M l q).host_1stPhaseTasksAmount = q.host_1stPhaseTasksAmount ∧
    (launchKernelSync M l q).host_2ndPhaseTasksAmount = q.host_2ndPhaseTasksAmount ∧
    (launchKernelSync M l q).launches = q.launches ++ [l] := by
  refine ⟨⟨rfl, rfl, rfl, rfl, rfl, rfl, rfl, ?_, ?_, ?_, ?_, ?_⟩, rfl, rfl, rfl⟩ <;>
    simp [launchKernelSync, Device.keepSizes, fitTo_length]

/-- Function `secondPhase`, when it returns, has made exactly one launch, a launch of the
self-contained stage with `host_1stPhaseTasksAmount + host_2ndPhaseTasksAmount` groups, over
the first `host_1stPhaseTasksAmount` tasks of the current distributed buffer and the first
`host_2ndPhaseTasksAmount` tasks of the terminal queue (a view of no task is not passed,
unless both counts are non-positive); it has changed neither the configuration nor the host
counts. -/
theorem secondPhase_spec {Value : Type} (M : Machine Value) (q q' : Quicksorter Value)
    (h : secondPhase M q = .ok q') :
    ∃ l, q' = launchKernelSync M l q ∧ l.isSecondPhase = true ∧
      l.config.gridSize = q.host_1stPhaseTasksAmount + q.host_2ndPhaseTasksAmount ∧
      l.taskViews =
        (if q.host_1stPhaseTasksAmount > 0 ∧ q.host_2ndPhaseTasksAmount > 0 then
          [(currentTasks q.iteration, q.host_1stPhaseTasksAmount),
           (TaskQueue.cuda_2ndPhaseTasks, q.host_2ndPhaseTasksAmount)]
         else if q.host_1stPhaseTasksAmount > 0 then
          [(currentTasks q.iteration, q.host_1stPhaseTasksAmount)]
         else [(TaskQueue.cuda_2ndPhaseTasks, q.host_2ndPhaseTasksAmount)]) := by
  unfold secondPhase at h
  simp only [] at h
  by_cases c1 : q.host_1stPhaseTasksAmount > 0 ∧ q.host_2ndPhaseTasksAmount > 0
  · rw [if_pos c1] at h
    rw [if_pos c1]
    cases hv1 : getView (q.dev.queue (currentTasks q.iteration)) q.host_1stPhaseTasksAmount with
    | error e => simp [hv1, bind, Except.bind] at h
    | ok v1 =>
      cases hv2 : getView q.dev.cuda_2ndPhaseTasks q.host_2ndPhaseTasksAmount with
      | error e => simp [hv1, hv2, bind, Except.bind] at h
      | ok v2 =>
        simp only [hv1, hv2, bind, Except.bind, pure, Except.pure] at h
        injection h with h
        exact ⟨_, h.symm, rfl, rfl, rfl⟩
  · rw [if_neg c1] at h
    rw [if_neg c1]
    by_cases c2 : q.host_1stPhaseTasksAmount > 0
    · rw [if_pos c2] at h
      rw [if_pos c2]
      cases hv1 : getView (q.dev.queue (currentTasks q.iteration)) q.host_1stPhaseTasksAmount with
      | error e => simp [hv1, bind, Except.bind] at h
      | ok v1 =>
        simp only [hv1, bind, Except.bind, pure, Except.pure] at h
        injection h with h
        exact ⟨_, h.symm, rfl, rfl, rfl⟩
    · rw [if_neg c2] at h
      rw [if_neg c2]
      cases hv2 : getView q.dev.cuda_2ndPhaseTasks q.host_2ndPhaseTasksAmount with
      | error e => simp [hv2, bind, Except.bind] at h
      | ok v2 =>
        simp only [hv2, bind, Except.bind, pure, Except.pure] at h
        injection h with h
        exact ⟨_, h.symm, rfl, rfl, rfl⟩

/-- The premature second-phase sort inside `firstPhase`, when it returns: one launch of the
self-contained stage with `host_2ndPhaseTasksAmount` groups; afterwards the distributed
count is the one from before, the terminal count and its device counter are zero. -/
theorem prematureSecondPhase_spec {Value : Type} (M : Machine Value)
    (q q' : Quicksorter Value) (h : prematureSecondPhase M q = .ok q') :
    ∃ l, l.isSecondPhase = true ∧ l.config.gridSize = 0 + q.host_2ndPhaseTasksAmount ∧
      q'.launches = q.launches ++ [l] ∧ SameConfig q q' ∧
      q'.host_1stPhaseTasksAmount = q.host_1stPhaseTasksAmount ∧
      q'.host_2ndPhaseTasksAmount = 0 ∧ q'.dev.cuda_2ndPhaseTasksAmount = 0 := by
  unfold prematureSecondPhase at h
  cases hs : secondPhase M { q with host_1stPhaseTasksAmount := 0 } with
  | error e => simp [hs, bind, Except.bind] at h
  | ok qs =>
    simp only [hs, bind, Except.bind, pure, Except.pure] at h
    injection h with h
    obtain ⟨l, hl, hl2, hl3, _⟩ := secondPhase_spec M _ _ hs
    obtain ⟨c, _, _, c4⟩ := launchKernelSync_spec M l { q with host_1stPhaseTasksAmount := 0 }
    rw [← hl] at c c4
    obtain ⟨c1, c2, c3, c5, c6, c7, c8, c9, c10, c11, c12, c13⟩ := c
    subst h
    exact ⟨l, hl2, hl3, c4, ⟨c1, c2, c3, c5, c6, c7, c8, c9, c10, c11, c12, c13⟩, rfl, rfl, rfl⟩

/-- Function `initTasksCount`, when it returns: the configuration and the host counts are kept and the
launch of `cudaCalcBlocksNeeded` is the only one made. -/
theorem initTasksCount_spec {Value : Type} (e : Int) (q q' : Quicksorter Value) (b : Int)
    (h : initTasksCount e q = .ok (b, q')) :
    q' = afterCalcBlocksNeeded e q ∧ 1 ≤ q.host_1stPhaseTasksAmount ∧
    q.host_1stPhaseTasksAmount ≤ (q.dev.queue (currentTasks q.iteration)).length ∧
    q.host_1stPhaseTasksAmount ≤ q.dev.cuda_reductionTaskInitMem.length := by
  unfold initTasksCount at h
  cases hv1 : getView (q.dev.queue (currentTasks q.iteration)) q.host_1stPhaseTasksAmount with
  | error e1 => simp [hv1, bind, Except.bind] at h
  | ok v1 =>
    cases hv2 : getView q.dev.cuda_reductionTaskInitMem q.host_1stPhaseTasksAmount with
    | error e2 => simp [hv1, hv2, bind, Except.bind] at h
    | ok v2 =>
      obtain ⟨a1, a2, _⟩ := getView_eq_ok _ _ _ hv1
      obtain ⟨_, b2, _⟩ := getView_eq_ok _ _ _ hv2
      simp only [hv1, hv2, bind, Except.bind] at h
      cases hg : getElement (afterCalcBlocksNeeded e q).dev.cuda_reductionTaskInitMem
          ((afterCalcBlocksNeeded e q).host_1stPhaseTasksAmount - 1) with
      | error e3 => simp [hg] at h
      | ok b' =>
        simp only [hg, pure, Except.pure] at h
        injection h with h
        injection h with hb hq
        have hpos : 1 ≤ q.host_1stPhaseTasksAmount := by
          unfold getElement at hg
          have e1 : (afterCalcBlocksNeeded e q).host_1stPhaseTasksAmount
              = q.host_1stPhaseTasksAmount := rfl
          rw [e1] at hg
          by_cases c : 0 ≤ q.host_1stPhaseTasksAmount - 1 ∧
              q.host_1stPhaseTasksAmount - 1 <
                ((afterCalcBlocksNeeded e q).dev.cuda_reductionTaskInitMem.length : Int)
          · omega
          · rw [if_neg c] at hg; cases hg
        exact ⟨hq.symm, hpos, a2, b2⟩

theorem afterCalcBlocksNeeded_spec {Value : Type} (e : Int) (q : Quicksorter Value)
    (h0 : 0 ≤ q.host_1stPhaseTasksAmount)
    (h1 : q.host_1stPhaseTasksAmount ≤ (q.dev.queue (currentTasks q.iteration)).length)
    (h2 : q.host_1stPhaseTasksAmount ≤ q.dev.cuda_reductionTaskInitMem.length) :
    SameConfig q (afterCalcBlocksNeeded e q) ∧
    (afterCalcBlocksNeeded e q).host_1stPhaseTasksAmount = q.host_1stPhaseTasksAmount ∧
    (afterCalcBlocksNeeded e q).host_2ndPhaseTasksAmount = q.host_2ndPhaseTasksAmount ∧
    ∃ l, (afterCalcBlocksNeeded e q).launches = q.launches ++ [l] ∧
      l.isSecondPhase = false ∧ l.isPartition = false ∧ l.isWritePivot = false :=
  ⟨⟨rfl, rfl, rfl, rfl, rfl, rfl, rfl, rfl, rfl, rfl, rfl,
      afterCalcBlocksNeeded_length e q h0 h1 h2⟩, rfl, rfl, _, rfl, rfl, rfl, rfl⟩

theorem afterInitTask_spec {Value : Type} (M : Machine Value) (q : Quicksorter Value) (b : Int) :
    SameConfig q (afterInitTask M q b) ∧
    (afterInitTask M q b).host_1stPhaseTasksAmount = q.host_1stPhaseTasksAmount ∧
    (afterInitTask M q b).host_2ndPhaseTasksAmount = q.host_2ndPhaseTasksAmount ∧
    (afterInitTask M q b).dev.cuda_newTasksAmount = 0 ∧
    ∃ l, (afterInitTask M q b).launches = q.launches ++ [l] ∧
      l.isSecondPhase = false ∧ l.isPartition = false ∧ l.isWritePivot = false := by
  refine ⟨⟨rfl, rfl, rfl, rfl, rfl, rfl, rfl, ?_, ?_, ?_, ?_, ?_⟩, rfl, rfl, rfl, _, rfl, rfl,
    rfl, rfl⟩ <;>
    simp [afterInitTask, launchKernelSync, Device.keepSizes, fitTo_length]

/-- Function `initTasks`, when it returns: the configuration and the host counts are kept; the
launches made are `cudaCalcBlocksNeeded` and, when the blocks fit the block map,
`cudaInitTask`. -/
theorem initTasks_spec {Value : Type} (M : Machine Value) (e : Int)
    (q q' : Quicksorter Value) (b : Int) (h : initTasks M e q = .ok (b, q')) :
    SameConfig q q' ∧
    q'.host_1stPhaseTasksAmount = q.host_1stPhaseTasksAmount ∧
    q'.host_2ndPhaseTasksAmount = q.host_2ndPhaseTasksAmount ∧
    ∃ ls, q'.launches = q.launches ++ ls ∧
      ∀ l ∈ ls, l.isSecondPhase = false ∧ l.isPartition = false ∧ l.isWritePivot = false := by
  unfold initTasks at h
  cases hc : initTasksCount e q with
  | error e1 => simp [hc, bind, Except.bind] at h
  | ok r =>
    obtain ⟨b1, q1⟩ := r
    obtain ⟨hq1, a0, a1, a2⟩ := initTasksCount_spec e q q1 b1 hc
    obtain ⟨s1, s2, s3, l1, s4, s5⟩ := afterCalcBlocksNeeded_spec e q (by omega) a1 a2
    rw [← hq1] at s1 s2 s3 s4
    simp only [hc, bind, Except.bind] at h
    split at h
    · simp only [pure, Except.pure] at h
      injection h with h
      injection h with _ hq
      subst hq
      refine ⟨s1, s2, s3, [l1], s4, ?_⟩
      intro l hl
      rw [List.mem_singleton] at hl
      subst hl
      exact s5
    · cases hv1 : getView (q1.dev.queue (currentTasks q1.iteration)) q1.host_1stPhaseTasksAmount with
      | error e => simp [hv1] at h
      | ok v1 =>
        cases hv2 : getView q1.dev.cuda_blockToTaskMapping b1 with
        | error e => simp [hv1, hv2] at h
        | ok v2 =>
          cases hv3 : getView q1.dev.cuda_reductionTaskInitMem q1.host_1stPhaseTasksAmount with
          | error e => simp [hv1, hv2, hv3] at h
          | ok v3 =>
            simp only [hv1, hv2, hv3, pure, Except.pure] at h
            injection h with h
            injection h with _ hq
            obtain ⟨t1, t2, t3, _, l2, t4, t5⟩ := afterInitTask_spec M q1 b1
            rw [hq] at t1 t2 t3 t4
            refine ⟨SameConfig.trans s1 t1, t2.trans s2, t3.trans s3, [l1, l2], ?_, ?_⟩
            · rw [t4, s4]; simp
            · intro l hl
              simp only [List.mem_cons, List.mem_singleton, List.not_mem_nil, or_false] at hl
              rcases hl with hl | hl
              · subst hl; exact s5
              · subst hl; exact t5

/-- The end of a distributed round: the partition launch and the spawn launch are appended,
the host counts are the clamped device counters and the round counter is incremented. -/
theorem partitionAndSpawn_spec {Value : Type} (M : Machine Value) (q : Quicksorter Value)
    (e b : Int) :
    (partitionAndSpawn M q e b).launches
      = q.launches ++ [partitionLaunch M q e b, writePivotLaunch M q] ∧
    (partitionAndSpawn M q e b).iteration = q.iteration + 1 ∧
    (partitionAndSpawn M q e b).maxTasks = q.maxTasks ∧
    (partitionAndSpawn M q e b).host_1stPhaseTasksAmount
      = min (partitionAndSpawn M q e b).dev.cuda_newTasksAmount q.maxTasks ∧
    (partitionAndSpawn M q e b).host_2ndPhaseTasksAmount
      = min (partitionAndSpawn M q e b).dev.cuda_2ndPhaseTasksAmount q.maxTasks := by
  refine ⟨?_, rfl, rfl, rfl, rfl⟩
  simp [partitionAndSpawn, processNewTasks, launchKernelSync, writePivotLaunch]

theorem distributedRound_next {Value : Type} (M : Machine Value) (q q' : Quicksorter Value)
    (h : distributedRound M q = .ok (.next q')) :
    ∃ b qi, initTasks M (getElemPerBlock q) q = .ok (b, qi) ∧
      ¬ (b ≤ 1 ∨ b > qi.dev.cuda_blockToTaskMapping.length) ∧
      q' = partitionAndSpawn M qi (getElemPerBlock q) b := by
  cases hi : initTasks M (getElemPerBlock q) q with
  | error e => simp [distributedRound, hi, bind, Except.bind] at h
  | ok r =>
    obtain ⟨b, qi⟩ := r
    rw [distributedRound_of_initTasks M q qi b hi] at h
    by_cases c : b ≤ 1 ∨ b > qi.dev.cuda_blockToTaskMapping.length
    · rw [if_pos c] at h
      injection h with h
      cases h
    · rw [if_neg c] at h
      injection h with h
      injection h with h
      exact ⟨b, qi, rfl, c, h.symm⟩

theorem distributedRound_exit {Value : Type} (M : Machine Value) (q q' : Quicksorter Value)
    (h : distributedRound M q = .ok (.exit q')) :
    ∃ b, initTasks M (getElemPerBlock q) q = .ok (b, q') ∧
      (b ≤ 1 ∨ b > q'.dev.cuda_blockToTaskMapping.length) := by
  cases hi : initTasks M (getElemPerBlock q) q with
  | error e => simp [distributedRound, hi, bind, Except.bind] at h
  | ok r =>
    obtain ⟨b, qi⟩ := r
    rw [distributedRound_of_initTasks M q qi b hi] at h
    by_cases c : b ≤ 1 ∨ b > qi.dev.cuda_blockToTaskMapping.length
    · rw [if_pos c] at h
      injection h with h
      injection h with h
      subst h
      exact ⟨b, rfl, c⟩
    · rw [if_neg c] at h
      injection h with h
      cases h

/-- The ways through the loop body of `firstPhase`. -/
theorem firstPhaseBody_cases {Value : Type} (M : Machine Value) (q : Quicksorter Value)
    (r : LoopStep (Quicksorter Value)) (h : firstPhaseBody M q = .ok r) :
    (q.host_1stPhaseTasksAmount ≥ q.maxTasks ∧ r = .exit q) ∨
    (q.host_1stPhaseTasksAmount < q.maxTasks ∧
      ∃ qa, ((q.host_2ndPhaseTasksAmount ≥ q.maxTasks ∧ prematureSecondPhase M q = .ok qa) ∨
             (q.host_2ndPhaseTasksAmount < q.maxTasks ∧ qa = q)) ∧
        ((qa.host_1stPhaseTasksAmount * 2 ≥ qa.maxTasks + (qa.maxTasks - qa.host_2ndPhaseTasksAmount)
            ∧ ¬ (4 * qa.host_2ndPhaseTasksAmount ≥ 3 * qa.maxTasks) ∧ r = .exit qa) ∨
         (qa.host_1stPhaseTasksAmount * 2 ≥ qa.maxTasks + (qa.maxTasks - qa.host_2ndPhaseTasksAmount)
            ∧ 4 * qa.host_2ndPhaseTasksAmount ≥ 3 * qa.maxTasks
            ∧ ∃ qb, prematureSecondPhase M qa = .ok qb ∧ distributedRound M qb = .ok r) ∨
         (¬ (qa.host_1stPhaseTasksAmount * 2
              ≥ qa.maxTasks + (qa.maxTasks - qa.host_2ndPhaseTasksAmount))
            ∧ distributedRound M qa = .ok r))) := by
  unfold firstPhaseBody at h
  by_cases c1 : q.host_1stPhaseTasksAmount ≥ q.maxTasks
  · rw [if_pos c1] at h
    injection h with h
    exact Or.inl ⟨c1, h.symm⟩
  · rw [if_neg c1] at h
    refine Or.inr ⟨by omega, ?_⟩
    have key : ∀ qa : Quicksorter Value,
        (if qa.host_1stPhaseTasksAmount * 2
              ≥ qa.maxTasks + (qa.maxTasks - qa.host_2ndPhaseTasksAmount) then
            if 4 * qa.host_2ndPhaseTasksAmount ≥ 3 * qa.maxTasks then
              (prematureSecondPhase M qa >>= fun q => distributedRound M q)
            else (pure (.exit qa) : Except Fault (LoopStep (Quicksorter Value)))
          else distributedRound M qa) = .ok r →
        ((qa.host_1stPhaseTasksAmount * 2 ≥ qa.maxTasks + (qa.maxTasks - qa.host_2ndPhaseTasksAmount)
            ∧ ¬ (4 * qa.host_2ndPhaseTasksAmount ≥ 3 * qa.maxTasks) ∧ r = .exit qa) ∨
         (qa.host_1stPhaseTasksAmount * 2 ≥ qa.maxTasks + (qa.maxTasks - qa.host_2ndPhaseTasksAmount)
            ∧ 4 * qa.host_2ndPhaseTasksAmount ≥ 3 * qa.maxTasks
            ∧ ∃ qb, prematureSecondPhase M qa = .ok qb ∧ distributedRound M qb = .ok r) ∨
         (¬ (qa.host_1stPhaseTasksAmount * 2
              ≥ qa.maxTasks + (qa.maxTasks - qa.host_2ndPhaseTasksAmount))
            ∧ distributedRound M qa = .ok r)) := by
      intro qa hk
      by_cases c3 : qa.host_1stPhaseTasksAmount * 2
          ≥ qa.maxTasks + (qa.maxTasks - qa.host_2ndPhaseTasksAmount)
      · rw [if_pos c3] at hk
        by_cases c4 : 4 * qa.host_2ndPhaseTasksAmount ≥ 3 * qa.maxTasks
        · rw [if_pos c4] at hk
          cases hp : prematureSecondPhase M qa with
          | error e => simp [hp, bind, Except.bind] at hk
          | ok qb =>
            simp only [hp, bind, Except.bind] at hk
            exact Or.inr (Or.inl ⟨c3, c4, qb, rfl, hk⟩)
        · rw [if_neg c4] at hk
          injection hk with hk
          exact Or.inl ⟨c3, c4, hk.symm⟩
      · rw [if_neg c3] at hk
        exact Or.inr (Or.inr ⟨c3, hk⟩)
    by_cases c2 : q.host_2ndPhaseTasksAmount ≥ q.maxTasks
    · rw [if_pos c2] at h
      cases hp : prematureSecondPhase M q with
      | error e => simp [hp, bind, Except.bind] at h
      | ok qa =>
        simp only [hp, bind, Except.bind] at h
        exact ⟨qa, Or.inl ⟨c2, rfl⟩, key qa h⟩
    · rw [if_neg c2] at h
      simp only [bind, Except.bind, pure, Except.pure] at h
      exact ⟨q, Or.inr ⟨by omega, rfl⟩, key q h⟩

/-- A pass through the loop body that ends a round: after at most two premature second-phase
sorts the distributed round is run on a scheduler with the same configuration and the same
distributed count. -/
theorem firstPhaseBody_next {Value : Type} (M : Machine Value) (q q' : Quicksorter Value)
    (h : firstPhaseBody M q = .ok (.next q')) :
    ∃ qm drains, distributedRound M qm = .ok (.next q') ∧ SameConfig q qm ∧
      qm.host_1stPhaseTasksAmount = q.host_1stPhaseTasksAmount ∧
      qm.launches = q.launches ++ drains ∧ ∀ l ∈ drains, l.isSecondPhase = true := by
  rcases firstPhaseBody_cases M q _ h with ⟨_, hr⟩ | ⟨_, qa, hqa, hrest⟩
  · cases hr
  · have ha : ∃ d1, SameConfig q qa ∧ qa.host_1stPhaseTasksAmount = q.host_1stPhaseTasksAmount ∧
        qa.launches = q.launches ++ d1 ∧ ∀ l ∈ d1, l.isSecondPhase = true := by
      rcases hqa with ⟨_, hp⟩ | ⟨_, hq⟩
      · obtain ⟨l, l1, _, l3, l4, l5, _, _⟩ := prematureSecondPhase_spec M q qa hp
        refine ⟨[l], l4, l5, l3, ?_⟩
        intro x hx
        rw [List.mem_singleton] at hx
        subst hx
        exact l1
      · subst hq
        exact ⟨[], SameConfig.refl _, rfl, by simp, by simp⟩
    obtain ⟨d1, a1, a2, a3, a4⟩ := ha
    rcases hrest with ⟨_, _, hr⟩ | ⟨_, _, qb, hp, hd⟩ | ⟨_, hd⟩
    · cases hr
    · obtain ⟨l, l1, _, l3, l4, l5, _, _⟩ := prematureSecondPhase_spec M qa qb hp
      refine ⟨qb, d1 ++ [l], hd, SameConfig.trans a1 l4, l5.trans a2, ?_, ?_⟩
      · rw [l3, a3, List.append_assoc]
      · intro x hx
        rcases List.mem_append.mp hx with hx | hx
        · exact a4 x hx
        · rw [List.mem_singleton] at hx
          subst hx
          exact l1
    · exact ⟨qa, d1, hd, a1, a2, a3, a4⟩

/-- C6: in every distributed round the partition kernel is the staging variant exactly when
`elemPerBlock * sizeof(Value) + sizeof(Value) <= maxSharable`; otherwise the direct variant is
launched with `sizeof(Value)` bytes of dynamic shared memory; grid, block size, `elemPerBlock`
and task buffer are the same for both. -/
theorem partition_variant_by_budget {Value : Type} (M : Machine Value)
    (q q' : Quicksorter Value) (h : firstPhaseBody M q = .ok (.next q')) :
    ∃ before blocksCnt spawn,
      q'.launches = q.launches ++ before ++
        [ (if q.desiredElemPerBlock * M.sizeofValue + M.sizeofValue ≤ q.maxSharable then
            Launch.cudaQuickSort1stPhase true
              ⟨q.threadsPerBlock, blocksCnt,
                q.desiredElemPerBlock * M.sizeofValue + M.sizeofValue⟩
              q.desiredElemPerBlock (currentTasks q.iteration)
           else
            Launch.cudaQuickSort1stPhase false
              ⟨q.threadsPerBlock, blocksCnt, M.sizeofValue⟩
              q.desiredElemPerBlock (currentTasks q.iteration)),
          spawn ] ∧
      spawn.isWritePivot = true ∧ ∀ l ∈ before, l.isPartition = false := by
  obtain ⟨qm, drains, hd, c1, _, c3, c4⟩ := firstPhaseBody_next M q q' h
  obtain ⟨b, qi, hi, _, hq'⟩ := distributedRound_next M qm q' hd
  obtain ⟨s1, _, _, ls, s4, s5⟩ := initTasks_spec M _ qm qi b hi
  obtain ⟨p1, _⟩ := partitionAndSpawn_spec M qi (getElemPerBlock qm) b
  have t := SameConfig.trans c1 s1
  obtain ⟨_, t2, t3, t4, _, _, t7, _⟩ := t
  have e3 : qm.desiredElemPerBlock = q.desiredElemPerBlock := c1.2.2.1
  refine ⟨drains ++ ls, b, writePivotLaunch M qi, ?_, rfl, ?_⟩
  · rw [hq', p1, s4, c3]
    simp only [partitionLaunch, getElemPerBlock, t2, t4, t7, e3, List.append_assoc]
  · intro l hl
    rcases List.mem_append.mp hl with hl | hl
    · have := c4 l hl
      cases l <;> simp_all [Launch.isSecondPhase, Launch.isPartition]
    · exact (s5 l hl).2.1

/-- C7 (as amended): after `firstPhase` has returned, `performSort` launches the
self-contained stage once, as the last launch, with `host_1stPhaseTasksAmount +
host_2ndPhaseTasksAmount` groups and over the first `host_1stPhaseTasksAmount` tasks of the
current distributed buffer and the first `host_2ndPhaseTasksAmount` tasks of the terminal
queue, when that sum is positive, and makes no launch at all otherwise. -/
theorem performSort_final_secondPhase {Value : Type} (M : Machine Value) (fuel : Nat)
    (q q1 : Quicksorter Value) (h : firstPhase M fuel q = .ok q1) :
    (q1.host_1stPhaseTasksAmount + q1.host_2ndPhaseTasksAmount > 0 →
      performSort M fuel q = secondPhase M q1 ∧
      ∀ q2, secondPhase M q1 = .ok q2 →
        ∃ l, l.isSecondPhase = true ∧
          l.config.gridSize = q1.host_1stPhaseTasksAmount + q1.host_2ndPhaseTasksAmount ∧
          l.taskViews =
            (if q1.host_1stPhaseTasksAmount > 0 ∧ q1.host_2ndPhaseTasksAmount > 0 then
              [(currentTasks q1.iteration, q1.host_1stPhaseTasksAmount),
               (TaskQueue.cuda_2ndPhaseTasks, q1.host_2ndPhaseTasksAmount)]
             else if q1.host_1stPhaseTasksAmount > 0 then
              [(currentTasks q1.iteration, q1.host_1stPhaseTasksAmount)]
             else [(TaskQueue.cuda_2ndPhaseTasks, q1.host_2ndPhaseTasksAmount)]) ∧
          q2.launches = q1.launches ++ [l]) ∧
    (¬ (q1.host_1stPhaseTasksAmount + q1.host_2ndPhaseTasksAmount > 0) →
      performSort M fuel q = .ok q1) := by
  constructor
  · intro hpos
    constructor
    · unfold performSort
      simp only [h, bind, Except.bind]
      rw [if_pos hpos]
    · intro q2 h2
      obtain ⟨l, hl, hl2, hl3, hl4⟩ := secondPhase_spec M q1 q2 h2
      exact ⟨l, hl2, hl3, hl4, by rw [hl]; rfl⟩
  · intro hneg
    unfold performSort
    simp only [h, bind, Except.bind]
    rw [if_neg hneg]
    rfl

/-- The queues `init` allocates for an empty array have no element. -/
theorem setSize_nonpos {α : Type} [Inhabited α] (a : List α) (n : Int) (h : n ≤ 0) :
    setSize a n = [] := by
  unfold setSize
  by_cases c : (a.length : Int) = n
  · rw [if_pos c]
    have : a.length = 0 := by omega
    exact List.length_eq_zero.mp this
  · rw [if_neg c]
    have : n.toNat = 0 := by omega
    rw [this]
    rfl

/-- Function `init` on the empty array: the write of the initial task at index 0 is outside the
queue, whatever the scheduler held before. -/
theorem init_empty {Value : Type} [Inhabited Value] (M : Machine Value) (q : Quicksorter Value)
    (gridDim blockDim e maxSharable : Int) (he : 0 ≤ e) :
    init M q ([] : List Value) gridDim blockDim e maxSharable = .error .outOfBounds := by
  unfold init
  have hm : min ((([] : List Value).length : Int)) M.g_maxTasks ≤ 0 := by
    have : ((([] : List Value).length : Int)) = 0 := rfl
    omega
  simp only [setSize_nonpos _ _ hm]
  rw [if_neg (by simpa using he)]
  rfl

theorem sortShared_empty {Value : Type} [Inhabited Value] (M : Machine Value) (fuel : Nat)
    (q : Quicksorter Value) (maxBlocks blockDim multiplier maxSharable : Int)
    (hb : 0 ≤ blockDim) (hm : 0 ≤ multiplier) :
    sortShared M fuel q ([] : List Value) maxBlocks blockDim multiplier maxSharable
        = .error .outOfBounds ∨
      sortShared M fuel q ([] : List Value) maxBlocks blockDim multiplier maxSharable
        = .error .assertionFailed := by
  unfold sortShared
  split
  · exact Or.inr rfl
  · rw [init_empty M q _ _ _ _ (Int.mul_nonneg hm hb)]
    exact Or.inl rfl

theorem Quicksorter_sort_empty {Value : Type} [Inhabited Value] (M : Machine Value)
    (sharedMemPerBlock : Int) (fuel : Nat) (q : Quicksorter Value) :
    Quicksorter.sort M sharedMemPerBlock fuel q ([] : List Value) = .error .outOfBounds ∨
      Quicksorter.sort M sharedMemPerBlock fuel q ([] : List Value)
        = .error .assertionFailed := by
  unfold Quicksorter.sort
  simp only []
  split
  · split
    · rw [init_empty M q _ _ _ _ (le_refl 0)]
      exact Or.inl rfl
    · exact sortShared_empty M fuel q _ _ _ _ (by omega) (by omega)
  · exact sortShared_empty M fuel q _ _ _ _ (by omega) (by omega)

/-- C1 (failing input): `Quicksort::sort` on the empty array does not return, on any
device, for any element size, any kernels and however many loop passes are allowed: it
stops at the out-of-bounds write of the initial task (or, for an element size that the
configuration arithmetic of `sort` cannot hold, at the assertion before it); on the example
machine the fault is the out-of-bounds write. -/
theorem Quicksort_sort_empty_array_faults :
    (∀ (Value : Type) [Inhabited Value] (M : Machine Value) (sharedMemPerBlock : Int)
        (fuel : Nat),
      Quicksort.sort M sharedMemPerBlock fuel ([] : List Value) = .error .outOfBounds ∨
      Quicksort.sort M sharedMemPerBlock fuel ([] : List Value) = .error .assertionFailed) ∧
    Quicksort.sort exampleMachine 49152 1 [] = .error .outOfBounds ∧
    Quicksort.sort exampleMachine 49152 5 [5, 3, 8, 1, 9, 2, 7, 4, 6]
      = .ok [1, 2, 3, 4, 5, 6, 7, 8, 9] := by
  refine ⟨?_, rfl, rfl⟩
  intro Value _ M s fuel
  unfold Quicksort.sort
  rcases Quicksorter_sort_empty M s fuel (Quicksorter.fresh Value) with he | he
  · left; rw [he]
  · right; rw [he]

/-- C2 (failing input): for the empty array `init` faults at the write of the initial task
at index 0 of a queue of capacity `maxTasks = min( 0, g_maxTasks )`, from every scheduler
state and for every configuration with a non-negative threshold; a one-element array is
sorted with every access in bounds and is unchanged. -/
theorem init_empty_array_out_of_bounds :
    (∀ (Value : Type) [Inhabited Value] (M : Machine Value) (q : Quicksorter Value)
        (gridDim blockDim maxSharable : Int) (desiredElemPerBlock : Nat),
      init M q ([] : List Value) gridDim blockDim desiredElemPerBlock maxSharable
        = .error .outOfBounds) ∧
    (∃ q0 q : Quicksorter Int,
      init exampleMachine (Quicksorter.fresh Int) [7] (2 ^ 20) 512 512 48704 = .ok q0 ∧
      q0.maxTasks = 1 ∧ performSort exampleMachine 1 q0 = .ok q ∧ q.dev.arr = [7]) ∧
    (∃ q0 q : Quicksorter Int,
      init exampleMachine (Quicksorter.fresh Int) [7] (2 ^ 20) 512 0 0 = .ok q0 ∧
      q0.maxTasks = 1 ∧ performSort exampleMachine 1 q0 = .ok q ∧ q.dev.arr = [7]) := by
  refine ⟨?_, ⟨_, _, rfl, rfl, rfl, rfl⟩, ⟨_, _, rfl, rfl, rfl, rfl⟩⟩
  intro Value _ M q g b s e
  exact init_empty M q g b e s (Int.natCast_nonneg e)

/-- C3 (failing input): for a new `Quicksorter` and the empty array, whose size is at most
every threshold, `init` does not put the task `[0, 0)` into the self-contained queue and
`performSort` is not reached; at a non-empty array of exactly the threshold size the task is
queued, `firstPhase` makes no launch and one group runs the self-contained stage. -/
theorem empty_array_not_queued :
    (∀ (Value : Type) [Inhabited Value] (M : Machine Value)
        (gridDim blockDim maxSharable : Int) (threshold fuel : Nat),
      (init M (Quicksorter.fresh Value) ([] : List Value) gridDim blockDim threshold maxSharable
        >>= performSort M fuel) = .error .outOfBounds) ∧
    (∃ q0 q : Quicksorter Int,
      init exampleMachine (Quicksorter.fresh Int) [3, 1] 8 2 2 1000 = .ok q0 ∧
      q0.dev.cuda_2ndPhaseTasks = [⟨0, 2, 0⟩, default] ∧
      q0.host_1stPhaseTasksAmount = 0 ∧ q0.host_2ndPhaseTasksAmount = 1 ∧
      firstPhase exampleMachine 0 q0 = .ok q0 ∧
      performSort exampleMachine 0 q0 = .ok q ∧
      q.iteration = 0 ∧
      q.launches = [.cudaQuickSort2ndPhase ⟨2, 1, 12⟩ .cuda_2ndPhaseTasks 1 2 2] ∧
      q.dev.arr = [1, 3]) := by
  refine ⟨?_, ⟨_, _, rfl, rfl, rfl, rfl, rfl, rfl, rfl, rfl, rfl⟩⟩
  intro Value _ M g b s T fuel
  rw [init_empty M (Quicksorter.fresh Value) g b T s (Int.natCast_nonneg T)]
  rfl

/-- A full distributed queue ends `firstPhase` at the top of the loop, with the scheduler
as it was. -/
theorem firstPhase_of_full_queue {Value : Type} (M : Machine Value) (fuel : Nat)
    (q : Quicksorter Value) (h : q.host_1stPhaseTasksAmount ≥ q.maxTasks) :
    firstPhaseBody M q = .ok (.exit q) ∧
    firstPhase M (fuel + 1) q = .ok q ∧
    performSort M (fuel + 1) q =
      (if q.host_1stPhaseTasksAmount + q.host_2ndPhaseTasksAmount > 0 then secondPhase M q
       else .ok q) := by
  have hb : firstPhaseBody M q = .ok (.exit q) := by
    unfold firstPhaseBody
    rw [if_pos h]
    rfl
  have hf : firstPhase M (fuel + 1) q = .ok q := by
    unfold firstPhase
    by_cases hp : q.host_1stPhaseTasksAmount > 0
    · rw [if_pos hp, hb]
    · rw [if_neg hp]
  refine ⟨hb, hf, ?_⟩
  unfold performSort
  rw [hf]
  rfl

/-- C10: when `host_1stPhaseTasksAmount >= maxTasks` at the top of a `firstPhase` iteration,
that iteration breaks without a launch, `firstPhase` returns the scheduler unchanged (host
counts, round counter, task buffers, arrays, launches), and `performSort` hands exactly this
state to `secondPhase`. -/
theorem firstPhase_exits_when_queue_full {Value : Type} (M : Machine Value) (fuel : Nat)
    (q : Quicksorter Value) (h : q.host_1stPhaseTasksAmount ≥ q.maxTasks) :
    firstPhaseBody M q = .ok (.exit q) ∧
    firstPhase M (fuel + 1) q = .ok q ∧
    performSort M (fuel + 1) q =
      (if q.host_1stPhaseTasksAmount + q.host_2ndPhaseTasksAmount > 0 then secondPhase M q
       else .ok q) :=
  firstPhase_of_full_queue M fuel q h

/-- Witness for `firstPhase_exits_when_queue_full`: the example scheduler with three
distributed tasks in its queue of three entries. -/
theorem firstPhase_exits_when_queue_full_witness :
    ({ exampleScheduler with host_1stPhaseTasksAmount := 3 } : Quicksorter Int).host_1stPhaseTasksAmount
      ≥ ({ exampleScheduler with host_1stPhaseTasksAmount := 3 } : Quicksorter Int).maxTasks ∧
    (firstPhaseBody exampleMachine { exampleScheduler with host_1stPhaseTasksAmount := 3 }
        = .ok (.exit { exampleScheduler with host_1stPhaseTasksAmount := 3 }) ∧
      firstPhase exampleMachine (0 + 1) { exampleScheduler with host_1stPhaseTasksAmount := 3 }
        = .ok { exampleScheduler with host_1stPhaseTasksAmount := 3 } ∧
      performSort exampleMachine (0 + 1) { exampleScheduler with host_1stPhaseTasksAmount := 3 } =
        (if ({ exampleScheduler with host_1stPhaseTasksAmount := 3 } :
              Quicksorter Int).host_1stPhaseTasksAmount
            + ({ exampleScheduler with host_1stPhaseTasksAmount := 3 } :
              Quicksorter Int).host_2ndPhaseTasksAmount > 0 then
          secondPhase exampleMachine { exampleScheduler with host_1stPhaseTasksAmount := 3 }
         else .ok { exampleScheduler with host_1stPhaseTasksAmount := 3 })) :=
  ⟨by decide,
    firstPhase_exits_when_queue_full exampleMachine 0
      { exampleScheduler with host_1stPhaseTasksAmount := 3 } (by decide)⟩

/-- Witness for `one_above_threshold_forces_round`: threshold 2 and the array `[3, 1, 2]`. -/
theorem one_above_threshold_forces_round_witness :
    ((1 : Int) ≤ 2 ∧ (2 : Int) ≤ exampleMachine.g_maxTasks ∧ (2 : Int) ≤ 8 ∧
      ((([3, 1, 2] : List Int).length : Int)) = 2 + 1) ∧
    ∃ q0 q1 : Quicksorter Int,
      init exampleMachine (Quicksorter.fresh Int) [3, 1, 2] 8 2 2 1000 = .ok q0 ∧
      q0.host_1stPhaseTasksAmount = 1 ∧ 1 < q0.maxTasks ∧
      getElemPerBlock q0 = 2 ∧
      firstPhaseBody exampleMachine q0 = .ok (.next q1) ∧
      q1.iteration = 1 ∧
      q1.launches =
        [ .cudaCalcBlocksNeeded
            ⟨2, cdiv 1 2 + (if cmod 1 2 ≠ 0 then 1 else 0), 0⟩
            .cuda_tasks 1 2,
          .cudaInitTask ⟨2, 1, 0⟩ .cuda_tasks 1 2 .arr,
          partitionLaunch exampleMachine q0 2 2,
          writePivotLaunch exampleMachine q0 ] ∧
      ∀ fuel, firstPhase exampleMachine (fuel + 1) q0 = firstPhase exampleMachine fuel q1 :=
  ⟨⟨by decide, by decide, by decide, by decide⟩,
    one_above_threshold_forces_round exampleMachine [3, 1, 2] 8 2 2 1000
      (by decide) (by decide) (by decide) (by decide)⟩

/-- The state at the end of a distributed round whose spawn kernel left device memory `q`:
`processNewTasks(); iteration++`. -/
theorem endOfRound_eq {Value : Type} (M : Machine Value) (q : Quicksorter Value) (e b : Int) :
    partitionAndSpawn M q e b =
      { processNewTasks (launchKernelSync M (writePivotLaunch M q)
          (launchKernelSync M (partitionLaunch M q e b) q)) with
        iteration := q.iteration + 1 } := rfl

/-- The example scheduler is what `init` leaves for `[3, 1, 2]`. -/
theorem init_exampleScheduler :
    init exampleMachine (Quicksorter.fresh Int) [3, 1, 2] 8 2 2 1000 = .ok exampleScheduler :=
  rfl

/-- Witness for `partition_variant_by_budget`: the first round on `[3, 1, 2]`. -/
theorem partition_variant_by_budget_witness :
    firstPhaseBody exampleMachine exampleScheduler = .ok (.next exampleRoundEnd) ∧
    ∃ before blocksCnt spawn,
      exampleRoundEnd.launches = exampleScheduler.launches ++ before ++
        [ (if exampleScheduler.desiredElemPerBlock * exampleMachine.sizeofValue
                + exampleMachine.sizeofValue ≤ exampleScheduler.maxSharable then
            Launch.cudaQuickSort1stPhase true
              ⟨exampleScheduler.threadsPerBlock, blocksCnt,
                exampleScheduler.desiredElemPerBlock * exampleMachine.sizeofValue
                  + exampleMachine.sizeofValue⟩
              exampleScheduler.desiredElemPerBlock (currentTasks exampleScheduler.iteration)
           else
            Launch.cudaQuickSort1stPhase false
              ⟨exampleScheduler.threadsPerBlock, blocksCnt, exampleMachine.sizeofValue⟩
              exampleScheduler.desiredElemPerBlock (currentTasks exampleScheduler.iteration)),
          spawn ] ∧
      spawn.isWritePivot = true ∧ ∀ l ∈ before, l.isPartition = false :=
  ⟨rfl, partition_variant_by_budget exampleMachine exampleScheduler exampleRoundEnd rfl⟩

/-- C7 (counterexample): sorting `[4, 4, 4]` with threshold 2 takes one distributed round
(one partition launch), after which no task remains; `performSort` returns without any
launch of the self-contained stage, so `secondPhase` is launched zero times, not once. -/
theorem all_equal_array_never_launches_secondPhase :
    ∃ q0 q : Quicksorter Int,
      init exampleMachine (Quicksorter.fresh Int) [4, 4, 4] 8 2 2 1000 = .ok q0 ∧
      performSort exampleMachine 3 q0 = .ok q ∧
      q.host_1stPhaseTasksAmount + q.host_2ndPhaseTasksAmount = 0 ∧
      q.launches.map Launch.isPartition = [false, false, true, false] ∧
      (q.launches.filter Launch.isSecondPhase).length = 0 ∧
      q.dev.arr = [4, 4, 4] :=
  ⟨_, _, rfl, rfl, rfl, rfl, rfl, rfl⟩

/-- Witness for `performSort_final_secondPhase`: the sort of `[3, 1, 2]`. -/
theorem performSort_final_secondPhase_witness :
    firstPhase exampleMachine 3 exampleScheduler = .ok exampleAfterFirstPhase ∧
    ((exampleAfterFirstPhase.host_1stPhaseTasksAmount
          + exampleAfterFirstPhase.host_2ndPhaseTasksAmount > 0 →
      performSort exampleMachine 3 exampleScheduler
          = secondPhase exampleMachine exampleAfterFirstPhase ∧
      ∀ q2, secondPhase exampleMachine exampleAfterFirstPhase = .ok q2 →
        ∃ l, l.isSecondPhase = true ∧
          l.config.gridSize = exampleAfterFirstPhase.host_1stPhaseTasksAmount
            + exampleAfterFirstPhase.host_2ndPhaseTasksAmount ∧
          l.taskViews =
            (if exampleAfterFirstPhase.host_1stPhaseTasksAmount > 0
                ∧ exampleAfterFirstPhase.host_2ndPhaseTasksAmount > 0 then
              [(currentTasks exampleAfterFirstPhase.iteration,
                  exampleAfterFirstPhase.host_1stPhaseTasksAmount),
               (TaskQueue.cuda_2ndPhaseTasks, exampleAfterFirstPhase.host_2ndPhaseTasksAmount)]
             else if exampleAfterFirstPhase.host_1stPhaseTasksAmount > 0 then
              [(currentTasks exampleAfterFirstPhase.iteration,
                  exampleAfterFirstPhase.host_1stPhaseTasksAmount)]
             else [(TaskQueue.cuda_2ndPhaseTasks,
                  exampleAfterFirstPhase.host_2ndPhaseTasksAmount)]) ∧
          q2.launches = exampleAfterFirstPhase.launches ++ [l]) ∧
    (¬ (exampleAfterFirstPhase.host_1stPhaseTasksAmount
          + exampleAfterFirstPhase.host_2ndPhaseTasksAmount > 0) →
      performSort exampleMachine 3 exampleScheduler = .ok exampleAfterFirstPhase)) :=
  ⟨rfl, performSort_final_secondPhase exampleMachine 3 exampleScheduler exampleAfterFirstPhase rfl⟩

/-- The forced overflow on the small queue leaves `firstPhase` and the array is sorted. -/
theorem small_queue_sort :
    ∃ q0 q : Quicksorter Int,
      init smallQueueMachine (Quicksorter.fresh Int) [2, 1, 1, 3, 3] 8 2 1 1000 = .ok q0 ∧
      performSort smallQueueMachine 2 q0 = .ok q ∧
      q.iteration = 1 ∧ q.host_1stPhaseTasksAmount = 2 ∧ q.maxTasks = 2 ∧
      q.dev.arr = [1, 1, 2, 3, 3] :=
  ⟨_, _, rfl, rfl, rfl, rfl, rfl, rfl⟩

/-- The loop body of `firstPhase` by the host counts at the top of the pass: a full distributed
queue breaks; a full terminal queue is drained and the round is run (after the drain the
growth test cannot fire); otherwise the growth test fires exactly when
`2 * host_1stPhaseTasksAmount + host_2ndPhaseTasksAmount >= 2 * maxTasks`. -/
theorem firstPhaseBody_by_counts {Value : Type} (M : Machine Value) (q : Quicksorter Value) :
    firstPhaseBody M q =
      if q.host_1stPhaseTasksAmount ≥ q.maxTasks then .ok (.exit q)
      else if q.host_2ndPhaseTasksAmount ≥ q.maxTasks then
        prematureSecondPhase M q >>= distributedRound M
      else if 2 * q.host_1stPhaseTasksAmount + q.host_2ndPhaseTasksAmount ≥ 2 * q.maxTasks then
        (if 4 * q.host_2ndPhaseTasksAmount ≥ 3 * q.maxTasks then
          prematureSecondPhase M q >>= distributedRound M
         else .ok (.exit q))
      else distributedRound M q := by
  unfold firstPhaseBody
  by_cases c1 : q.host_1stPhaseTasksAmount ≥ q.maxTasks
  · rw [if_pos c1, if_pos c1]
    rfl
  · rw [if_neg c1, if_neg c1]
    by_cases c2 : q.host_2ndPhaseTasksAmount ≥ q.maxTasks
    · rw [if_pos c2, if_pos c2]
      cases hp : prematureSecondPhase M q with
      | error e => rfl
      | ok qa =>
        obtain ⟨l, _, _, _, hc, e1, e2, _⟩ := prematureSecondPhase_spec M q qa hp
        have e3 : qa.maxTasks = q.maxTasks := hc.2.2.2.2.2.1
        simp only [bind, Except.bind]
        rw [if_neg (by rw [e1, e2, e3]; omega)]
    · rw [if_neg c2, if_neg c2]
      simp only [bind, Except.bind, pure, Except.pure]
      by_cases c3 : 2 * q.host_1stPhaseTasksAmount + q.host_2ndPhaseTasksAmount ≥ 2 * q.maxTasks
      · rw [if_pos c3, if_pos (by omega)]
      · rw [if_neg c3, if_neg (by omega)]

/-- C11 (as amended): in a pass through the loop body of `firstPhase` the growth-risk branch
is entered exactly when `host_1stPhaseTasksAmount < maxTasks`, `host_2ndPhaseTasksAmount <
maxTasks` and `2 * host_1stPhaseTasksAmount + host_2ndPhaseTasksAmount >= 2 * maxTasks`, that
is `2 * host_1stPhaseTasksAmount >= maxTasks + ( maxTasks - host_2ndPhaseTasksAmount )`: the
tasks of the terminal queue count against the capacity.  In the branch the pass drains the
terminal queue or breaks; outside it the pass goes to the block assignment, after the drain of
a full terminal queue if there is one. -/
theorem growth_risk_branch_condition {Value : Type} (M : Machine Value)
    (q : Quicksorter Value) :
    firstPhaseBody M q =
      if q.host_1stPhaseTasksAmount ≥ q.maxTasks then .ok (.exit q)
      else if q.host_2ndPhaseTasksAmount ≥ q.maxTasks then
        prematureSecondPhase M q >>= distributedRound M
      else if 2 * q.host_1stPhaseTasksAmount + q.host_2ndPhaseTasksAmount ≥ 2 * q.maxTasks then
        (if 4 * q.host_2ndPhaseTasksAmount ≥ 3 * q.maxTasks then
          prematureSecondPhase M q >>= distributedRound M
         else .ok (.exit q))
      else distributedRound M q :=
  firstPhaseBody_by_counts M q

/-- C11 (counterexample): on `growthMachine` the sort of `[8, 2, 5, 3, 4, 6, 7, 1, 10, 11, 12,
13, 9]` reaches, after three distributed rounds, the top of the loop with 3 distributed tasks
and 2 tasks in the terminal queue, the queues having 4 entries: `2 * 3 >= 2 * 4` is false, yet
the growth-risk branch is entered, for the pass breaks without any launch although the block
assignment of these tasks would have led to another round. -/
theorem growth_risk_entered_below_total_capacity :
    init growthMachine (Quicksorter.fresh Int) [8, 2, 5, 3, 4, 6, 7, 1, 10, 11, 12, 13, 9]
      16 2 1 1000 = .ok (growthRound 0) ∧
    firstPhaseBody growthMachine (growthRound 0) = .ok (.next (growthRound 1)) ∧
    firstPhaseBody growthMachine (growthRound 1) = .ok (.next (growthRound 2)) ∧
    firstPhaseBody growthMachine (growthRound 2) = .ok (.next (growthRound 3)) ∧
    (growthRound 3).host_1stPhaseTasksAmount = 3 ∧
    (growthRound 3).host_2ndPhaseTasksAmount = 2 ∧
    (growthRound 3).maxTasks = 4 ∧
    ¬ (2 * (growthRound 3).host_1stPhaseTasksAmount ≥ 2 * (growthRound 3).maxTasks) ∧
    firstPhaseBody growthMachine (growthRound 3) = .ok (.exit (growthRound 3)) ∧
    (∃ q, distributedRound growthMachine (growthRound 3) = .ok (.next q)) :=
  ⟨rfl, rfl, rfl, rfl, rfl, rfl, rfl, by decide, rfl, ⟨_, rfl⟩⟩

theorem sameSetup_refl {Value : Type} (q : Quicksorter Value) : SameSetup q q :=
  ⟨rfl, rfl, rfl, rfl, rfl, rfl, rfl, rfl, rfl, rfl, rfl⟩

theorem sameSetup_trans {Value : Type} {a b c : Quicksorter Value} (h1 : SameSetup a b)
    (h2 : SameSetup b c) : SameSetup a c := by
  obtain ⟨a1, a2, a3, a4, a5, a6, a8, a9, a10, a11, a12⟩ := h1
  obtain ⟨b1, b2, b3, b4, b5, b6, b8, b9, b10, b11, b12⟩ := h2
  exact ⟨b1.trans a1, b2.trans a2, b3.trans a3, b4.trans a4, b5.trans a5, b6.trans a6,
    b8.trans a8, b9.trans a9, b10.trans a10, b11.trans a11, b12.trans a12⟩

theorem SameConfig.toSameSetup {Value : Type} {a b : Quicksorter Value} (h : SameConfig a b) :
    SameSetup a b := by
  obtain ⟨a1, a2, a3, a4, a5, a6, _, a8, a9, a10, a11, a12⟩ := h
  exact ⟨a1, a2, a3, a4, a5, a6, a8, a9, a10, a11, a12⟩

/-- Function `secondPhase` returns when the two prefix views are inside their queues. -/
theorem secondPhase_returns {Value : Type} (M : Machine Value) (q : Quicksorter Value)
    (h1 : q.host_1stPhaseTasksAmount ≤ (q.dev.queue (currentTasks q.iteration)).length)
    (h2 : 0 ≤ q.host_2ndPhaseTasksAmount)
    (h3 : q.host_2ndPhaseTasksAmount ≤ q.dev.cuda_2ndPhaseTasks.length) :
    ∃ q', secondPhase M q = .ok q' := by
  unfold secondPhase
  simp only []
  by_cases c1 : q.host_1stPhaseTasksAmount > 0 ∧ q.host_2ndPhaseTasksAmount > 0
  · rw [if_pos c1, getView_ok _ _ (by omega) h1, getView_ok _ _ h2 h3]
    exact ⟨_, rfl⟩
  · rw [if_neg c1]
    by_cases c2 : q.host_1stPhaseTasksAmount > 0
    · rw [if_pos c2, getView_ok _ _ (by omega) h1]
      exact ⟨_, rfl⟩
    · rw [if_neg c2, getView_ok _ _ h2 h3]
      exact ⟨_, rfl⟩

/-- The premature second-phase sort returns when the terminal count is inside the terminal
queue. -/
theorem prematureSecondPhase_returns {Value : Type} (M : Machine Value) (q : Quicksorter Value)
    (h2 : 0 ≤ q.host_2ndPhaseTasksAmount)
    (h3 : q.host_2ndPhaseTasksAmount ≤ q.dev.cuda_2ndPhaseTasks.length) :
    ∃ q', prematureSecondPhase M q = .ok q' := by
  obtain ⟨qs, hs⟩ := secondPhase_returns M { q with host_1stPhaseTasksAmount := 0 }
    (by show (0 : Int) ≤ _; exact Int.natCast_nonneg _) h2 h3
  unfold prematureSecondPhase
  simp only [hs, bind, Except.bind]
  exact ⟨_, rfl⟩

/-- The launch of the premature second-phase sort is given the terminal queue only. -/
theorem prematureSecondPhase_views {Value : Type} (M : Machine Value)
    (q q' : Quicksorter Value) (h : prematureSecondPhase M q = .ok q') :
    ∃ l, q'.launches = q.launches ++ [l] ∧ l.isSecondPhase = true ∧
      l.config.gridSize = q.host_2ndPhaseTasksAmount ∧
      l.taskViews = [(TaskQueue.cuda_2ndPhaseTasks, q.host_2ndPhaseTasksAmount)] := by
  unfold prematureSecondPhase at h
  cases hs : secondPhase M { q with host_1stPhaseTasksAmount := 0 } with
  | error e => simp [hs, bind, Except.bind] at h
  | ok qs =>
    simp only [hs, bind, Except.bind, pure, Except.pure] at h
    injection h with h
    obtain ⟨l, hl, hl2, hl3, hl4⟩ := secondPhase_spec M _ _ hs
    refine ⟨l, ?_, hl2, ?_, ?_⟩
    · rw [← h, hl]
      rfl
    · rw [hl3]
      show (0 : Int) + q.host_2ndPhaseTasksAmount = _
      omega
    · rw [hl4]
      simp

/-- C12 (as amended): when the growth-risk test fires (`host_1stPhaseTasksAmount * 2 >=
maxTasks + ( maxTasks - host_2ndPhaseTasksAmount )`) and the terminal queue holds at least 75%
of `maxTasks`, the terminal queue is drained by one launch of the self-contained stage over
its `host_2ndPhaseTasksAmount` tasks, its counters are reset and the same pass goes on to
the block assignment; when the terminal queue holds less, the pass breaks: nothing is
launched, `firstPhase` returns the unchanged scheduler and `performSort` sorts all the tasks
left in `secondPhase`. -/
theorem growth_risk_drains_or_breaks {Value : Type} (M : Machine Value) (fuel : Nat)
    (q : Quicksorter Value) (hpos : 0 < q.host_1stPhaseTasksAmount)
    (h1 : q.host_1stPhaseTasksAmount < q.maxTasks)
    (h2 : q.host_2ndPhaseTasksAmount < q.maxTasks)
    (hrisk : q.host_1stPhaseTasksAmount * 2
      ≥ q.maxTasks + (q.maxTasks - q.host_2ndPhaseTasksAmount)) :
    (4 * q.host_2ndPhaseTasksAmount ≥ 3 * q.maxTasks →
      firstPhaseBody M q = prematureSecondPhase M q >>= distributedRound M ∧
      (q.host_2ndPhaseTasksAmount ≤ q.dev.cuda_2ndPhaseTasks.length →
        ∃ qa l, prematureSecondPhase M q = .ok qa ∧ qa.launches = q.launches ++ [l] ∧
          l.isSecondPhase = true ∧ l.config.gridSize = q.host_2ndPhaseTasksAmount ∧
          l.taskViews = [(TaskQueue.cuda_2ndPhaseTasks, q.host_2ndPhaseTasksAmount)] ∧
          qa.host_1stPhaseTasksAmount = q.host_1stPhaseTasksAmount ∧
          qa.host_2ndPhaseTasksAmount = 0 ∧ qa.dev.cuda_2ndPhaseTasksAmount = 0 ∧
          SameConfig q qa)) ∧
    (¬ (4 * q.host_2ndPhaseTasksAmount ≥ 3 * q.maxTasks) →
      firstPhaseBody M q = .ok (.exit q) ∧ firstPhase M (fuel + 1) q = .ok q ∧
      performSort M (fuel + 1) q = secondPhase M q) := by
  have hb := firstPhaseBody_by_counts M q
  rw [if_neg (by omega), if_neg (by omega), if_pos (by omega)] at hb
  constructor
  · intro h75
    rw [if_pos h75] at hb
    refine ⟨hb, ?_⟩
    intro hlen
    obtain ⟨qa, hqa⟩ := prematureSecondPhase_returns M q (by omega) hlen
    obtain ⟨l, l1, l2, l3, l4⟩ := prematureSecondPhase_views M q qa hqa
    obtain ⟨_, _, _, _, c, e1, e2, e3⟩ := prematureSecondPhase_spec M q qa hqa
    exact ⟨qa, l, hqa, l1, l2, l3, l4, e1, e2, e3, c⟩
  · intro h75
    rw [if_neg h75] at hb
    have hf : firstPhase M (fuel + 1) q = .ok q := by
      show (if q.host_1stPhaseTasksAmount > 0 then _ else _) = _
      rw [if_pos hpos, hb]
    refine ⟨hb, hf, ?_⟩
    unfold performSort
    simp only [hf, bind, Except.bind]
    rw [if_pos (by omega)]

/-- Witness for `growth_risk_drains_or_breaks`: the scheduler after three rounds on
`[8, 2, 5, 3, 4, 6, 7, 1, 10, 11, 12, 13, 9]` (3 distributed tasks, 2 tasks in the terminal
queue of 4 entries) breaks. -/
theorem growth_risk_drains_or_breaks_witness :
    (0 < (growthRound 3).host_1stPhaseTasksAmount ∧
      (growthRound 3).host_1stPhaseTasksAmount < (growthRound 3).maxTasks ∧
      (growthRound 3).host_2ndPhaseTasksAmount < (growthRound 3).maxTasks ∧
      (growthRound 3).host_1stPhaseTasksAmount * 2
        ≥ (growthRound 3).maxTasks
          + ((growthRound 3).maxTasks - (growthRound 3).host_2ndPhaseTasksAmount)) ∧
    firstPhaseBody growthMachine (growthRound 3) = .ok (.exit (growthRound 3)) ∧
    firstPhase growthMachine (0 + 1) (growthRound 3) = .ok (growthRound 3) ∧
    performSort growthMachine (0 + 1) (growthRound 3)
      = secondPhase growthMachine (growthRound 3) :=
  ⟨by decide,
    (growth_risk_drains_or_breaks growthMachine 0 (growthRound 3) (by decide) (by decide)
      (by decide) (by decide)).2 (by decide)⟩

/-- C12 (counterexample): after three rounds on `[8, 2, 5, 3, 4, 6, 7, 1, 10, 11, 12, 13, 9]`
the growth-risk test fires and the terminal queue holds 2 of 4 entries, less than 75%; the
pass does not go on to the block assignment of the three current tasks: it breaks without a
launch, and the only launch `performSort` makes afterwards is the self-contained stage over
all five tasks, which leaves the array sorted. -/
theorem growth_risk_below_three_quarters_breaks :
    (growthRound 3).host_1stPhaseTasksAmount * 2
      ≥ (growthRound 3).maxTasks
        + ((growthRound 3).maxTasks - (growthRound 3).host_2ndPhaseTasksAmount) ∧
    ¬ (4 * (growthRound 3).host_2ndPhaseTasksAmount ≥ 3 * (growthRound 3).maxTasks) ∧
    firstPhaseBody growthMachine (growthRound 3) = .ok (.exit (growthRound 3)) ∧
    ∃ q l, performSort growthMachine 1 (growthRound 3) = .ok q ∧
      q.launches = (growthRound 3).launches ++ [l] ∧ l.isSecondPhase = true ∧
      l.config.gridSize = 5 ∧
      q.dev.arr = [1, 2, 3, 4, 5, 6, 7, 8, 9, 10, 11, 12, 13] :=
  ⟨by decide, by decide, rfl, _, _, rfl, rfl, rfl, rfl, rfl⟩

/-- The drain of the growth-risk branch at work: after three rounds on `[8, 2, 5, 3, 4, 6, 7,
1, 10, 12, 11, 13, 14, 9]` there are 3 distributed tasks and 3 tasks in the terminal queue of
4 entries; the pass drains the terminal queue and runs a fourth round. -/
theorem growth_risk_drain_example :
    (drainRound 3).host_1stPhaseTasksAmount = 3 ∧ (drainRound 3).host_2ndPhaseTasksAmount = 3 ∧
    (drainRound 3).maxTasks = 4 ∧
    firstPhaseBody growthMachine (drainRound 3) = .ok (.next (drainRound 4)) ∧
    (drainRound 4).iteration = 4 ∧
    ((drainRound 4).launches.drop (drainRound 3).launches.length).map
        (fun l => (l.isSecondPhase, l.config.gridSize))
      = [(true, 3), (false, 2), (false, 3), (false, 6), (false, 3)] ∧
    ∃ q, performSort growthMachine 5 (drainRound 0) = .ok q ∧
      q.dev.arr = [1, 2, 3, 4, 5, 6, 7, 8, 9, 10, 11, 12, 13, 14] :=
  ⟨rfl, rfl, rfl, rfl, rfl, rfl, _, rfl, rfl⟩

theorem inclusiveScanFrom_getD (acc : Int) (a : List Int) (k : Nat) (hk : k < a.length) :
    (inclusiveScanFrom acc a).getD k default = acc + (a.take (k + 1)).sum := by
  induction a generalizing acc k with
  | nil => simp at hk
  | cons x xs ih =>
    cases k with
    | zero => simp [inclusiveScanFrom]
    | succ k =>
      have hk' : k < xs.length := by simpa using hk
      simp only [inclusiveScanFrom, List.getD_cons_succ, List.take_succ_cons, List.sum_cons]
      rw [ih (acc + x) k hk']
      ring

/-- The number `initTasks` reads as `blocksNeeded`: the sum, over the first
`host_1stPhaseTasksAmount` current tasks, of the blocks each of them needs. -/
theorem initTasksCount_total {Value : Type} (e : Int) (q : Quicksorter Value)
    (h0 : 1 ≤ q.host_1stPhaseTasksAmount)
    (h1 : q.host_1stPhaseTasksAmount ≤ (q.dev.queue (currentTasks q.iteration)).length)
    (h2 : q.host_1stPhaseTasksAmount ≤ q.dev.cuda_reductionTaskInitMem.length) :
    initTasksCount e q = .ok
      ((((q.dev.queue (currentTasks q.iteration)).take q.host_1stPhaseTasksAmount.toNat).map
          (blocksForTask e)).sum,
        afterCalcBlocksNeeded e q) := by
  rw [initTasksCount_eq e q h0 h1 h2]
  congr 2
  have hlen : (((q.dev.queue (currentTasks q.iteration)).take
      q.host_1stPhaseTasksAmount.toNat).map (blocksForTask e)).length
        = q.host_1stPhaseTasksAmount.toNat := by
    rw [List.length_map, List.length_take]
    omega
  have hk : (q.host_1stPhaseTasksAmount - 1).toNat + 1 = q.host_1stPhaseTasksAmount.toNat := by
    omega
  show (inplaceInclusiveScan (cudaCalcBlocksNeeded _ e ++ _)).getD _ default = _
  unfold inplaceInclusiveScan cudaCalcBlocksNeeded
  rw [inclusiveScanFrom_getD 0 _ _ (by rw [List.length_append, hlen]; omega), hk,
    List.take_append_of_le_length (by rw [hlen]), List.take_of_length_le (by rw [hlen])]
  simp

/-- The two ways `initTasks` returns: with a total above the size of the block map, after the
launch of `cudaCalcBlocksNeeded` only; or with a total inside the block map, after the launch
of `cudaInitTask` and the reset of the new-task counter. -/
theorem initTasks_cases {Value : Type} (M : Machine Value) (e : Int)
    (q q' : Quicksorter Value) (b : Int) (h : initTasks M e q = .ok (b, q')) :
    1 ≤ q.host_1stPhaseTasksAmount ∧
    q.host_1stPhaseTasksAmount ≤ (q.dev.queue (currentTasks q.iteration)).length ∧
    q.host_1stPhaseTasksAmount ≤ q.dev.cuda_reductionTaskInitMem.length ∧
    b = (((q.dev.queue (currentTasks q.iteration)).take q.host_1stPhaseTasksAmount.toNat).map
          (blocksForTask e)).sum ∧
    ((b > q.dev.cuda_blockToTaskMapping.length ∧ q' = afterCalcBlocksNeeded e q) ∨
     (0 ≤ b ∧ b ≤ q.dev.cuda_blockToTaskMapping.length ∧
        q' = afterInitTask M (afterCalcBlocksNeeded e q) b)) := by
  cases hc : initTasksCount e q with
  | error e1 => simp [initTasks, hc, bind, Except.bind] at h
  | ok r =>
    obtain ⟨b1, q1⟩ := r
    obtain ⟨hq1, a0, a1, a2⟩ := initTasksCount_spec e q q1 b1 hc
    have ht := initTasksCount_total e q a0 a1 a2
    rw [hc] at ht
    injection ht with ht
    injection ht with hb1 _
    subst hq1
    have hmap : (afterCalcBlocksNeeded e q).dev.cuda_blockToTaskMapping
        = q.dev.cuda_blockToTaskMapping := rfl
    by_cases c : b1 > q.dev.cuda_blockToTaskMapping.length
    · rw [initTasks_of_count_too_many M e q _ b1 hc (by rw [hmap]; exact c)] at h
      injection h with h
      injection h with hb hq
      subst hb
      exact ⟨a0, a1, a2, hb1, Or.inl ⟨c, hq.symm⟩⟩
    · unfold initTasks at h
      simp only [hc, bind, Except.bind] at h
      rw [if_neg (by rw [hmap]; exact c)] at h
      cases hv1 : getView ((afterCalcBlocksNeeded e q).dev.queue
          (currentTasks (afterCalcBlocksNeeded e q).iteration))
          (afterCalcBlocksNeeded e q).host_1stPhaseTasksAmount with
      | error e => simp [hv1] at h
      | ok v1 =>
        cases hv2 : getView (afterCalcBlocksNeeded e q).dev.cuda_blockToTaskMapping b1 with
        | error e => simp [hv1, hv2] at h
        | ok v2 =>
          cases hv3 : getView (afterCalcBlocksNeeded e q).dev.cuda_reductionTaskInitMem
              (afterCalcBlocksNeeded e q).host_1stPhaseTasksAmount with
          | error e => simp [hv1, hv2, hv3] at h
          | ok v3 =>
            simp only [hv1, hv2, hv3, pure, Except.pure] at h
            injection h with h
            injection h with hb hq
            obtain ⟨g0, _, _⟩ := getView_eq_ok _ _ _ hv2
            subst hb
            exact ⟨a0, a1, a2, hb1, Or.inr ⟨g0, by omega, hq.symm⟩⟩

/-- The two ways the distributed round ends. -/
theorem distributedRound_cases {Value : Type} (M : Machine Value) (q : Quicksorter Value)
    (r : LoopStep (Quicksorter Value)) (h : distributedRound M q = .ok r) :
    ∃ b qi, initTasks M (getElemPerBlock q) q = .ok (b, qi) ∧
      (((b ≤ 1 ∨ b > qi.dev.cuda_blockToTaskMapping.length) ∧ r = .exit qi) ∨
       (¬ (b ≤ 1 ∨ b > qi.dev.cuda_blockToTaskMapping.length) ∧
          r = .next (partitionAndSpawn M qi (getElemPerBlock q) b))) := by
  cases r with
  | exit q' =>
    obtain ⟨b, hi, c⟩ := distributedRound_exit M q q' h
    exact ⟨b, q', hi, Or.inl ⟨c, rfl⟩⟩
  | next q' =>
    obtain ⟨b, qi, hi, c, hq⟩ := distributedRound_next M q q' h
    exact ⟨b, qi, hi, Or.inr ⟨c, by rw [hq]⟩⟩

/-- A pass through the loop body of `firstPhase`: after at most two premature second-phase
sorts, each a single launch over the terminal queue that leaves the terminal count and its
device counter zero, the pass breaks or runs the distributed round. -/
theorem firstPhaseBody_steps {Value : Type} (M : Machine Value) (q : Quicksorter Value)
    (r : LoopStep (Quicksorter Value)) (h : firstPhaseBody M q = .ok r) :
    ∃ qm drains, SameConfig q qm ∧
      qm.host_1stPhaseTasksAmount = q.host_1stPhaseTasksAmount ∧
      ((qm = q ∧ drains = []) ∨
        (qm.host_2ndPhaseTasksAmount = 0 ∧ qm.dev.cuda_2ndPhaseTasksAmount = 0)) ∧
      qm.launches = q.launches ++ drains ∧
      (∀ l ∈ drains, l.isSecondPhase = true ∧
        ∃ n : Int, l.taskViews = [(TaskQueue.cuda_2ndPhaseTasks, n)] ∧ l.config.gridSize = n ∧
          0 ≤ n ∧ n ≤ q.dev.cuda_2ndPhaseTasks.length) ∧
      (r = .exit qm ∨ distributedRound M qm = .ok r) := by
  have drain : ∀ qa qb : Quicksorter Value, prematureSecondPhase M qa = .ok qb →
      SameConfig qa qb ∧ qb.host_1stPhaseTasksAmount = qa.host_1stPhaseTasksAmount ∧
      qb.host_2ndPhaseTasksAmount = 0 ∧ qb.dev.cuda_2ndPhaseTasksAmount = 0 ∧
      ∃ l, qb.launches = qa.launches ++ [l] ∧ l.isSecondPhase = true ∧
        ∃ n : Int, l.taskViews = [(TaskQueue.cuda_2ndPhaseTasks, n)] ∧ l.config.gridSize = n ∧
          0 ≤ n ∧ n ≤ qa.dev.cuda_2ndPhaseTasks.length := by
    intro qa qb hp
    obtain ⟨_, _, _, _, c, e1, e2, e3⟩ := prematureSecondPhase_spec M qa qb hp
    obtain ⟨l, l1, l2, l3, l4⟩ := prematureSecondPhase_views M qa qb hp
    refine ⟨c, e1, e2, e3, l, l1, l2, _, l4, l3, ?_⟩
    unfold prematureSecondPhase at hp
    cases hs : secondPhase M { qa with host_1stPhaseTasksAmount := 0 } with
    | error e => simp [hs, bind, Except.bind] at hp
    | ok qs =>
      unfold secondPhase at hs
      simp only [] at hs
      rw [if_neg (by simp), if_neg (by simp)] at hs
      cases hv : getView qa.dev.cuda_2ndPhaseTasks qa.host_2ndPhaseTasksAmount with
      | error e => simp [hv, bind, Except.bind] at hs
      | ok v =>
        obtain ⟨g0, g1, _⟩ := getView_eq_ok _ _ _ hv
        exact ⟨g0, g1⟩
  rcases firstPhaseBody_cases M q r h with ⟨_, hr⟩ | ⟨_, qa, hqa, hrest⟩
  · exact ⟨q, [], SameConfig.refl q, rfl, Or.inl ⟨rfl, rfl⟩, by simp, by simp, Or.inl hr⟩
  · have ha : ∃ d1, SameConfig q qa ∧
        qa.host_1stPhaseTasksAmount = q.host_1stPhaseTasksAmount ∧
        ((qa = q ∧ d1 = []) ∨
          (qa.host_2ndPhaseTasksAmount = 0 ∧ qa.dev.cuda_2ndPhaseTasksAmount = 0)) ∧
        qa.launches = q.launches ++ d1 ∧
        (∀ l ∈ d1, l.isSecondPhase = true ∧
          ∃ n : Int, l.taskViews = [(TaskQueue.cuda_2ndPhaseTasks, n)] ∧ l.config.gridSize = n ∧
            0 ≤ n ∧ n ≤ q.dev.cuda_2ndPhaseTasks.length) := by
      rcases hqa with ⟨_, hp⟩ | ⟨_, hq⟩
      · obtain ⟨c, e1, e2, e3, l, l1, l2, l3⟩ := drain q qa hp
        refine ⟨[l], c, e1, Or.inr ⟨e2, e3⟩, l1, ?_⟩
        intro x hx
        rw [List.mem_singleton] at hx
        subst hx
        exact ⟨l2, l3⟩
      · subst hq
        exact ⟨[], SameConfig.refl _, rfl, Or.inl ⟨rfl, rfl⟩, by simp, by simp⟩
    obtain ⟨d1, a1, a2, a3, a4, a5⟩ := ha
    rcases hrest with ⟨_, _, hr⟩ | ⟨_, _, qb, hp, hd⟩ | ⟨_, hd⟩
    · exact ⟨qa, d1, a1, a2, a3, a4, a5, Or.inl hr⟩
    · obtain ⟨c, e1, e2, e3, l, l1, l2, n, l3, l4, l5, l6⟩ := drain qa qb hp
      refine ⟨qb, d1 ++ [l], SameConfig.trans a1 c, e1.trans a2, Or.inr ⟨e2, e3⟩, ?_, ?_,
        Or.inr hd⟩
      · rw [l1, a4, List.append_assoc]
      · intro x hx
        rcases List.mem_append.mp hx with hx | hx
        · exact a5 x hx
        · rw [List.mem_singleton] at hx
          subst hx
          have hl : qa.dev.cuda_2ndPhaseTasks.length = q.dev.cuda_2ndPhaseTasks.length :=
            a1.2.2.2.2.2.2.2.2.2.1
          exact ⟨l2, n, l3, l4, l5, by rw [← hl]; exact l6⟩
    · exact ⟨qa, d1, a1, a2, a3, a4, a5, Or.inr hd⟩

/-- A property of the scheduler that every pass through the loop body keeps holds when
`firstPhase` returns. -/
theorem firstPhase_invariant {Value : Type} (M : Machine Value)
    (P : Quicksorter Value → Prop)
    (hstep : ∀ q r, P q → 0 < q.host_1stPhaseTasksAmount → firstPhaseBody M q = .ok r →
      P r.state) :
    ∀ (fuel : Nat) (q q' : Quicksorter Value), P q → firstPhase M fuel q = .ok q' → P q' := by
  intro fuel
  induction fuel with
  | zero =>
    intro q q' hP h
    unfold firstPhase at h
    by_cases c : q.host_1stPhaseTasksAmount > 0
    · rw [if_pos c] at h
      cases h
    · rw [if_neg c] at h
      injection h with h
      rw [← h]
      exact hP
  | succ n ih =>
    intro q q' hP h
    unfold firstPhase at h
    by_cases c : q.host_1stPhaseTasksAmount > 0
    · rw [if_pos c] at h
      cases hb : firstPhaseBody M q with
      | error e => simp [hb] at h
      | ok r =>
        have hr := hstep q r hP c hb
        cases r with
        | exit q1 =>
          simp only [hb] at h
          injection h with h
          rw [← h]
          exact hr
        | next q1 =>
          simp only [hb] at h
          exact ih q1 q' hr h
    · rw [if_neg c] at h
      injection h with h
      rw [← h]
      exact hP

/-- The end of a distributed round keeps the set-up. -/
theorem partitionAndSpawn_setup {Value : Type} (M : Machine Value) (q : Quicksorter Value)
    (e b : Int) : SameSetup q (partitionAndSpawn M q e b) := by
  refine ⟨rfl, rfl, rfl, rfl, rfl, rfl, ?_, ?_, ?_, ?_, ?_⟩ <;>
    simp [partitionAndSpawn, processNewTasks, launchKernelSync, Device.keepSizes, fitTo_length]

/-- A pass through the loop body of `firstPhase` keeps the set-up. -/
theorem firstPhaseBody_setup {Value : Type} (M : Machine Value) (q : Quicksorter Value)
    (r : LoopStep (Quicksorter Value)) (h : firstPhaseBody M q = .ok r) :
    SameSetup q r.state := by
  obtain ⟨qm, drains, c, _, _, _, _, hr⟩ := firstPhaseBody_steps M q r h
  rcases hr with hr | hr
  · rw [hr]
    exact c.toSameSetup
  · obtain ⟨b, qi, hi, hc⟩ := distributedRound_cases M qm r hr
    obtain ⟨s1, _⟩ := initTasks_spec M _ qm qi b hi
    rcases hc with ⟨_, hc⟩ | ⟨_, hc⟩
    · rw [hc]
      exact (SameConfig.trans c s1).toSameSetup
    · rw [hc]
      exact sameSetup_trans (SameConfig.trans c s1).toSameSetup (partitionAndSpawn_setup M qi _ b)

/-- The launches of one pass through the loop body of `firstPhase`, in order: the premature
second-phase sorts; then, unless the pass breaks before it, `cudaCalcBlocksNeeded`; then,
when the `blocksNeeded` blocks are inside the block map, `cudaInitTask`; then, when there are
at least two blocks, the partition kernel with `blocksNeeded` blocks and `cudaWritePivot`. -/
theorem firstPhaseBody_trace {Value : Type} (M : Machine Value) (q : Quicksorter Value)
    (r : LoopStep (Quicksorter Value)) (h : firstPhaseBody M q = .ok r) :
    ∃ (drains : List Launch) (b : Int),
      (∀ l ∈ drains, l.isSecondPhase = true ∧
        ∃ n : Int, l.taskViews = [(TaskQueue.cuda_2ndPhaseTasks, n)] ∧ l.config.gridSize = n ∧
          0 ≤ n ∧ n ≤ q.dev.cuda_2ndPhaseTasks.length) ∧
      ((r.state.launches = q.launches ++ drains ∧ ∃ qe, r = .exit qe) ∨
       (1 ≤ q.host_1stPhaseTasksAmount ∧
        q.host_1stPhaseTasksAmount ≤ (q.dev.queue (currentTasks q.iteration)).length ∧
        q.host_1stPhaseTasksAmount ≤ q.dev.cuda_reductionTaskInitMem.length ∧
        ((b > q.dev.cuda_blockToTaskMapping.length ∧ (∃ qe, r = .exit qe) ∧
            r.state.launches = q.launches ++ drains ++
              [.cudaCalcBlocksNeeded
                ⟨q.threadsPerBlock, cdiv q.host_1stPhaseTasksAmount q.threadsPerBlock
                  + (if cmod q.host_1stPhaseTasksAmount q.threadsPerBlock ≠ 0 then 1 else 0), 0⟩
                (currentTasks q.iteration) q.host_1stPhaseTasksAmount (getElemPerBlock q)]) ∨
         (0 ≤ b ∧ b ≤ 1 ∧ b ≤ q.dev.cuda_blockToTaskMapping.length ∧ (∃ qe, r = .exit qe) ∧
            r.state.launches = q.launches ++ drains ++
              [.cudaCalcBlocksNeeded
                ⟨q.threadsPerBlock, cdiv q.host_1stPhaseTasksAmount q.threadsPerBlock
                  + (if cmod q.host_1stPhaseTasksAmount q.threadsPerBlock ≠ 0 then 1 else 0), 0⟩
                (currentTasks q.iteration) q.host_1stPhaseTasksAmount (getElemPerBlock q),
               .cudaInitTask ⟨q.threadsPerBlock, q.host_1stPhaseTasksAmount, 0⟩
                (currentTasks q.iteration) q.host_1stPhaseTasksAmount b
                (if cmod q.iteration 2 = 0 then .arr else .aux)]) ∨
         (2 ≤ b ∧ b ≤ q.dev.cuda_blockToTaskMapping.length ∧ (∃ qn, r = .next qn) ∧
            r.state.iteration = q.iteration + 1 ∧
            r.state.launches = q.launches ++ drains ++
              [.cudaCalcBlocksNeeded
                ⟨q.threadsPerBlock, cdiv q.host_1stPhaseTasksAmount q.threadsPerBlock
                  + (if cmod q.host_1stPhaseTasksAmount q.threadsPerBlock ≠ 0 then 1 else 0), 0⟩
                (currentTasks q.iteration) q.host_1stPhaseTasksAmount (getElemPerBlock q),
               .cudaInitTask ⟨q.threadsPerBlock, q.host_1stPhaseTasksAmount, 0⟩
                (currentTasks q.iteration) q.host_1stPhaseTasksAmount b
                (if cmod q.iteration 2 = 0 then .arr else .aux),
               partitionLaunch M q (getElemPerBlock q) b,
               writePivotLaunch M q])))) := by
  obtain ⟨qm, drains, c, e1, _, hl, hdr, hr⟩ := firstPhaseBody_steps M q r h
  obtain ⟨c1, c2, c3, c4, c5, c6, c7, c8, c9, c10, c11, c12⟩ := c
  rcases hr with hr | hr
  · refine ⟨drains, 0, hdr, Or.inl ⟨?_, qm, hr⟩⟩
    rw [hr]
    exact hl
  · obtain ⟨b, qi, hi, hc⟩ := distributedRound_cases M qm r hr
    obtain ⟨a0, a1, a2, _, hcase⟩ := initTasks_cases M _ qm qi b hi
    have hq1 : (qm.dev.queue (currentTasks qm.iteration)).length
        = (q.dev.queue (currentTasks q.iteration)).length := by
      rw [c7]
      cases currentTasks q.iteration
      · exact c8
      · exact c9
      · exact c10
    have hge : getElemPerBlock qm = getElemPerBlock q := c3
    refine ⟨drains, b, hdr, Or.inr ⟨by omega, by rw [← e1, ← hq1]; exact a1,
      by rw [← e1, ← c12]; exact a2, ?_⟩⟩
    rcases hcase with ⟨hb, hqi⟩ | ⟨h0, hb, hqi⟩
    · have hlen : qi.dev.cuda_blockToTaskMapping.length = qm.dev.cuda_blockToTaskMapping.length := by
        rw [hqi]; rfl
      have hex : r = .exit qi := by
        rcases hc with ⟨_, hc⟩ | ⟨hn, _⟩
        · exact hc
        · exact absurd (Or.inr (by rw [hlen]; exact hb)) hn
      refine Or.inl ⟨by rw [← c11]; exact hb, ⟨qi, hex⟩, ?_⟩
      rw [hex, hqi]
      simp only [LoopStep.state, afterCalcBlocksNeeded, hl, e1, c2, c7, hge]
    · have hlen : qi.dev.cuda_blockToTaskMapping.length = qm.dev.cuda_blockToTaskMapping.length := by
        rw [hqi]
        simp [afterInitTask, launchKernelSync, Device.keepSizes, fitTo_length,
          afterCalcBlocksNeeded]
      have hqil : qi.launches = q.launches ++ drains ++
          [.cudaCalcBlocksNeeded
            ⟨q.threadsPerBlock, cdiv q.host_1stPhaseTasksAmount q.threadsPerBlock
              + (if cmod q.host_1stPhaseTasksAmount q.threadsPerBlock ≠ 0 then 1 else 0), 0⟩
            (currentTasks q.iteration) q.host_1stPhaseTasksAmount (getElemPerBlock q),
           .cudaInitTask ⟨q.threadsPerBlock, q.host_1stPhaseTasksAmount, 0⟩
            (currentTasks q.iteration) q.host_1stPhaseTasksAmount b
            (if cmod q.iteration 2 = 0 then .arr else .aux)] := by
        rw [hqi]
        simp [afterInitTask, launchKernelSync, afterCalcBlocksNeeded, hl, e1, c2, c7, hge]
      rcases hc with ⟨hc1, hc⟩ | ⟨hn, hc⟩
      · have hb1 : b ≤ 1 := by
          rcases hc1 with hc1 | hc1
          · exact hc1
          · rw [hlen] at hc1
            omega
        refine Or.inr (Or.inl ⟨h0, hb1, by rw [← c11]; exact hb, ⟨qi, hc⟩, ?_⟩)
        rw [hc]
        exact hqil
      · have hb2 : 2 ≤ b := by
          by_contra hcon
          exact hn (Or.inl (by omega))
        have t1 : qi.threadsPerBlock = q.threadsPerBlock := by rw [hqi]; exact c2
        have t2 : qi.iteration = q.iteration := by rw [hqi]; exact c7
        have t3 : qi.maxSharable = q.maxSharable := by rw [hqi]; exact c4
        have t4 : qi.host_1stPhaseTasksAmount = q.host_1stPhaseTasksAmount := by
          rw [hqi]; exact e1
        have t5 : qi.desired_2ndPhasElemPerBlock = q.desired_2ndPhasElemPerBlock := by
          rw [hqi]; exact c5
        obtain ⟨p1, p2, _⟩ := partitionAndSpawn_spec M qi (getElemPerBlock qm) b
        refine Or.inr (Or.inr ⟨hb2, by rw [← c11]; exact hb, ⟨_, hc⟩, ?_, ?_⟩)
        · rw [hc]
          show (partitionAndSpawn M qi (getElemPerBlock qm) b).iteration = _
          rw [p2, t2]
        · rw [hc]
          show (partitionAndSpawn M qi (getElemPerBlock qm) b).launches = _
          rw [p1, hqil, hge]
          simp only [partitionLaunch, writePivotLaunch, t1, t2, t3, t4, t5, List.append_assoc,
            List.cons_append, List.nil_append]

theorem setSize_length {α : Type} [Inhabited α] (a : List α) (n : Int) :
    (setSize a n).length = n.toNat := by
  unfold setSize
  by_cases c : (a.length : Int) = n
  · rw [if_pos c]
    omega
  · rw [if_neg c, List.length_replicate]

theorem setElement_length {α : Type} (a a' : List α) (i : Int) (v : α)
    (h : setElement a i v = .ok a') : a'.length = a.length ∧ 0 ≤ i ∧ i < a.length := by
  unfold setElement at h
  by_cases c : 0 ≤ i ∧ i < a.length
  · rw [if_pos c] at h
    injection h with h
    rw [← h, List.length_set]
    exact ⟨rfl, c⟩
  · rw [if_neg c] at h
    cases h

/-- What `init` leaves when it returns: the configuration it was given, queues of `maxTasks =
min( size, g_maxTasks ) >= 1` entries, a block map of `gridDim` entries, and one task in one of
the two queues. -/
theorem init_spec {Value : Type} [Inhabited Value] (M : Machine Value)
    (q0 q : Quicksorter Value) (arr : List Value) (gridDim blockDim e maxSharable : Int)
    (h : init M q0 arr gridDim blockDim e maxSharable = .ok q) :
    q.maxBlocks = gridDim ∧ q.threadsPerBlock = blockDim ∧ q.desiredElemPerBlock = e ∧
    q.maxSharable = maxSharable ∧ q.desired_2ndPhasElemPerBlock = e ∧
    q.maxTasks = min (arr.length : Int) M.g_maxTasks ∧ 1 ≤ q.maxTasks ∧
    (q.dev.cuda_tasks.length : Int) = q.maxTasks ∧
    (q.dev.cuda_newTasks.length : Int) = q.maxTasks ∧
    (q.dev.cuda_2ndPhaseTasks.length : Int) = q.maxTasks ∧
    (q.dev.cuda_reductionTaskInitMem.length : Int) = q.maxTasks ∧
    q.dev.cuda_blockToTaskMapping.length = gridDim.toNat ∧
    q.dev.cuda_2ndPhaseTasksAmount = 0 ∧ q.dev.arr = arr ∧
    q.launches = q0.launches ∧ q.iteration = q0.iteration ∧
    (((arr.length : Int) > e ∧ q.host_1stPhaseTasksAmount = 1 ∧
        q.host_2ndPhaseTasksAmount = q0.host_2ndPhaseTasksAmount) ∨
     (¬ ((arr.length : Int) > e) ∧ q.host_2ndPhaseTasksAmount = 1 ∧
        q.host_1stPhaseTasksAmount = q0.host_1stPhaseTasksAmount)) := by
  unfold init at h
  simp only [] at h
  by_cases c : (arr.length : Int) > e
  · rw [if_pos c] at h
    cases hs : setElement (setSize q0.dev.cuda_tasks (min (arr.length : Int) M.g_maxTasks)) 0
        (TASK.mk 0 arr.length 0) with
    | error e1 => simp [hs, bind, Except.bind] at h
    | ok t =>
      obtain ⟨hl, _, hpos⟩ := setElement_length _ _ _ _ hs
      rw [setSize_length] at hl hpos
      simp only [hs, bind, Except.bind, pure, Except.pure] at h
      injection h with h
      subst h
      have hm : (0 : Int) < min (arr.length : Int) M.g_maxTasks := by omega
      refine ⟨rfl, rfl, rfl, rfl, rfl, rfl, ?_, ?_, ?_, ?_, ?_, ?_, rfl, rfl, rfl, rfl,
        Or.inl ⟨c, rfl, rfl⟩⟩
      · show (1 : Int) ≤ min (arr.length : Int) M.g_maxTasks
        omega
      · show ((t.length : Nat) : Int) = min (arr.length : Int) M.g_maxTasks
        rw [hl]
        omega
      · show (((setSize q0.dev.cuda_newTasks _).length : Nat) : Int)
          = min (arr.length : Int) M.g_maxTasks
        rw [setSize_length]
        omega
      · show (((setSize q0.dev.cuda_2ndPhaseTasks _).length : Nat) : Int)
          = min (arr.length : Int) M.g_maxTasks
        rw [setSize_length]
        omega
      · show (((setSize q0.dev.cuda_reductionTaskInitMem _).length : Nat) : Int)
          = min (arr.length : Int) M.g_maxTasks
        rw [setSize_length]
        omega
      · show (setSize q0.dev.cuda_blockToTaskMapping gridDim).length = gridDim.toNat
        rw [setSize_length]
  · rw [if_neg c] at h
    cases hs : setElement (setSize q0.dev.cuda_2ndPhaseTasks (min (arr.length : Int) M.g_maxTasks))
        0 (TASK.mk 0 arr.length 0) with
    | error e1 => simp [hs, bind, Except.bind] at h
    | ok t =>
      obtain ⟨hl, _, hpos⟩ := setElement_length _ _ _ _ hs
      rw [setSize_length] at hl hpos
      simp only [hs, bind, Except.bind, pure, Except.pure] at h
      injection h with h
      subst h
      have hm : (0 : Int) < min (arr.length : Int) M.g_maxTasks := by omega
      refine ⟨rfl, rfl, rfl, rfl, rfl, rfl, ?_, ?_, ?_, ?_, ?_, ?_, rfl, rfl, rfl, rfl,
        Or.inr ⟨c, rfl, rfl⟩⟩
      · show (1 : Int) ≤ min (arr.length : Int) M.g_maxTasks
        omega
      · show (((setSize q0.dev.cuda_tasks _).length : Nat) : Int)
          = min (arr.length : Int) M.g_maxTasks
        rw [setSize_length]
        omega
      · show (((setSize q0.dev.cuda_newTasks _).length : Nat) : Int)
          = min (arr.length : Int) M.g_maxTasks
        rw [setSize_length]
        omega
      · show ((t.length : Nat) : Int) = min (arr.length : Int) M.g_maxTasks
        rw [hl]
        omega
      · show (((setSize q0.dev.cuda_reductionTaskInitMem _).length : Nat) : Int)
          = min (arr.length : Int) M.g_maxTasks
        rw [setSize_length]
        omega
      · show (setSize q0.dev.cuda_blockToTaskMapping gridDim).length = gridDim.toNat
        rw [setSize_length]

/-- A property of launches that holds of the launches a pass through the loop body can make
holds of all the launches the pass has made. -/
theorem firstPhaseBody_launches_forall {Value : Type} (M : Machine Value)
    (q : Quicksorter Value) (r : LoopStep (Quicksorter Value))
    (h : firstPhaseBody M q = .ok r) (R : Launch → Prop)
    (hdrain : ∀ l : Launch, l.isSecondPhase = true →
      (∃ n : Int, l.taskViews = [(TaskQueue.cuda_2ndPhaseTasks, n)] ∧ l.config.gridSize = n ∧
        0 ≤ n ∧ n ≤ q.dev.cuda_2ndPhaseTasks.length) → R l)
    (hcalc : 1 ≤ q.host_1stPhaseTasksAmount →
      q.host_1stPhaseTasksAmount ≤ (q.dev.queue (currentTasks q.iteration)).length →
      q.host_1stPhaseTasksAmount ≤ q.dev.cuda_reductionTaskInitMem.length →
      R (.cudaCalcBlocksNeeded
          ⟨q.threadsPerBlock, cdiv q.host_1stPhaseTasksAmount q.threadsPerBlock
            + (if cmod q.host_1stPhaseTasksAmount q.threadsPerBlock ≠ 0 then 1 else 0), 0⟩
          (currentTasks q.iteration) q.host_1stPhaseTasksAmount (getElemPerBlock q)))
    (hinit : ∀ b : Int, 1 ≤ q.host_1stPhaseTasksAmount →
      q.host_1stPhaseTasksAmount ≤ (q.dev.queue (currentTasks q.iteration)).length →
      q.host_1stPhaseTasksAmount ≤ q.dev.cuda_reductionTaskInitMem.length →
      0 ≤ b → b ≤ q.dev.cuda_blockToTaskMapping.length →
      R (.cudaInitTask ⟨q.threadsPerBlock, q.host_1stPhaseTasksAmount, 0⟩
          (currentTasks q.iteration) q.host_1stPhaseTasksAmount b
          (if cmod q.iteration 2 = 0 then .arr else .aux)))
    (hround : ∀ b : Int, 1 ≤ q.host_1stPhaseTasksAmount →
      q.host_1stPhaseTasksAmount ≤ (q.dev.queue (currentTasks q.iteration)).length →
      2 ≤ b → b ≤ q.dev.cuda_blockToTaskMapping.length →
      R (partitionLaunch M q (getElemPerBlock q) b) ∧ R (writePivotLaunch M q)) :
    ∃ ls, r.state.launches = q.launches ++ ls ∧ ∀ l ∈ ls, R l := by
  obtain ⟨drains, b, hdr, hcase⟩ := firstPhaseBody_trace M q r h
  have hd : ∀ l ∈ drains, R l := fun l hl => hdrain l (hdr l hl).1 (hdr l hl).2
  rcases hcase with ⟨hl, _⟩ | ⟨a0, a1, a2, hcase⟩
  · exact ⟨drains, hl, hd⟩
  · rcases hcase with ⟨_, _, hl⟩ | ⟨b0, _, b2, _, hl⟩ | ⟨b0, b2, _, _, hl⟩
    · refine ⟨drains ++ [_], by rw [hl, List.append_assoc], ?_⟩
      intro l hm
      rcases List.mem_append.mp hm with hm | hm
      · exact hd l hm
      · rw [List.mem_singleton] at hm
        rw [hm]
        exact hcalc a0 a1 a2
    · refine ⟨drains ++ [_, _], by rw [hl, List.append_assoc], ?_⟩
      intro l hm
      rcases List.mem_append.mp hm with hm | hm
      · exact hd l hm
      · simp only [List.mem_cons, List.mem_singleton, List.not_mem_nil, or_false] at hm
        rcases hm with hm | hm
        · rw [hm]
          exact hcalc a0 a1 a2
        · rw [hm]
          exact hinit b a0 a1 a2 b0 b2
    · refine ⟨drains ++ [_, _, _, _], by rw [hl, List.append_assoc], ?_⟩
      intro l hm
      rcases List.mem_append.mp hm with hm | hm
      · exact hd l hm
      · simp only [List.mem_cons, List.mem_singleton, List.not_mem_nil, or_false] at hm
        rcases hm with hm | hm | hm | hm
        · rw [hm]
          exact hcalc a0 a1 a2
        · rw [hm]
          exact hinit b a0 a1 a2 (by omega) b2
        · rw [hm]
          exact (hround b a0 a1 b0 b2).1
        · rw [hm]
          exact (hround b a0 a1 b0 b2).2

theorem partitionLaunch_spec {Value : Type} (M : Machine Value) (q : Quicksorter Value)
    (e b : Int) :
    (partitionLaunch M q e b).isPartition = true ∧
    (partitionLaunch M q e b).isSecondPhase = false ∧
    (partitionLaunch M q e b).config.gridSize = b ∧
    (partitionLaunch M q e b).taskViews = [] ∧
    ∃ useShared cfg, partitionLaunch M q e b
      = .cudaQuickSort1stPhase useShared cfg e (currentTasks q.iteration) := by
  unfold partitionLaunch
  simp only []
  split
  · exact ⟨rfl, rfl, rfl, rfl, _, _, rfl⟩
  · exact ⟨rfl, rfl, rfl, rfl, _, _, rfl⟩

/-- C13: after `init` the block map has `maxBlocks` entries, and in every pass of `firstPhase`
that reaches the partition launch the grid size `blocksCnt` is at least 2 and at most
`maxBlocks`; the block-map view handed to `cudaInitTask` has `blocksNeeded <= maxBlocks`
entries; a pass whose block count exceeds `maxBlocks` breaks without either launch. -/
theorem block_count_within_launch_limit {Value : Type} [Inhabited Value] (M : Machine Value)
    (q0 q q' : Quicksorter Value) (arr : List Value)
    (gridDim blockDim desiredElemPerBlock maxSharable : Int) (fuel : Nat)
    (hg : 0 ≤ gridDim)
    (hinit : init M q0 arr gridDim blockDim desiredElemPerBlock maxSharable = .ok q)
    (h : firstPhase M fuel q = .ok q') :
    q.maxBlocks = gridDim ∧ (q.dev.cuda_blockToTaskMapping.length : Int) = q.maxBlocks ∧
    (q'.dev.cuda_blockToTaskMapping.length : Int) = q.maxBlocks ∧
    (∃ ls, q'.launches = q.launches ++ ls ∧ ∀ l ∈ ls,
      (l.isPartition = true → 2 ≤ l.config.gridSize ∧ l.config.gridSize ≤ q.maxBlocks) ∧
      (∀ cfg tasks count b src, l = Launch.cudaInitTask cfg tasks count b src →
        0 ≤ b ∧ b ≤ q.maxBlocks)) ∧
    (∀ (qa qi : Quicksorter Value) (b : Int), SameSetup q qa →
      initTasks M (getElemPerBlock qa) qa = .ok (b, qi) → b > q.maxBlocks →
      distributedRound M qa = .ok (.exit qi) ∧
      qi = afterCalcBlocksNeeded (getElemPerBlock qa) qa) := by
  obtain ⟨i1, _, _, _, _, _, _, _, _, _, _, i12, _⟩ := init_spec M q0 q arr _ _ _ _ hinit
  have hB : (q.dev.cuda_blockToTaskMapping.length : Int) = q.maxBlocks := by
    rw [i12, i1]
    omega
  have key := firstPhase_invariant M
    (fun q1 => SameSetup q q1 ∧ ∃ ls, q1.launches = q.launches ++ ls ∧ ∀ l ∈ ls,
      (l.isPartition = true → 2 ≤ l.config.gridSize ∧ l.config.gridSize ≤ q.maxBlocks) ∧
      (∀ cfg tasks count b src, l = Launch.cudaInitTask cfg tasks count b src →
        0 ≤ b ∧ b ≤ q.maxBlocks)) (by
      intro q1 r hP _ hb
      obtain ⟨hs, ls, hls, hR⟩ := hP
      have hlen : (q1.dev.cuda_blockToTaskMapping.length : Int) = q.maxBlocks := by
        rw [hs.2.2.2.2.2.2.2.2.2.1]
        exact hB
      obtain ⟨ls', hls', hR'⟩ := firstPhaseBody_launches_forall M q1 r hb
        (fun l => (l.isPartition = true → 2 ≤ l.config.gridSize ∧ l.config.gridSize ≤ q.maxBlocks) ∧
          (∀ cfg tasks count b src, l = Launch.cudaInitTask cfg tasks count b src →
            0 ≤ b ∧ b ≤ q.maxBlocks))
        (by
          intro l hl _
          constructor
          · intro hp
            cases l <;> simp_all [Launch.isSecondPhase, Launch.isPartition]
          · intro cfg tasks count b src he
            rw [he] at hl
            cases hl)
        (by
          intro _ _ _
          exact ⟨(by intro hp; cases hp), (by intro cfg tasks count b src he; cases he)⟩)
        (by
          intro b _ _ _ b0 b1
          refine ⟨(by intro hp; cases hp), ?_⟩
          intro cfg tasks count b' src he
          injection he with _ _ _ hb' _
          rw [← hb']
          exact ⟨b0, by omega⟩)
        (by
          intro b _ _ b0 b1
          obtain ⟨_, _, p3, _, us, cfg, p5⟩ := partitionLaunch_spec M q1 (getElemPerBlock q1) b
          refine ⟨⟨?_, ?_⟩, ⟨(by intro hp; cases hp), (by intro cfg tasks count b src he; cases he)⟩⟩
          · intro _
            rw [p3]
            exact ⟨b0, by omega⟩
          · intro cfg' tasks count b' src he
            rw [p5] at he
            cases he)
      refine ⟨sameSetup_trans hs (firstPhaseBody_setup M q1 r hb), ls ++ ls', ?_, ?_⟩
      · rw [hls', hls, List.append_assoc]
      · intro l hm
        rcases List.mem_append.mp hm with hm | hm
        · exact hR l hm
        · exact hR' l hm)
    fuel q q' ⟨sameSetup_refl q, [], by simp, by simp⟩ h
  obtain ⟨hs, hls⟩ := key
  refine ⟨i1, hB, by rw [hs.2.2.2.2.2.2.2.2.2.1]; exact hB, hls, ?_⟩
  intro qa qi b hsa hi hb
  have hlen : (qa.dev.cuda_blockToTaskMapping.length : Int) = q.maxBlocks := by
    rw [hsa.2.2.2.2.2.2.2.2.2.1]
    exact hB
  obtain ⟨_, _, _, _, hcase⟩ := initTasks_cases M _ qa qi b hi
  rcases hcase with ⟨_, hqi⟩ | ⟨_, hle, _⟩
  · refine ⟨?_, hqi⟩
    rw [distributedRound_of_initTasks M qa qi b hi, if_pos]
    right
    rw [hqi]
    show b > ((qa.dev.cuda_blockToTaskMapping.length : Nat) : Int)
    omega
  · omega

/-- Witness for `block_count_within_launch_limit`: the sort of `[3, 1, 2]` with a block map of
8 entries. -/
theorem block_count_within_launch_limit_witness :
    ((0 : Int) ≤ 8 ∧
      init exampleMachine (Quicksorter.fresh Int) [3, 1, 2] 8 2 2 1000 = .ok exampleScheduler ∧
      firstPhase exampleMachine 3 exampleScheduler = .ok exampleAfterFirstPhase) ∧
    ∃ ls, exampleAfterFirstPhase.launches = exampleScheduler.launches ++ ls ∧ ∀ l ∈ ls,
      (l.isPartition = true → 2 ≤ l.config.gridSize
        ∧ l.config.gridSize ≤ exampleScheduler.maxBlocks) ∧
      (∀ cfg tasks count b src, l = Launch.cudaInitTask cfg tasks count b src →
        0 ≤ b ∧ b ≤ exampleScheduler.maxBlocks) :=
  ⟨⟨by decide, rfl, rfl⟩,
    (block_count_within_launch_limit exampleMachine (Quicksorter.fresh Int) exampleScheduler
      exampleAfterFirstPhase [3, 1, 2] 8 2 2 1000 3 (by decide) rfl rfl).2.2.2.1⟩

/-- C14: when the total block count computed by `initTasks` exceeds the size of the block map,
`initTasks` returns that total after the launch of `cudaCalcBlocksNeeded` alone: `cudaInitTask`
is not launched, the block map and the new-task counter are as before; the round then breaks
with both host counts and the round counter unchanged, and so does `firstPhase` when no
premature second-phase sort precedes the round. -/
theorem no_partial_launch_on_block_table_overflow {Value : Type} (M : Machine Value)
    (q : Quicksorter Value) (fuel : Nat)
    (h0 : 1 ≤ q.host_1stPhaseTasksAmount)
    (h1 : q.host_1stPhaseTasksAmount ≤ (q.dev.queue (currentTasks q.iteration)).length)
    (h2 : q.host_1stPhaseTasksAmount ≤ q.dev.cuda_reductionTaskInitMem.length)
    (hover : (((q.dev.queue (currentTasks q.iteration)).take q.host_1stPhaseTasksAmount.toNat).map
        (blocksForTask (getElemPerBlock q))).sum > q.dev.cuda_blockToTaskMapping.length) :
    initTasks M (getElemPerBlock q) q = .ok
      ((((q.dev.queue (currentTasks q.iteration)).take q.host_1stPhaseTasksAmount.toNat).map
          (blocksForTask (getElemPerBlock q))).sum,
        afterCalcBlocksNeeded (getElemPerBlock q) q) ∧
    distributedRound M q = .ok (.exit (afterCalcBlocksNeeded (getElemPerBlock q) q)) ∧
    (afterCalcBlocksNeeded (getElemPerBlock q) q).launches = q.launches ++
      [.cudaCalcBlocksNeeded
        ⟨q.threadsPerBlock, cdiv q.host_1stPhaseTasksAmount q.threadsPerBlock
          + (if cmod q.host_1stPhaseTasksAmount q.threadsPerBlock ≠ 0 then 1 else 0), 0⟩
        (currentTasks q.iteration) q.host_1stPhaseTasksAmount (getElemPerBlock q)] ∧
    (afterCalcBlocksNeeded (getElemPerBlock q) q).dev.cuda_blockToTaskMapping
      = q.dev.cuda_blockToTaskMapping ∧
    (afterCalcBlocksNeeded (getElemPerBlock q) q).dev.cuda_newTasksAmount
      = q.dev.cuda_newTasksAmount ∧
    (afterCalcBlocksNeeded (getElemPerBlock q) q).host_1stPhaseTasksAmount
      = q.host_1stPhaseTasksAmount ∧
    (afterCalcBlocksNeeded (getElemPerBlock q) q).host_2ndPhaseTasksAmount
      = q.host_2ndPhaseTasksAmount ∧
    (afterCalcBlocksNeeded (getElemPerBlock q) q).iteration = q.iteration ∧
    (q.host_1stPhaseTasksAmount < q.maxTasks → q.host_2ndPhaseTasksAmount < q.maxTasks →
      q.host_1stPhaseTasksAmount * 2 < q.maxTasks + (q.maxTasks - q.host_2ndPhaseTasksAmount) →
      firstPhase M (fuel + 1) q = .ok (afterCalcBlocksNeeded (getElemPerBlock q) q)) := by
  have hc := initTasksCount_total (getElemPerBlock q) q h0 h1 h2
  have hi := initTasks_of_count_too_many M (getElemPerBlock q) q _ _ hc hover
  have hd : distributedRound M q
      = .ok (.exit (afterCalcBlocksNeeded (getElemPerBlock q) q)) := by
    rw [distributedRound_of_initTasks M q _ _ hi]
    exact if_pos (Or.inr hover)
  refine ⟨hi, hd, rfl, rfl, rfl, rfl, rfl, rfl, ?_⟩
  intro a1 a2 a3
  show (if q.host_1stPhaseTasksAmount > 0 then _ else _) = _
  rw [if_pos (by omega), firstPhaseBody_eq_distributedRound M q a1 a2 a3, hd]

/-- Witness for `no_partial_launch_on_block_table_overflow`: the five elements of
`[3, 1, 5, 2, 4]` need 3 blocks of 2 elements and the block map has 2 entries; `firstPhase`
breaks after `cudaCalcBlocksNeeded` and the self-contained stage sorts the array. -/
theorem no_partial_launch_on_block_table_overflow_witness :
    ((1 : Int) ≤ blockOverflowScheduler.host_1stPhaseTasksAmount ∧
      (((blockOverflowScheduler.dev.queue (currentTasks blockOverflowScheduler.iteration)).take
          blockOverflowScheduler.host_1stPhaseTasksAmount.toNat).map
        (blocksForTask (getElemPerBlock blockOverflowScheduler))).sum
          > blockOverflowScheduler.dev.cuda_blockToTaskMapping.length) ∧
    distributedRound exampleMachine blockOverflowScheduler = .ok (.exit
      (afterCalcBlocksNeeded (getElemPerBlock blockOverflowScheduler) blockOverflowScheduler)) ∧
    (∃ q, performSort exampleMachine 1 blockOverflowScheduler = .ok q ∧
      q.launches.map Launch.isSecondPhase = [false, true] ∧ q.dev.arr = [1, 2, 3, 4, 5]) :=
  ⟨⟨by decide, by decide⟩,
    (no_partial_launch_on_block_table_overflow exampleMachine blockOverflowScheduler 0
      (by decide) (by decide) (by decide) (by decide)).2.1,
    ⟨_, rfl, rfl, rfl⟩⟩

/-- The per-task term of `getSetsNeededFunction` is the ceiling of the quotient. -/
theorem blocks_eq_ceil (size e : Int) (hs : 0 ≤ size) (he : 0 < e) :
    cdiv size e + (if cmod size e ≠ 0 then 1 else 0) = ⌈(size : ℚ) / (e : ℚ)⌉ := by
  unfold cdiv cmod
  rw [Int.tdiv_eq_ediv hs (le_of_lt he), Int.tmod_eq_emod hs (le_of_lt he)]
  have heq : (0 : ℚ) < (e : ℚ) := by exact_mod_cast he
  have hdiv := Int.emod_add_ediv size e
  have hr0 := Int.emod_nonneg size (ne_of_gt he)
  have hr1 := Int.emod_lt_of_pos size he
  symm
  rw [Int.ceil_eq_iff]
  by_cases c : size % e ≠ 0
  · rw [if_pos c]
    have hr : 0 < size % e := by omega
    constructor
    · rw [lt_div_iff₀ heq]
      have : (size / e + 1 - 1) * e < size := by nlinarith
      exact_mod_cast this
    · rw [div_le_iff₀ heq]
      have : size ≤ (size / e + 1) * e := by nlinarith
      exact_mod_cast this
  · rw [if_neg c]
    have hr : size % e = 0 := by omega
    constructor
    · rw [lt_div_iff₀ heq]
      have : (size / e + 0 - 1) * e < size := by nlinarith
      exact_mod_cast this
    · rw [div_le_iff₀ heq]
      have : size ≤ (size / e + 0) * e := by nlinarith
      exact_mod_cast this

/-- C15: `getSetsNeeded( elemPerBlock )` returns the sum, over the first
`host_1stPhaseTasksAmount` tasks of the current buffer, of the ceiling of `taskSize /
elemPerBlock` with `taskSize = partitionEnd - partitionBegin`; for `taskSize >= 0` and
`elemPerBlock > 0` the term `taskSize / elemPerBlock + ( taskSize % elemPerBlock != 0 )` is
that ceiling. -/
theorem getSetsNeeded_sums_ceilings {Value : Type} (q : Quicksorter Value) (elemPerBlock : Int)
    (he : 0 < elemPerBlock) (h0 : 0 ≤ q.host_1stPhaseTasksAmount)
    (h1 : q.host_1stPhaseTasksAmount ≤ (q.dev.queue (currentTasks q.iteration)).length)
    (hs : ∀ t ∈ (q.dev.queue (currentTasks q.iteration)).take q.host_1stPhaseTasksAmount.toNat,
      t.partitionBegin ≤ t.partitionEnd) :
    getSetsNeeded elemPerBlock q = .ok
      (((q.dev.queue (currentTasks q.iteration)).take q.host_1stPhaseTasksAmount.toNat).map
        (fun t => ⌈((t.partitionEnd - t.partitionBegin : Int) : ℚ) / (elemPerBlock : ℚ)⌉)).sum ∧
    ∀ taskSize : Int, 0 ≤ taskSize →
      cdiv taskSize elemPerBlock + (if cmod taskSize elemPerBlock ≠ 0 then 1 else 0)
        = ⌈(taskSize : ℚ) / (elemPerBlock : ℚ)⌉ := by
  refine ⟨?_, fun s hs0 => blocks_eq_ceil s elemPerBlock hs0 he⟩
  have hmap : ((q.dev.queue (currentTasks q.iteration)).take q.host_1stPhaseTasksAmount.toNat).map
        (blocksForTask elemPerBlock)
      = ((q.dev.queue (currentTasks q.iteration)).take q.host_1stPhaseTasksAmount.toNat).map
        (fun t => ⌈((t.partitionEnd - t.partitionBegin : Int) : ℚ) / (elemPerBlock : ℚ)⌉) := by
    apply List.map_congr_left
    intro t ht
    exact blocks_eq_ceil _ elemPerBlock (by have := hs t ht; omega) he
  unfold getSetsNeeded
  by_cases c : q.host_1stPhaseTasksAmount ≤ 0
  · rw [if_pos c]
    have hz : q.host_1stPhaseTasksAmount.toNat = 0 := by omega
    rw [hz]
    rfl
  · rw [if_neg c, getView_ok _ _ h0 h1]
    show Except.ok _ = _
    rw [hmap]

/-- Witness for `getSetsNeeded_sums_ceilings`: the single task `[0, 3)` of the example
scheduler and blocks of 2 elements. -/
theorem getSetsNeeded_sums_ceilings_witness :
    ((0 : Int) < 2 ∧ 0 ≤ exampleScheduler.host_1stPhaseTasksAmount ∧
      exampleScheduler.host_1stPhaseTasksAmount
        ≤ (exampleScheduler.dev.queue (currentTasks exampleScheduler.iteration)).length ∧
      ∀ t ∈ (exampleScheduler.dev.queue (currentTasks exampleScheduler.iteration)).take
          exampleScheduler.host_1stPhaseTasksAmount.toNat,
        t.partitionBegin ≤ t.partitionEnd) ∧
    getSetsNeeded 2 exampleScheduler = .ok
      (((exampleScheduler.dev.queue (currentTasks exampleScheduler.iteration)).take
          exampleScheduler.host_1stPhaseTasksAmount.toNat).map
        (fun t => ⌈((t.partitionEnd - t.partitionBegin : Int) : ℚ) / ((2 : Int) : ℚ)⌉)).sum ∧
    getSetsNeeded 2 exampleScheduler = .ok 2 :=
  ⟨⟨by decide, by decide, by decide, by decide⟩,
    (getSetsNeeded_sums_ceilings exampleScheduler 2 (by decide) (by decide) (by decide)
      (by decide)).1, rfl⟩

theorem cmod_two_eq_zero_iff (i : Int) : cmod i 2 = 0 ↔ i % 2 = 0 := by
  unfold cmod
  rw [← Int.dvd_iff_tmod_eq_zero]
  omega

/-- The two ping-pong buffers by the parity of the round counter: the buffer read and the
buffer written differ, and the buffer written is the buffer read one round later. -/
theorem pingpong_parity (i : Int) :
    currentTasks i ≠ nextTasks i ∧ nextTasks i = currentTasks (i + 1) ∧
    currentTasks i = (if i % 2 = 0 then TaskQueue.cuda_tasks else TaskQueue.cuda_newTasks) ∧
    currentTasks i ≠ TaskQueue.cuda_2ndPhaseTasks ∧
    nextTasks i ≠ TaskQueue.cuda_2ndPhaseTasks := by
  unfold currentTasks nextTasks
  have h1 := cmod_two_eq_zero_iff i
  have h2 := cmod_two_eq_zero_iff (i + 1)
  by_cases c : i % 2 = 0
  · have c1 : cmod i 2 = 0 := h1.mpr c
    have c2 : ¬ cmod (i + 1) 2 = 0 := fun hc => by have := h2.mp hc; omega
    rw [if_pos c1, if_pos c1, if_neg c2, if_pos c]
    exact ⟨by decide, rfl, rfl, by decide, by decide⟩
  · have c1 : ¬ cmod i 2 = 0 := fun hc => c (h1.mp hc)
    have c2 : cmod (i + 1) 2 = 0 := h2.mpr (by omega)
    rw [if_neg c1, if_neg c1, if_pos c2, if_neg c]
    exact ⟨by decide, rfl, rfl, by decide, by decide⟩

/-- The launches of `initTasks` are given the first `host_1stPhaseTasksAmount` entries of the
current buffer. -/
theorem initTasks_launch_views {Value : Type} (M : Machine Value) (e : Int)
    (q q' : Quicksorter Value) (b : Int) (h : initTasks M e q = .ok (b, q')) :
    ∃ ls, q'.launches = q.launches ++ ls ∧
      ∀ l ∈ ls, l.taskViews = [(currentTasks q.iteration, q.host_1stPhaseTasksAmount)] := by
  obtain ⟨_, _, _, _, hc⟩ := initTasks_cases M e q q' b h
  rcases hc with ⟨_, hq⟩ | ⟨_, _, hq⟩
  · refine ⟨[.cudaCalcBlocksNeeded
        ⟨q.threadsPerBlock, cdiv q.host_1stPhaseTasksAmount q.threadsPerBlock
          + (if cmod q.host_1stPhaseTasksAmount q.threadsPerBlock ≠ 0 then 1 else 0), 0⟩
        (currentTasks q.iteration) q.host_1stPhaseTasksAmount e], by rw [hq]; rfl, ?_⟩
    intro l hm
    rw [List.mem_singleton] at hm
    rw [hm]
    rfl
  · refine ⟨[.cudaCalcBlocksNeeded
        ⟨q.threadsPerBlock, cdiv q.host_1stPhaseTasksAmount q.threadsPerBlock
          + (if cmod q.host_1stPhaseTasksAmount q.threadsPerBlock ≠ 0 then 1 else 0), 0⟩
        (currentTasks q.iteration) q.host_1stPhaseTasksAmount e,
      .cudaInitTask ⟨q.threadsPerBlock, q.host_1stPhaseTasksAmount, 0⟩
        (currentTasks q.iteration) q.host_1stPhaseTasksAmount b
        (if cmod q.iteration 2 = 0 then .arr else .aux)], ?_, ?_⟩
    · rw [hq]
      simp [afterInitTask, launchKernelSync, afterCalcBlocksNeeded]
    · intro l hm
      simp only [List.mem_cons, List.mem_singleton, List.not_mem_nil, or_false] at hm
      rcases hm with hm | hm
      · rw [hm]
        rfl
      · rw [hm]
        rfl

/-- C16: the buffer a round reads its tasks from (`cuda_tasks` for an even round counter,
`cuda_newTasks` for an odd one) and the buffer its spawn stage writes to are different
buffers, and the buffer written in round `i` is the buffer `initTasks`, `getSetsNeeded`,
`firstPhase` and `secondPhase` select as current when the counter is `i + 1`; a round that
completes reads with the partition and the spawn kernel from the current buffer, spawns into
the other one and increments the counter. -/
theorem ping_pong_rotation {Value : Type} (M : Machine Value) (q q' : Quicksorter Value)
    (h : firstPhaseBody M q = .ok (.next q')) :
    (∀ i : Int, currentTasks i ≠ nextTasks i ∧ nextTasks i = currentTasks (i + 1) ∧
      currentTasks i = (if i % 2 = 0 then TaskQueue.cuda_tasks else TaskQueue.cuda_newTasks)) ∧
    q'.iteration = q.iteration + 1 ∧
    currentTasks q'.iteration = nextTasks q.iteration ∧
    (∃ before useShared cfg cfg' T,
      q'.launches = q.launches ++ before ++
        [.cudaQuickSort1stPhase useShared cfg (getElemPerBlock q) (currentTasks q.iteration),
         .cudaWritePivot cfg' T (currentTasks q.iteration) (nextTasks q.iteration)] ∧
      ∀ l ∈ before, ∀ v ∈ l.taskViews,
        v.1 = currentTasks q.iteration ∨ v.1 = TaskQueue.cuda_2ndPhaseTasks) ∧
    (∀ q'', secondPhase M q' = .ok q'' →
      ∃ l, q''.launches = q'.launches ++ [l] ∧
        ∀ v ∈ l.taskViews, v.1 = nextTasks q.iteration ∨ v.1 = TaskQueue.cuda_2ndPhaseTasks) ∧
    (∀ e b qi, initTasks M e q' = .ok (b, qi) →
      ∃ ls, qi.launches = q'.launches ++ ls ∧
        ∀ l ∈ ls, ∀ v ∈ l.taskViews, v.1 = nextTasks q.iteration) ∧
    (∀ e, getSetsNeeded e q' =
      if q'.host_1stPhaseTasksAmount ≤ 0 then .ok 0
      else (getView (q'.dev.queue (nextTasks q.iteration)) q'.host_1stPhaseTasksAmount).map
        (fun view => (view.map (blocksForTask e)).sum)) := by
  obtain ⟨drains, b, hdr, hcase⟩ := firstPhaseBody_trace M q _ h
  have hit : q'.iteration = q.iteration + 1 ∧
      q'.launches = q.launches ++ drains ++
        [.cudaCalcBlocksNeeded
          ⟨q.threadsPerBlock, cdiv q.host_1stPhaseTasksAmount q.threadsPerBlock
            + (if cmod q.host_1stPhaseTasksAmount q.threadsPerBlock ≠ 0 then 1 else 0), 0⟩
          (currentTasks q.iteration) q.host_1stPhaseTasksAmount (getElemPerBlock q),
         .cudaInitTask ⟨q.threadsPerBlock, q.host_1stPhaseTasksAmount, 0⟩
          (currentTasks q.iteration) q.host_1stPhaseTasksAmount b
          (if cmod q.iteration 2 = 0 then .arr else .aux),
         partitionLaunch M q (getElemPerBlock q) b,
         writePivotLaunch M q] := by
    rcases hcase with ⟨_, qe, he⟩ | ⟨_, _, _, hcase⟩
    · cases he
    · rcases hcase with ⟨_, ⟨qe, he⟩, _⟩ | ⟨_, _, _, ⟨qe, he⟩, _⟩ | ⟨_, _, _, hi, hl⟩
      · cases he
      · cases he
      · exact ⟨hi, hl⟩
  obtain ⟨hi, hl⟩ := hit
  have hcur : currentTasks q'.iteration = nextTasks q.iteration := by
    rw [hi]
    exact (pingpong_parity q.iteration).2.1.symm
  refine ⟨fun i => ⟨(pingpong_parity i).1, (pingpong_parity i).2.1, (pingpong_parity i).2.2.1⟩,
    hi, hcur, ?_, ?_, ?_, ?_⟩
  · obtain ⟨_, _, _, _, us, cfg, p5⟩ := partitionLaunch_spec M q (getElemPerBlock q) b
    refine ⟨drains ++
        [.cudaCalcBlocksNeeded
          ⟨q.threadsPerBlock, cdiv q.host_1stPhaseTasksAmount q.threadsPerBlock
            + (if cmod q.host_1stPhaseTasksAmount q.threadsPerBlock ≠ 0 then 1 else 0), 0⟩
          (currentTasks q.iteration) q.host_1stPhaseTasksAmount (getElemPerBlock q),
         .cudaInitTask ⟨q.threadsPerBlock, q.host_1stPhaseTasksAmount, 0⟩
          (currentTasks q.iteration) q.host_1stPhaseTasksAmount b
          (if cmod q.iteration 2 = 0 then .arr else .aux)], us, cfg,
      ⟨q.threadsPerBlock, q.host_1stPhaseTasksAmount, M.sizeofValue⟩,
      q.desired_2ndPhasElemPerBlock, ?_, ?_⟩
    · rw [hl, p5]
      simp only [writePivotLaunch, List.append_assoc, List.cons_append, List.nil_append]
    · intro l hm v hv
      rcases List.mem_append.mp hm with hm | hm
      · obtain ⟨_, n, hn, _⟩ := hdr l hm
        rw [hn, List.mem_singleton] at hv
        rw [hv]
        exact Or.inr rfl
      · simp only [List.mem_cons, List.mem_singleton, List.not_mem_nil, or_false] at hm
        rcases hm with hm | hm
        · rw [hm] at hv
          simp only [Launch.taskViews, List.mem_singleton] at hv
          rw [hv]
          exact Or.inl rfl
        · rw [hm] at hv
          simp only [Launch.taskViews, List.mem_singleton] at hv
          rw [hv]
          exact Or.inl rfl
  · intro q'' hs
    obtain ⟨l, l1, _, _, l4⟩ := secondPhase_spec M q' q'' hs
    refine ⟨l, by rw [l1]; rfl, ?_⟩
    intro v hv
    rw [l4, hcur] at hv
    split at hv
    · simp only [List.mem_cons, List.mem_singleton, List.not_mem_nil, or_false] at hv
      rcases hv with hv | hv
      · rw [hv]; exact Or.inl rfl
      · rw [hv]; exact Or.inr rfl
    · split at hv
      · rw [List.mem_singleton] at hv
        rw [hv]; exact Or.inl rfl
      · rw [List.mem_singleton] at hv
        rw [hv]; exact Or.inr rfl
  · intro e b' qi hin
    obtain ⟨ls, h1, h2⟩ := initTasks_launch_views M e q' qi b' hin
    refine ⟨ls, h1, ?_⟩
    intro l hm v hv
    rw [h2 l hm, List.mem_singleton] at hv
    rw [hv, ← hcur]
  · intro e
    unfold getSetsNeeded
    rw [hcur]
    split
    · rfl
    · cases getView (q'.dev.queue (nextTasks q.iteration)) q'.host_1stPhaseTasksAmount <;> rfl

/-- Witness for `ping_pong_rotation`: the first round on `[3, 1, 2]`. -/
theorem ping_pong_rotation_witness :
    firstPhaseBody exampleMachine exampleScheduler = .ok (.next exampleRoundEnd) ∧
    exampleRoundEnd.iteration = exampleScheduler.iteration + 1 ∧
    currentTasks exampleRoundEnd.iteration = nextTasks exampleScheduler.iteration ∧
    currentTasks exampleScheduler.iteration = TaskQueue.cuda_tasks ∧
    nextTasks exampleScheduler.iteration = TaskQueue.cuda_newTasks :=
  ⟨rfl,
    (ping_pong_rotation exampleMachine exampleScheduler exampleRoundEnd rfl).2.1,
    (ping_pong_rotation exampleMachine exampleScheduler exampleRoundEnd rfl).2.2.1,
    rfl, rfl⟩

/-- C17: `secondPhase` makes one launch, with `host_1stPhaseTasksAmount +
host_2ndPhaseTasksAmount` groups, over the first `host_1stPhaseTasksAmount` entries of the
current ping-pong buffer and the first `host_2ndPhaseTasksAmount` entries of the terminal
queue; when one of the counts is zero only the other prefix is passed, so that the number of
tasks handed to the kernel is the number of groups and, when there is a task at all, no view
is empty. -/
theorem secondPhase_covers_both_queues {Value : Type} (M : Machine Value)
    (q : Quicksorter Value)
    (h1 : 0 ≤ q.host_1stPhaseTasksAmount) (h2 : 0 ≤ q.host_2ndPhaseTasksAmount)
    (hv1 : q.host_1stPhaseTasksAmount ≤ (q.dev.queue (currentTasks q.iteration)).length)
    (hv2 : q.host_2ndPhaseTasksAmount ≤ q.dev.cuda_2ndPhaseTasks.length) :
    ∃ l, secondPhase M q = .ok (launchKernelSync M l q) ∧
      (launchKernelSync M l q).launches = q.launches ++ [l] ∧
      l.isSecondPhase = true ∧
      l.config.gridSize = q.host_1stPhaseTasksAmount + q.host_2ndPhaseTasksAmount ∧
      l.taskViews =
        (if q.host_1stPhaseTasksAmount > 0 ∧ q.host_2ndPhaseTasksAmount > 0 then
          [(currentTasks q.iteration, q.host_1stPhaseTasksAmount),
           (TaskQueue.cuda_2ndPhaseTasks, q.host_2ndPhaseTasksAmount)]
         else if q.host_1stPhaseTasksAmount > 0 then
          [(currentTasks q.iteration, q.host_1stPhaseTasksAmount)]
         else [(TaskQueue.cuda_2ndPhaseTasks, q.host_2ndPhaseTasksAmount)]) ∧
      (l.taskViews.map Prod.snd).sum = l.config.gridSize ∧
      (0 < q.host_1stPhaseTasksAmount + q.host_2ndPhaseTasksAmount →
        ∀ v ∈ l.taskViews, 0 < v.2) := by
  obtain ⟨q', hq'⟩ := secondPhase_returns M q hv1 h2 hv2
  obtain ⟨l, l1, l2, l3, l4⟩ := secondPhase_spec M q q' hq'
  refine ⟨l, by rw [hq', l1], rfl, l2, l3, l4, ?_, ?_⟩
  · rw [l3, l4]
    by_cases c1 : q.host_1stPhaseTasksAmount > 0 ∧ q.host_2ndPhaseTasksAmount > 0
    · rw [if_pos c1]
      simp
    · rw [if_neg c1]
      by_cases c2 : q.host_1stPhaseTasksAmount > 0
      · rw [if_pos c2]
        simp only [List.map_cons, List.map_nil, List.sum_cons, List.sum_nil]
        omega
      · rw [if_neg c2]
        simp only [List.map_cons, List.map_nil, List.sum_cons, List.sum_nil]
        omega
  · intro hpos v hv
    rw [l4] at hv
    by_cases c1 : q.host_1stPhaseTasksAmount > 0 ∧ q.host_2ndPhaseTasksAmount > 0
    · rw [if_pos c1] at hv
      simp only [List.mem_cons, List.mem_singleton, List.not_mem_nil, or_false] at hv
      rcases hv with hv | hv
      · rw [hv]; exact c1.1
      · rw [hv]; exact c1.2
    · rw [if_neg c1] at hv
      by_cases c2 : q.host_1stPhaseTasksAmount > 0
      · rw [if_pos c2, List.mem_singleton] at hv
        rw [hv]; exact c2
      · rw [if_neg c2, List.mem_singleton] at hv
        rw [hv]
        show 0 < q.host_2ndPhaseTasksAmount
        omega

/-- Witness for `secondPhase_covers_both_queues`: after three rounds on `[8, 2, 5, 3, 4, 6, 7,
1, 10, 11, 12, 13, 9]` three tasks are left in the current buffer and two in the terminal
queue; the launch has five groups. -/
theorem secondPhase_covers_both_queues_witness :
    ((0 : Int) ≤ (growthRound 3).host_1stPhaseTasksAmount ∧
      0 ≤ (growthRound 3).host_2ndPhaseTasksAmount ∧
      (growthRound 3).host_1stPhaseTasksAmount
        ≤ ((growthRound 3).dev.queue (currentTasks (growthRound 3).iteration)).length ∧
      (growthRound 3).host_2ndPhaseTasksAmount ≤ (growthRound 3).dev.cuda_2ndPhaseTasks.length) ∧
    ∃ l, secondPhase growthMachine (growthRound 3)
        = .ok (launchKernelSync growthMachine l (growthRound 3)) ∧
      (launchKernelSync growthMachine l (growthRound 3)).launches
        = (growthRound 3).launches ++ [l] ∧
      l.isSecondPhase = true ∧
      l.config.gridSize = (growthRound 3).host_1stPhaseTasksAmount
        + (growthRound 3).host_2ndPhaseTasksAmount ∧
      l.taskViews =
        (if (growthRound 3).host_1stPhaseTasksAmount > 0
            ∧ (growthRound 3).host_2ndPhaseTasksAmount > 0 then
          [(currentTasks (growthRound 3).iteration, (growthRound 3).host_1stPhaseTasksAmount),
           (TaskQueue.cuda_2ndPhaseTasks, (growthRound 3).host_2ndPhaseTasksAmount)]
         else if (growthRound 3).host_1stPhaseTasksAmount > 0 then
          [(currentTasks (growthRound 3).iteration, (growthRound 3).host_1stPhaseTasksAmount)]
         else [(TaskQueue.cuda_2ndPhaseTasks, (growthRound 3).host_2ndPhaseTasksAmount)]) ∧
      (l.taskViews.map Prod.snd).sum = l.config.gridSize ∧
      (0 < (growthRound 3).host_1stPhaseTasksAmount
          + (growthRound 3).host_2ndPhaseTasksAmount →
        ∀ v ∈ l.taskViews, 0 < v.2) :=
  ⟨by decide,
    secondPhase_covers_both_queues growthMachine (growthRound 3) (by decide) (by decide)
      (by decide) (by decide)⟩

/-- The shared-memory size and the argument `elemInShared` of the launch of `secondPhase`. -/
theorem secondPhase_launch_budget {Value : Type} (M : Machine Value) (q q' : Quicksorter Value)
    (h : secondPhase M q = .ok q') :
    ∃ l, q' = launchKernelSync M l q ∧
      l.config.dynamicSharedMemorySize =
        (if q.desiredElemPerBlock * M.sizeofValue + M.sizeofValue > q.maxSharable then
          M.sizeofValue
         else q.desiredElemPerBlock * M.sizeofValue + M.sizeofValue) ∧
      l.elemInShared =
        some (if q.desiredElemPerBlock * M.sizeofValue + M.sizeofValue > q.maxSharable then 0
          else q.desiredElemPerBlock) := by
  unfold secondPhase at h
  simp only [] at h
  by_cases c1 : q.host_1stPhaseTasksAmount > 0 ∧ q.host_2ndPhaseTasksAmount > 0
  · rw [if_pos c1] at h
    cases hv1 : getView (q.dev.queue (currentTasks q.iteration)) q.host_1stPhaseTasksAmount with
    | error e => simp [hv1, bind, Except.bind] at h
    | ok v1 =>
      cases hv2 : getView q.dev.cuda_2ndPhaseTasks q.host_2ndPhaseTasksAmount with
      | error e => simp [hv1, hv2, bind, Except.bind] at h
      | ok v2 =>
        simp only [hv1, hv2, bind, Except.bind, pure, Except.pure] at h
        injection h with h
        exact ⟨_, h.symm, rfl, rfl⟩
  · rw [if_neg c1] at h
    by_cases c2 : q.host_1stPhaseTasksAmount > 0
    · rw [if_pos c2] at h
      cases hv1 : getView (q.dev.queue (currentTasks q.iteration)) q.host_1stPhaseTasksAmount with
      | error e => simp [hv1, bind, Except.bind] at h
      | ok v1 =>
        simp only [hv1, bind, Except.bind, pure, Except.pure] at h
        injection h with h
        exact ⟨_, h.symm, rfl, rfl⟩
    · rw [if_neg c2] at h
      cases hv2 : getView q.dev.cuda_2ndPhaseTasks q.host_2ndPhaseTasksAmount with
      | error e => simp [hv2, bind, Except.bind] at h
      | ok v2 =>
        simp only [hv2, bind, Except.bind, pure, Except.pure] at h
        injection h with h
        exact ⟨_, h.symm, rfl, rfl⟩

/-- C18 (as amended): the budget test of the self-contained stage is the test of the
partition stage with the same element count `desiredElemPerBlock`, whatever the sizes of the
tasks: when `desiredElemPerBlock * sizeof(Value) + sizeof(Value) <= maxSharable` the launch
reserves that many bytes and passes `elemInShared = desiredElemPerBlock`, otherwise it
reserves `sizeof(Value)` bytes and passes `elemInShared = 0`; the partition launch of a round
in the same configuration is the staging variant in exactly the first case. -/
theorem secondPhase_budget_uses_desiredElemPerBlock {Value : Type} (M : Machine Value)
    (q : Quicksorter Value)
    (hv1 : q.host_1stPhaseTasksAmount ≤ (q.dev.queue (currentTasks q.iteration)).length)
    (h2 : 0 ≤ q.host_2ndPhaseTasksAmount)
    (hv2 : q.host_2ndPhaseTasksAmount ≤ q.dev.cuda_2ndPhaseTasks.length) :
    (∃ l, secondPhase M q = .ok (launchKernelSync M l q) ∧ l.isSecondPhase = true ∧
      (q.desiredElemPerBlock * M.sizeofValue + M.sizeofValue ≤ q.maxSharable →
        l.config.dynamicSharedMemorySize
            = q.desiredElemPerBlock * M.sizeofValue + M.sizeofValue ∧
          l.elemInShared = some q.desiredElemPerBlock) ∧
      (¬ (q.desiredElemPerBlock * M.sizeofValue + M.sizeofValue ≤ q.maxSharable) →
        l.config.dynamicSharedMemorySize = M.sizeofValue ∧ l.elemInShared = some 0)) ∧
    (∀ b : Int,
      (∃ cfg, partitionLaunch M q (getElemPerBlock q) b
          = .cudaQuickSort1stPhase true cfg (getElemPerBlock q) (currentTasks q.iteration)) ↔
        q.desiredElemPerBlock * M.sizeofValue + M.sizeofValue ≤ q.maxSharable) := by
  constructor
  · obtain ⟨q', hq'⟩ := secondPhase_returns M q hv1 h2 hv2
    obtain ⟨l, l1, l2, l3⟩ := secondPhase_launch_budget M q q' hq'
    obtain ⟨l', l1', l2', _⟩ := secondPhase_spec M q q' hq'
    have hll : l' = l := by
      have e1 : (launchKernelSync M l' q).launches = (launchKernelSync M l q).launches := by
        rw [← l1, ← l1']
      simpa [launchKernelSync] using e1
    rw [hll] at l2'
    refine ⟨l, by rw [hq', l1], l2', ?_, ?_⟩
    · intro hb
      rw [l2, l3, if_neg (by omega), if_neg (by omega)]
      exact ⟨rfl, rfl⟩
    · intro hb
      rw [l2, l3, if_pos (by omega), if_pos (by omega)]
      exact ⟨rfl, rfl⟩
  · intro b
    unfold partitionLaunch getElemPerBlock
    simp only []
    by_cases c : q.desiredElemPerBlock * M.sizeofValue + M.sizeofValue ≤ q.maxSharable
    · rw [if_pos c]
      exact ⟨fun _ => c, fun _ => ⟨_, rfl⟩⟩
    · rw [if_neg c]
      constructor
      · rintro ⟨cfg, hcfg⟩
        injection hcfg with hcfg
        cases hcfg
      · intro hc
        exact absurd hc c

/-- Witness for `secondPhase_budget_uses_desiredElemPerBlock`: the self-contained stage after
three rounds on `[8, 2, 5, 3, 4, 6, 7, 1, 10, 11, 12, 13, 9]` with threshold 1 and 1000 bytes
reserves `1 * 4 + 4` bytes for tasks of 1 and of 2 elements alike. -/
theorem secondPhase_budget_uses_desiredElemPerBlock_witness :
    ((growthRound 3).host_1stPhaseTasksAmount
        ≤ ((growthRound 3).dev.queue (currentTasks (growthRound 3).iteration)).length ∧
      0 ≤ (growthRound 3).host_2ndPhaseTasksAmount ∧
      (growthRound 3).host_2ndPhaseTasksAmount ≤ (growthRound 3).dev.cuda_2ndPhaseTasks.length) ∧
    ∃ l, secondPhase growthMachine (growthRound 3)
        = .ok (launchKernelSync growthMachine l (growthRound 3)) ∧ l.isSecondPhase = true ∧
      ((growthRound 3).desiredElemPerBlock * growthMachine.sizeofValue
          + growthMachine.sizeofValue ≤ (growthRound 3).maxSharable →
        l.config.dynamicSharedMemorySize
            = (growthRound 3).desiredElemPerBlock * growthMachine.sizeofValue
              + growthMachine.sizeofValue ∧
          l.elemInShared = some (growthRound 3).desiredElemPerBlock) ∧
      (¬ ((growthRound 3).desiredElemPerBlock * growthMachine.sizeofValue
          + growthMachine.sizeofValue ≤ (growthRound 3).maxSharable) →
        l.config.dynamicSharedMemorySize = growthMachine.sizeofValue ∧
          l.elemInShared = some 0) :=
  ⟨by decide,
    (secondPhase_budget_uses_desiredElemPerBlock growthMachine (growthRound 3) (by decide)
      (by decide) (by decide)).1⟩

/-- C18 (counterexample): the budget test of the self-contained stage does not use the size of
the task.  (1) `[7]` with threshold 2 and 8 bytes of shared memory, elements of 4 bytes: the
only task has one element and `1 * 4 + 4 <= 8`, yet the launch reserves 4 bytes, the pivot
slot, and passes `elemInShared = 0`.  (2) `[2, 1, 1, 3, 3]` on the machine with a task queue
of two entries, threshold 1 and 1000 bytes: the tasks `[0, 2)` and `[3, 5)` are left in the
distributed queue and `2 * 4 + 4 <= 1000`, yet the launch reserves `1 * 4 + 4 = 8` bytes and
passes `elemInShared = 1`. -/
theorem secondPhase_budget_ignores_task_size :
    (∃ q0 q : Quicksorter Int,
      init exampleMachine (Quicksorter.fresh Int) [7] 8 2 2 8 = .ok q0 ∧
      q0.dev.cuda_2ndPhaseTasks = [⟨0, 1, 0⟩] ∧
      (1 - 0) * exampleMachine.sizeofValue + exampleMachine.sizeofValue ≤ q0.maxSharable ∧
      performSort exampleMachine 1 q0 = .ok q ∧
      q.launches = [.cudaQuickSort2ndPhase ⟨2, 1, 4⟩ .cuda_2ndPhaseTasks 1 0 2]) ∧
    (∃ q0 q : Quicksorter Int,
      init smallQueueMachine (Quicksorter.fresh Int) [2, 1, 1, 3, 3] 8 2 1 1000 = .ok q0 ∧
      performSort smallQueueMachine 2 q0 = .ok q ∧
      q.dev.cuda_newTasks = [⟨0, 2, 1⟩, ⟨3, 5, 1⟩] ∧
      (2 - 0) * smallQueueMachine.sizeofValue + smallQueueMachine.sizeofValue ≤ q.maxSharable ∧
      (5 - 3) * smallQueueMachine.sizeofValue + smallQueueMachine.sizeofValue ≤ q.maxSharable ∧
      q.launches.getLast? = some (.cudaQuickSort2ndPhase ⟨2, 2, 8⟩ .cuda_newTasks 2 1 1)) :=
  ⟨⟨_, _, rfl, rfl, by decide, rfl, rfl⟩, ⟨_, _, rfl, rfl, rfl, by decide, by decide, rfl⟩⟩

theorem setData_counters {Value : Type} (d : Device Value) (a : DataArray) (xs : List Value) :
    (d.setData a xs).cuda_newTasksAmount = d.cuda_newTasksAmount ∧
    (d.setData a xs).cuda_2ndPhaseTasksAmount = d.cuda_2ndPhaseTasksAmount := by
  cases a <;> exact ⟨rfl, rfl⟩

theorem setQueue_counters {Value : Type} (d : Device Value) (k : TaskQueue) (ts : List TASK) :
    (d.setQueue k ts).cuda_newTasksAmount = d.cuda_newTasksAmount ∧
    (d.setQueue k ts).cuda_2ndPhaseTasksAmount = d.cuda_2ndPhaseTasksAmount := by
  cases k <;> exact ⟨rfl, rfl⟩

theorem partitionTask_counters {Value : Type} (cmp : Value → Value → Bool) (d : Device Value)
    (t : TASK) :
    (partitionTask cmp d t).cuda_newTasksAmount = d.cuda_newTasksAmount ∧
    (partitionTask cmp d t).cuda_2ndPhaseTasksAmount = d.cuda_2ndPhaseTasksAmount := by
  unfold partitionTask
  split
  · exact ⟨rfl, rfl⟩
  · exact setData_counters _ _ _

theorem partition_fold_counters {Value : Type} (cmp : Value → Value → Bool) (task : TaskQueue)
    (is : List Int) (d : Device Value) :
    (is.foldl (fun d i => match (d.queue task).get? i.toNat with
        | some t => partitionTask cmp d t
        | none => d) d).cuda_newTasksAmount = d.cuda_newTasksAmount ∧
    (is.foldl (fun d i => match (d.queue task).get? i.toNat with
        | some t => partitionTask cmp d t
        | none => d) d).cuda_2ndPhaseTasksAmount = d.cuda_2ndPhaseTasksAmount := by
  induction is generalizing d with
  | nil => exact ⟨rfl, rfl⟩
  | cons i is ih =>
    simp only [List.foldl_cons]
    obtain ⟨h1, h2⟩ := ih (match (d.queue task).get? i.toNat with
        | some t => partitionTask cmp d t
        | none => d)
    rw [h1, h2]
    split
    · exact partitionTask_counters cmp d _
    · exact ⟨rfl, rfl⟩

theorem emitDistributed_counters {Value : Type} (newTask : TaskQueue) (d : Device Value)
    (t : TASK) :
    d.cuda_newTasksAmount ≤ (emitDistributed newTask d t).cuda_newTasksAmount ∧
    d.cuda_2ndPhaseTasksAmount ≤ (emitDistributed newTask d t).cuda_2ndPhaseTasksAmount := by
  obtain ⟨_, h2⟩ := setQueue_counters d newTask ((d.queue newTask).set d.cuda_newTasksAmount.toNat t)
  constructor
  · show d.cuda_newTasksAmount ≤ d.cuda_newTasksAmount + 1
    omega
  · show d.cuda_2ndPhaseTasksAmount ≤ (d.setQueue newTask _).cuda_2ndPhaseTasksAmount
    rw [h2]

theorem emitChild_counters {Value : Type} (threshold : Int) (newTask : TaskQueue)
    (d : Device Value) (t : TASK) :
    d.cuda_newTasksAmount ≤ (emitChild threshold newTask d t).cuda_newTasksAmount ∧
    d.cuda_2ndPhaseTasksAmount ≤ (emitChild threshold newTask d t).cuda_2ndPhaseTasksAmount := by
  unfold emitChild
  split
  · exact ⟨le_refl _, le_refl _⟩
  · split
    · constructor
      · exact le_refl _
      · show d.cuda_2ndPhaseTasksAmount ≤ d.cuda_2ndPhaseTasksAmount + 1
        omega
    · exact emitDistributed_counters newTask d t

theorem emitDistributed_fold_counters {Value : Type} (newTask : TaskQueue) (ts : List TASK)
    (d : Device Value) :
    d.cuda_newTasksAmount ≤ (ts.foldl (emitDistributed newTask) d).cuda_newTasksAmount ∧
    d.cuda_2ndPhaseTasksAmount
      ≤ (ts.foldl (emitDistributed newTask) d).cuda_2ndPhaseTasksAmount := by
  induction ts generalizing d with
  | nil => exact ⟨le_refl _, le_refl _⟩
  | cons t ts ih =>
    simp only [List.foldl_cons]
    obtain ⟨a1, a2⟩ := emitDistributed_counters newTask d t
    obtain ⟨b1, b2⟩ := ih (emitDistributed newTask d t)
    exact ⟨le_trans a1 b1, le_trans a2 b2⟩

theorem counters_ite {Value : Type} (d : Device Value) (c : Prop) [Decidable c]
    (A B : Device Value)
    (hA : d.cuda_newTasksAmount ≤ A.cuda_newTasksAmount ∧
      d.cuda_2ndPhaseTasksAmount ≤ A.cuda_2ndPhaseTasksAmount)
    (hB : d.cuda_newTasksAmount ≤ B.cuda_newTasksAmount ∧
      d.cuda_2ndPhaseTasksAmount ≤ B.cuda_2ndPhaseTasksAmount) :
    d.cuda_newTasksAmount ≤ (if c then A else B).cuda_newTasksAmount ∧
    d.cuda_2ndPhaseTasksAmount ≤ (if c then A else B).cuda_2ndPhaseTasksAmount := by
  split
  · exact hA
  · exact hB

theorem spawnTasks_counters {Value : Type} (cmp : Value → Value → Bool) (threshold : Int)
    (newTask : TaskQueue) (ts : List TASK) (d : Device Value) :
    d.cuda_newTasksAmount ≤ (spawnTasks cmp threshold newTask ts d).cuda_newTasksAmount ∧
    d.cuda_2ndPhaseTasksAmount
      ≤ (spawnTasks cmp threshold newTask ts d).cuda_2ndPhaseTasksAmount := by
  induction ts generalizing d with
  | nil => exact ⟨le_refl _, le_refl _⟩
  | cons t ts ih =>
    unfold spawnTasks
    split
    · exact ih d
    · simp only []
      apply counters_ite
      · exact emitDistributed_fold_counters newTask (t :: ts) d
      · refine ⟨le_trans (le_trans ?_ (emitChild_counters _ _ _ _).1) (ih _).1,
          le_trans (le_trans ?_ (emitChild_counters _ _ _ _).2) (ih _).2⟩
        · exact (emitChild_counters _ _ _ _).1
        · exact (emitChild_counters _ _ _ _).2

theorem sortTasks_counters {Value : Type} (cmp : Value → Value → Bool) (ts : List TASK)
    (d : Device Value) :
    (sortTasks cmp ts d).cuda_newTasksAmount = d.cuda_newTasksAmount ∧
    (sortTasks cmp ts d).cuda_2ndPhaseTasksAmount = d.cuda_2ndPhaseTasksAmount := by
  induction ts generalizing d with
  | nil => exact ⟨rfl, rfl⟩
  | cons t ts ih =>
    unfold sortTasks
    simp only []
    obtain ⟨h1, h2⟩ := ih { d with arr := (writeAt d.arr t.partitionBegin.toNat
      ((slice (d.data (sourceOf t.depth)) t.partitionBegin t.partitionEnd).insertionSort
        (fun a b => cmp b a = false))) }
    exact ⟨h1, h2⟩

/-- The kernels as modelled from the spec never decrease a device counter. -/
theorem specExec_countersOnlyGrow {Value : Type} (cmp : Value → Value → Bool)
    (sizeofValue g_maxTasks : Int) :
    CountersOnlyGrow
      ({ sizeofValue := sizeofValue, g_maxTasks := g_maxTasks, exec := specExec cmp } :
        Machine Value) := by
  intro l d
  show d.cuda_newTasksAmount ≤ (specExec cmp l d).cuda_newTasksAmount ∧
    d.cuda_2ndPhaseTasksAmount ≤ (specExec cmp l d).cuda_2ndPhaseTasksAmount
  cases l with
  | cudaCalcBlocksNeeded cfg tasks count e => exact ⟨le_refl _, le_refl _⟩
  | cudaInitTask cfg tasks count b src => exact ⟨le_refl _, le_refl _⟩
  | cudaQuickSort1stPhase us cfg e task =>
    obtain ⟨h1, h2⟩ := partition_fold_counters cmp task
      ((d.cuda_blockToTaskMapping.take cfg.gridSize.toNat).dedup) d
    exact ⟨le_of_eq h1.symm, le_of_eq h2.symm⟩
  | cudaWritePivot cfg T task newTask =>
    exact spawnTasks_counters cmp T newTask _ d
  | cudaQuickSort2ndPhase cfg tasks count e T =>
    obtain ⟨h1, h2⟩ := sortTasks_counters cmp ((d.queue tasks).take count.toNat) d
    exact ⟨le_of_eq h1.symm, le_of_eq h2.symm⟩
  | cudaQuickSort2ndPhase2 cfg tasks count count2 e T =>
    obtain ⟨h1, h2⟩ := sortTasks_counters cmp
      ((d.queue tasks).take count.toNat ++ d.cuda_2ndPhaseTasks.take count2.toNat) d
    exact ⟨le_of_eq h1.symm, le_of_eq h2.symm⟩

theorem launchKernelSync_counters {Value : Type} (M : Machine Value) (hM : CountersOnlyGrow M)
    (l : Launch) (q : Quicksorter Value) :
    q.dev.cuda_newTasksAmount ≤ (launchKernelSync M l q).dev.cuda_newTasksAmount ∧
    q.dev.cuda_2ndPhaseTasksAmount ≤ (launchKernelSync M l q).dev.cuda_2ndPhaseTasksAmount :=
  hM l q.dev

theorem partitionAndSpawn_counters {Value : Type} (M : Machine Value) (hM : CountersOnlyGrow M)
    (q : Quicksorter Value) (e b : Int) :
    q.dev.cuda_newTasksAmount ≤ (partitionAndSpawn M q e b).dev.cuda_newTasksAmount ∧
    q.dev.cuda_2ndPhaseTasksAmount
      ≤ (partitionAndSpawn M q e b).dev.cuda_2ndPhaseTasksAmount := by
  obtain ⟨a1, a2⟩ := launchKernelSync_counters M hM (partitionLaunch M q e b) q
  obtain ⟨b1, b2⟩ := launchKernelSync_counters M hM
    (writePivotLaunch M (launchKernelSync M (partitionLaunch M q e b) q))
    (launchKernelSync M (partitionLaunch M q e b) q)
  exact ⟨le_trans a1 b1, le_trans a2 b2⟩

theorem countsInBounds_of {Value : Type} (q q' : Quicksorter Value) (hq : CountsInBounds q)
    (hs : SameSetup q q')
    (h1 : 0 ≤ q'.host_1stPhaseTasksAmount ∧ q'.host_1stPhaseTasksAmount ≤ q.maxTasks)
    (h2 : 0 ≤ q'.host_2ndPhaseTasksAmount ∧ q'.host_2ndPhaseTasksAmount ≤ q.maxTasks)
    (hc : 0 ≤ q'.dev.cuda_2ndPhaseTasksAmount) : CountsInBounds q' := by
  obtain ⟨_, _, _, _, a5, a6, a7, a8, _⟩ := hq
  obtain ⟨_, _, _, _, _, s6, s7, s8, s9, _, s11⟩ := hs
  refine ⟨h1.1, by rw [s6]; exact h1.2, h2.1, by rw [s6]; exact h2.2, ?_, ?_, ?_, ?_, hc⟩
  · rw [s7, s6]; exact a5
  · rw [s8, s6]; exact a6
  · rw [s9, s6]; exact a7
  · rw [s11, s6]; exact a8

/-- A pass through the loop body of `firstPhase` keeps the host counts within the queue
capacity, on a machine whose kernels never decrease a device counter. -/
theorem firstPhaseBody_countsInBounds {Value : Type} (M : Machine Value)
    (hM : CountersOnlyGrow M) (q : Quicksorter Value) (r : LoopStep (Quicksorter Value))
    (hq : CountsInBounds q) (h : firstPhaseBody M q = .ok r) : CountsInBounds r.state := by
  obtain ⟨qm, drains, c, e1, e2, _, _, hr⟩ := firstPhaseBody_steps M q r h
  have hq' := hq
  obtain ⟨a1, a2, a3, a4, _, _, _, _, a9⟩ := hq'
  have hm : CountsInBounds qm := by
    rcases e2 with ⟨e2, _⟩ | ⟨e2, e3⟩
    · rw [e2]
      exact hq
    · exact countsInBounds_of q qm hq c.toSameSetup ⟨by rw [e1]; exact a1, by rw [e1]; exact a2⟩
        ⟨by rw [e2], by rw [e2]; omega⟩ (by rw [e3])
  rcases hr with hr | hr
  · rw [hr]
    exact hm
  · obtain ⟨b, qi, hi, hc⟩ := distributedRound_cases M qm r hr
    obtain ⟨s1, s2, s3, _⟩ := initTasks_spec M _ qm qi b hi
    obtain ⟨m1, m2, m3, m4, _, _, _, _, m9⟩ := hm
    obtain ⟨_, _, _, _, hcase⟩ := initTasks_cases M _ qm qi b hi
    have hcnt : 0 ≤ qi.dev.cuda_2ndPhaseTasksAmount ∧
        (b ≤ qm.dev.cuda_blockToTaskMapping.length → qi.dev.cuda_newTasksAmount = 0) := by
      rcases hcase with ⟨hb, hqi⟩ | ⟨_, _, hqi⟩
      · rw [hqi]
        exact ⟨m9, fun hle => by omega⟩
      · rw [hqi]
        refine ⟨?_, fun _ => rfl⟩
        have := (launchKernelSync_counters M hM
          (.cudaInitTask
            ⟨(afterCalcBlocksNeeded (getElemPerBlock qm) qm).threadsPerBlock,
              (afterCalcBlocksNeeded (getElemPerBlock qm) qm).host_1stPhaseTasksAmount, 0⟩
            (currentTasks (afterCalcBlocksNeeded (getElemPerBlock qm) qm).iteration)
            (afterCalcBlocksNeeded (getElemPerBlock qm) qm).host_1stPhaseTasksAmount b
            (if cmod (afterCalcBlocksNeeded (getElemPerBlock qm) qm).iteration 2 = 0 then .arr
              else .aux))
          (afterCalcBlocksNeeded (getElemPerBlock qm) qm)).2
        exact le_trans m9 this
    have hqi : CountsInBounds qi :=
      countsInBounds_of qm qi ⟨m1, m2, m3, m4, by assumption, by assumption, by assumption,
        by assumption, m9⟩ s1.toSameSetup ⟨by rw [s2]; exact m1, by rw [s2]; exact m2⟩
        ⟨by rw [s3]; exact m3, by rw [s3]; exact m4⟩ hcnt.1
    rcases hc with ⟨_, hc⟩ | ⟨hn, hc⟩
    · rw [hc]
      exact hqi
    · rw [hc]
      have hlen : qi.dev.cuda_blockToTaskMapping.length = qm.dev.cuda_blockToTaskMapping.length :=
        s1.2.2.2.2.2.2.2.2.2.2.1
      have hble : b ≤ qm.dev.cuda_blockToTaskMapping.length := by
        by_contra hcon
        exact hn (Or.inr (by rw [hlen]; omega))
      have h0 := hcnt.2 hble
      obtain ⟨k1, k2⟩ := partitionAndSpawn_counters M hM qi (getElemPerBlock qm) b
      obtain ⟨_, _, p3, p4, p5⟩ := partitionAndSpawn_spec M qi (getElemPerBlock qm) b
      have hmt : qi.maxTasks = qm.maxTasks := s1.2.2.2.2.2.1
      have hmt0 : 0 ≤ qi.maxTasks := by rw [hmt]; omega
      refine countsInBounds_of qi _ hqi (partitionAndSpawn_setup M qi _ b) ?_ ?_ ?_
      · show 0 ≤ (partitionAndSpawn M qi (getElemPerBlock qm) b).host_1stPhaseTasksAmount ∧
          (partitionAndSpawn M qi (getElemPerBlock qm) b).host_1stPhaseTasksAmount ≤ qi.maxTasks
        rw [p4]
        omega
      · show 0 ≤ (partitionAndSpawn M qi (getElemPerBlock qm) b).host_2ndPhaseTasksAmount ∧
          (partitionAndSpawn M qi (getElemPerBlock qm) b).host_2ndPhaseTasksAmount ≤ qi.maxTasks
        rw [p5]
        omega
      · show 0 ≤ (partitionAndSpawn M qi (getElemPerBlock qm) b).dev.cuda_2ndPhaseTasksAmount
        omega

/-- After `init` on a new `Quicksorter` the host counts are within the queue capacity. -/
theorem init_countsInBounds {Value : Type} [Inhabited Value] (M : Machine Value)
    (q : Quicksorter Value) (arr : List Value) (gridDim blockDim e maxSharable : Int)
    (h : init M (Quicksorter.fresh Value) arr gridDim blockDim e maxSharable = .ok q) :
    CountsInBounds q := by
  obtain ⟨_, _, _, _, _, _, i7, i8, i9, i10, i11, _, i13, _, _, _, i17⟩ :=
    init_spec M _ q arr _ _ _ _ h
  have f1 : (Quicksorter.fresh Value).host_1stPhaseTasksAmount = 0 := rfl
  have f2 : (Quicksorter.fresh Value).host_2ndPhaseTasksAmount = 0 := rfl
  rw [f1, f2] at i17
  rcases i17 with ⟨_, j1, j2⟩ | ⟨_, j1, j2⟩
  · exact ⟨by rw [j1]; decide, by rw [j1]; exact i7, by rw [j2], by rw [j2]; omega, i8, i9, i10,
      i11, by rw [i13]⟩
  · exact ⟨by rw [j2], by rw [j2]; omega, by rw [j1]; decide, by rw [j1]; exact i7, i8, i9, i10,
      i11, by rw [i13]⟩

/-- C19: `processNewTasks` sets the host counts to the device counters capped at `maxTasks`;
on a machine whose kernels never decrease a device counter, from `init` on a new
`Quicksorter` on, at the top of every pass of `firstPhase` and when `firstPhase` returns both
host counts are between 0 and `maxTasks`, the size of the three task queues and of
`cuda_reductionTaskInitMem`; with such counts every prefix view `getView( 0, count )` of a
task queue and the read of index `host_1stPhaseTasksAmount - 1` in `initTasks` are in bounds
and `secondPhase` returns. -/
theorem task_counts_capped_by_capacity {Value : Type} [Inhabited Value] (M : Machine Value)
    (hM : CountersOnlyGrow M) :
    (∀ q : Quicksorter Value,
      (processNewTasks q).host_1stPhaseTasksAmount = min q.dev.cuda_newTasksAmount q.maxTasks ∧
      (processNewTasks q).host_2ndPhaseTasksAmount
        = min q.dev.cuda_2ndPhaseTasksAmount q.maxTasks) ∧
    (∀ (q : Quicksorter Value) (arr : List Value) (gridDim blockDim e maxSharable : Int),
      init M (Quicksorter.fresh Value) arr gridDim blockDim e maxSharable = .ok q →
      CountsInBounds q) ∧
    (∀ (q : Quicksorter Value) (r : LoopStep (Quicksorter Value)), CountsInBounds q →
      firstPhaseBody M q = .ok r → CountsInBounds r.state) ∧
    (∀ (fuel : Nat) (q q' : Quicksorter Value), CountsInBounds q →
      firstPhase M fuel q = .ok q' →
      CountsInBounds q' ∧ ∃ q'', secondPhase M q' = .ok q'') ∧
    (∀ q : Quicksorter Value, CountsInBounds q →
      (∀ k : TaskQueue,
        getView (q.dev.queue k) q.host_1stPhaseTasksAmount
          = .ok ((q.dev.queue k).take q.host_1stPhaseTasksAmount.toNat) ∧
        getView (q.dev.queue k) q.host_2ndPhaseTasksAmount
          = .ok ((q.dev.queue k).take q.host_2ndPhaseTasksAmount.toNat)) ∧
      getView q.dev.cuda_reductionTaskInitMem q.host_1stPhaseTasksAmount
        = .ok (q.dev.cuda_reductionTaskInitMem.take q.host_1stPhaseTasksAmount.toNat) ∧
      (0 < q.host_1stPhaseTasksAmount → ∀ e,
        initTasksCount e q = .ok
          ((afterCalcBlocksNeeded e q).dev.cuda_reductionTaskInitMem.getD
              (q.host_1stPhaseTasksAmount - 1).toNat default,
            afterCalcBlocksNeeded e q))) := by
  have hlen : ∀ (q : Quicksorter Value), CountsInBounds q → ∀ k : TaskQueue,
      ((q.dev.queue k).length : Int) = q.maxTasks := by
    intro q hq k
    obtain ⟨_, _, _, _, a5, a6, a7, _, _⟩ := hq
    cases k
    · exact a5
    · exact a6
    · exact a7
  refine ⟨fun q => ⟨rfl, rfl⟩, fun q arr g b e ms h => init_countsInBounds M q arr g b e ms h,
    fun q r hq h => firstPhaseBody_countsInBounds M hM q r hq h, ?_, ?_⟩
  · intro fuel q q' hq h
    have hq' := firstPhase_invariant M CountsInBounds
      (fun q1 r hP _ hb => firstPhaseBody_countsInBounds M hM q1 r hP hb) fuel q q' hq h
    refine ⟨hq', ?_⟩
    have hl := hlen q' hq' (currentTasks q'.iteration)
    obtain ⟨a1, a2, a3, a4, _, _, a7, _, _⟩ := hq'
    exact secondPhase_returns M q' (by omega) a3 (by omega)
  · intro q hq
    have hl := hlen q hq
    obtain ⟨a1, a2, a3, a4, _, _, _, a8, _⟩ := hq
    refine ⟨fun k => ⟨getView_ok _ _ a1 (by rw [hl k]; exact a2),
      getView_ok _ _ a3 (by rw [hl k]; exact a4)⟩, getView_ok _ _ a1 (by omega), ?_⟩
    intro hpos e
    exact initTasksCount_eq e q (by omega) (by rw [hl]; exact a2) (by omega)

/-- Witness for `task_counts_capped_by_capacity`: the example machine, whose kernels are the
ones modelled from the spec, and the sort of `[8, 2, 5, 3, 4, 6, 7, 1, 10, 11, 12, 13, 9]` on
the machine with four queue entries. -/
theorem task_counts_capped_by_capacity_witness :
    CountersOnlyGrow growthMachine ∧ CountsInBounds (growthRound 0) ∧
    firstPhase growthMachine 4 (growthRound 0) = .ok (growthRound 3) ∧
    CountsInBounds (growthRound 3) ∧
    ∃ q'', secondPhase growthMachine (growthRound 3) = .ok q'' :=
  ⟨specExec_countersOnlyGrow _ 4 4, by decide, rfl,
    (task_counts_capped_by_capacity growthMachine (specExec_countersOnlyGrow _ 4 4)).2.2.2.1
      4 (growthRound 0) (growthRound 3) (by decide) rfl⟩

theorem toSizeT_of_range (x : Int) (h0 : 0 ≤ x) (h1 : x < 2 ^ 64) : toSizeT x = x := by
  unfold toSizeT
  exact Int.emod_eq_of_lt h0 h1

theorem toInt_of_range (x : Int) (h0 : 0 ≤ x) (h1 : x < 2 ^ 31) : toInt x = x := by
  unfold toInt
  have h2 : x % 2 ^ 32 = x := Int.emod_eq_of_lt h0 (by omega)
  simp only [h2]
  rw [if_pos h1]

/-- The end of `Quicksorter::sort` for a shared-memory configuration that respects the budget: the
assertion holds and `init` and `performSort` run. -/
theorem sortShared_of_budget {Value : Type} [Inhabited Value] (M : Machine Value) (fuel : Nat)
    (q : Quicksorter Value) (arr : List Value) (maxBlocks blockDim multiplier maxSharable : Int)
    (h0 : 0 ≤ blockDim * multiplier * M.sizeofValue)
    (h1 : blockDim * multiplier * M.sizeofValue ≤ maxSharable) (h2 : maxSharable < 2 ^ 31) :
    sortShared M fuel q arr maxBlocks blockDim multiplier maxSharable
      = (init M q arr maxBlocks blockDim (multiplier * blockDim) maxSharable
          >>= performSort M fuel) := by
  unfold sortShared
  rw [toSizeT_of_range _ h0 (by omega), toInt_of_range _ h0 (by omega), if_neg (by omega)]

/-- The configuration `Quicksorter::sort` chooses when an element fits the shared memory left
after the reserve (`1 <= sizeof(Value) <= sharedMemPerBlock - 448 < 2^31`): the
global-memory configuration, or a shared-memory configuration with `1 <= multiplier <= 8`,
`blockDim` 512 or 256 and `blockDim * multiplier * sizeof(Value) + sizeof(Value) <=
maxSharable`, whose assertion holds. -/
theorem sort_configuration {Value : Type} [Inhabited Value] (M : Machine Value)
    (sharedMemPerBlock : Int) (hs : 1 ≤ M.sizeofValue)
    (hfit : M.sizeofValue ≤ sharedMemPerBlock - 448) (hint : sharedMemPerBlock - 448 < 2 ^ 31) :
    (∀ (fuel : Nat) (q : Quicksorter Value) (arr : List Value),
      Quicksorter.sort M sharedMemPerBlock fuel q arr
        = (init M q arr (2 ^ 20) 512 0 0 >>= performSort M fuel)) ∨
    (∃ blockDim multiplier : Int, (blockDim = 512 ∨ blockDim = 256) ∧
      1 ≤ multiplier ∧ multiplier ≤ 8 ∧
      blockDim * multiplier * M.sizeofValue + 1 * M.sizeofValue ≤ sharedMemPerBlock - 448 ∧
      ∀ (fuel : Nat) (q : Quicksorter Value) (arr : List Value),
        Quicksorter.sort M sharedMemPerBlock fuel q arr
          = (init M q arr (2 ^ 20) blockDim (multiplier * blockDim) (sharedMemPerBlock - 448)
              >>= performSort M fuel)) := by
  have hr : toInt (toSizeT (4 * (16 + 3 * 32))) = 448 := by decide
  have hm : toInt (toSizeT (sharedMemPerBlock - 448)) = sharedMemPerBlock - 448 := by
    rw [toSizeT_of_range _ (by omega) (by omega), toInt_of_range _ (by omega) hint]
  have hq0 : 0 ≤ (sharedMemPerBlock - 448 - M.sizeofValue) / M.sizeofValue :=
    Int.ediv_nonneg (by omega) (by omega)
  have hq1 : (sharedMemPerBlock - 448 - M.sizeofValue) / M.sizeofValue * M.sizeofValue
      ≤ sharedMemPerBlock - 448 - M.sizeofValue := Int.ediv_mul_le _ (by omega)
  have hq2 : (sharedMemPerBlock - 448 - M.sizeofValue) / M.sizeofValue
      ≤ sharedMemPerBlock - 448 - M.sizeofValue := by nlinarith
  have he : toInt (toSizeT (sharedMemPerBlock - 448 - M.sizeofValue) / M.sizeofValue)
      = (sharedMemPerBlock - 448 - M.sizeofValue) / M.sizeofValue := by
    rw [toSizeT_of_range _ (by omega) (by omega), toInt_of_range _ hq0 (by omega)]
  have budget : ∀ blockDim multiplier : Int, 0 < blockDim → 0 ≤ multiplier →
      multiplier ≤ cdiv ((sharedMemPerBlock - 448 - M.sizeofValue) / M.sizeofValue) blockDim →
      0 ≤ blockDim * multiplier * M.sizeofValue ∧
      blockDim * multiplier * M.sizeofValue + 1 * M.sizeofValue ≤ sharedMemPerBlock - 448 := by
    intro bd mu hbd hmu hle
    unfold cdiv at hle
    rw [Int.tdiv_eq_ediv hq0 (by omega)] at hle
    have h1 : (sharedMemPerBlock - 448 - M.sizeofValue) / M.sizeofValue / bd * bd
        ≤ (sharedMemPerBlock - 448 - M.sizeofValue) / M.sizeofValue := Int.ediv_mul_le _ (by omega)
    have h2 : mu * bd ≤ (sharedMemPerBlock - 448 - M.sizeofValue) / M.sizeofValue := by
      nlinarith
    have h3 : 0 ≤ mu * bd := Int.mul_nonneg hmu (by omega)
    constructor
    · have : 0 ≤ mu * bd * M.sizeofValue := Int.mul_nonneg h3 (by omega)
      nlinarith
    · nlinarith
  unfold Quicksorter.sort
  simp only [hr, hm, he]
  by_cases c1 : min (cdiv ((sharedMemPerBlock - 448 - M.sizeofValue) / M.sizeofValue) 512) 8 ≤ 0
  · by_cases c2 : min (cdiv ((sharedMemPerBlock - 448 - M.sizeofValue) / M.sizeofValue) 256) 8 ≤ 0
    · left
      intro fuel q arr
      rw [if_pos c1, if_pos c2]
    · right
      obtain ⟨b0, b1⟩ := budget 256
        (min (cdiv ((sharedMemPerBlock - 448 - M.sizeofValue) / M.sizeofValue) 256) 8)
        (by decide) (by omega) (by omega)
      refine ⟨256, _, Or.inr rfl, by omega, by omega, b1, ?_⟩
      intro fuel q arr
      rw [if_pos c1, if_neg c2]
      exact sortShared_of_budget M fuel q arr _ 256 _ _ b0 (by omega) hint
  · right
    obtain ⟨b0, b1⟩ := budget 512
      (min (cdiv ((sharedMemPerBlock - 448 - M.sizeofValue) / M.sizeofValue) 512) 8)
      (by decide) (by omega) (by omega)
    refine ⟨512, _, Or.inl rfl, by omega, by omega, b1, ?_⟩
    intro fuel q arr
    rw [if_neg c1]
    exact sortShared_of_budget M fuel q arr _ 512 _ _ b0 (by omega) hint

/-- C20 (failing input): for elements of 50000 bytes on a device with 49152 bytes of shared
memory per block (`maxSharable = 48704`) the unsigned expression `( maxSharable - sizeof(
Value ) ) / sizeof( Value )` wraps and becomes, as `int`, 1485715087; `multiplier` is 8, so
`sort` chooses the shared-memory configuration with `blockDim = 512` and 4096 elements per
block although `512 * 8 * 50000 + 50000 > 48704`: the assertion before `init` fails, and with
that configuration the budget test of the first phase selects the kernel without staging.
Whenever an element fits the shared memory left after the reserve, the configuration `sort`
chooses is the global-memory one or respects the budget. -/
theorem sort_shared_budget_wraps_for_big_elements :
    toInt (toSizeT (48704 - bigValueMachine.sizeofValue) / bigValueMachine.sizeofValue)
      = 1485715087 ∧
    min (cdiv 1485715087 512) 8 = 8 ∧
    ¬ (512 * 8 * bigValueMachine.sizeofValue + 1 * bigValueMachine.sizeofValue ≤ 48704) ∧
    (∀ (fuel : Nat) (q : Quicksorter Int) (arr : List Int),
      Quicksorter.sort bigValueMachine 49152 fuel q arr = .error .assertionFailed) ∧
    (∀ (q : Quicksorter Int) (b : Int), q.desiredElemPerBlock = 8 * 512 →
      q.maxSharable = 48704 →
      partitionLaunch bigValueMachine q (getElemPerBlock q) b
        = .cudaQuickSort1stPhase false ⟨q.threadsPerBlock, b, 50000⟩ (8 * 512)
            (currentTasks q.iteration)) ∧
    (∀ (Value : Type) [Inhabited Value] (M : Machine Value) (sharedMemPerBlock : Int),
      1 ≤ M.sizeofValue → M.sizeofValue ≤ sharedMemPerBlock - 448 →
      sharedMemPerBlock - 448 < 2 ^ 31 →
      (∀ (fuel : Nat) (q : Quicksorter Value) (arr : List Value),
        Quicksorter.sort M sharedMemPerBlock fuel q arr
          = (init M q arr (2 ^ 20) 512 0 0 >>= performSort M fuel)) ∨
      (∃ blockDim multiplier : Int, (blockDim = 512 ∨ blockDim = 256) ∧
        1 ≤ multiplier ∧ multiplier ≤ 8 ∧
        blockDim * multiplier * M.sizeofValue + 1 * M.sizeofValue ≤ sharedMemPerBlock - 448 ∧
        ∀ (fuel : Nat) (q : Quicksorter Value) (arr : List Value),
          Quicksorter.sort M sharedMemPerBlock fuel q arr
            = (init M q arr (2 ^ 20) blockDim (multiplier * blockDim) (sharedMemPerBlock - 448)
                >>= performSort M fuel))) := by
  refine ⟨by decide, by decide, by decide, fun _ _ _ => rfl, ?_,
    fun Value _ M s h1 h2 h3 => sort_configuration M s h1 h2 h3⟩
  intro q b hd hm
  unfold partitionLaunch getElemPerBlock
  simp only [hd, hm]
  rfl

namespace BubbleSort

theorem compareSwap_ok {σ : Type} (end_ : Int) (compare : Int → Int → σ → Bool × σ)
    (swap : Int → Int → σ → σ) (j : Int) (s : σ) (h : j + 1 < end_) :
    compareSwap end_ compare swap j s = .ok
      (if (compare j (j + 1) s).1 = true then (compare j (j + 1) s).2
       else swap j (j + 1) (compare j (j + 1) s).2) := by
  unfold compareSwap
  rw [if_neg (by omega)]
  simp only []
  by_cases c : (compare j (j + 1) s).1 = true
  · rw [if_neg (by simp [c]), if_pos c]
  · rw [if_pos (by simpa using c), if_neg c]

/-- The forward loop: a property of the loop variable and the state that every pass of the
body carries on holds, when the loop ends, of the state it leaves. -/
theorem forwardPass_rule {σ : Type} (end_ : Int) (compare : Int → Int → σ → Bool × σ)
    (swap : Int → Int → σ → σ) (right : Int) (P : Int → σ → Prop)
    (hstep : ∀ j s, j < right - 1 → P j s →
      ∃ s', compareSwap end_ compare swap j s = .ok s' ∧ P (j + 1) s') :
    ∀ (fuel : Nat) (j : Int) (s : σ), right - 1 - j ≤ fuel → P j s →
      ∃ s', forwardPass end_ compare swap right fuel j s = .ok s' ∧ P (max j (right - 1)) s' := by
  intro fuel
  induction fuel with
  | zero =>
    intro j s hf hP
    unfold forwardPass
    rw [if_neg (by omega)]
    have : max j (right - 1) = j := by omega
    rw [this]
    exact ⟨s, rfl, hP⟩
  | succ n ih =>
    intro j s hf hP
    unfold forwardPass
    by_cases c : j < right - 1
    · rw [if_pos c]
      obtain ⟨s1, h1, hP1⟩ := hstep j s c hP
      rw [h1]
      obtain ⟨s', h2, hP2⟩ := ih (j + 1) s1 (by push_cast at hf ⊢; omega) hP1
      have : max (j + 1) (right - 1) = max j (right - 1) := by omega
      rw [this] at hP2
      exact ⟨s', h2, hP2⟩
    · rw [if_neg c]
      have : max j (right - 1) = j := by omega
      rw [this]
      exact ⟨s, rfl, hP⟩

/-- The backward loop: a property of the loop variable and the state that every pass of the
body carries on holds, when the loop ends, of the state it leaves. -/
theorem backwardPass_rule {σ : Type} (end_ : Int) (compare : Int → Int → σ → Bool × σ)
    (swap : Int → Int → σ → σ) (left : Int) (P : Int → σ → Prop)
    (hstep : ∀ j s, j ≥ left → P j s →
      ∃ s', compareSwap end_ compare swap j s = .ok s' ∧ P (j - 1) s') :
    ∀ (fuel : Nat) (j : Int) (s : σ), j - left + 1 ≤ fuel → P j s →
      ∃ s', backwardPass end_ compare swap left fuel j s = .ok s' ∧ P (min j (left - 1)) s' := by
  intro fuel
  induction fuel with
  | zero =>
    intro j s hf hP
    unfold backwardPass
    rw [if_neg (by omega)]
    have : min j (left - 1) = j := by omega
    rw [this]
    exact ⟨s, rfl, hP⟩
  | succ n ih =>
    intro j s hf hP
    unfold backwardPass
    by_cases c : j ≥ left
    · rw [if_pos c]
      obtain ⟨s1, h1, hP1⟩ := hstep j s c hP
      rw [h1]
      obtain ⟨s', h2, hP2⟩ := ih (j - 1) s1 (by push_cast at hf ⊢; omega) hP1
      have : min (j - 1) (left - 1) = min j (left - 1) := by omega
      rw [this] at hP2
      exact ⟨s', h2, hP2⟩
    · rw [if_neg c]
      have : min j (left - 1) = j := by omega
      rw [this]
      exact ⟨s, rfl, hP⟩

/-- The `while` loop: a property of `left`, `right` and the state that every pass of the body
carries on holds, when the loop ends, of the state it leaves. -/
theorem sortLoop_rule {σ : Type} (begin end_ : Int) (compare : Int → Int → σ → Bool × σ)
    (swap : Int → Int → σ → σ) (W : Int → Int → σ → Prop)
    (hbody : ∀ left right s, left < right → W left right s →
      ∃ s1 s2, forwardPass end_ compare swap right (end_ - begin).toNat left s = .ok s1 ∧
        backwardPass end_ compare swap left (end_ - begin).toNat (right - 1) s1 = .ok s2 ∧
        W (left + 1) (right - 1) s2) :
    ∀ (fuel : Nat) (left right : Int) (s : σ), right - left ≤ fuel → W left right s →
      ∃ s' l r, sortLoop begin end_ compare swap fuel left right s = .ok s' ∧ W l r s' ∧
        ¬ (l < r) := by
  intro fuel
  induction fuel with
  | zero =>
    intro left right s hf hW
    unfold sortLoop
    rw [if_neg (by omega)]
    exact ⟨s, left, right, rfl, hW, by omega⟩
  | succ n ih =>
    intro left right s hf hW
    unfold sortLoop
    by_cases c : left < right
    · rw [if_pos c]
      obtain ⟨s1, s2, h1, h2, hW2⟩ := hbody left right s c hW
      simp only [h1, h2]
      exact ih (left + 1) (right - 1) s2 (by push_cast at hf ⊢; omega) hW2
    · rw [if_neg c]
      exact ⟨s, left, right, rfl, hW, c⟩

/-- Function `inplaceSort` on a non-CUDA device returns, and a property of the state that `compare`
and `swap` keep whenever they are called with a pair `(j, j + 1)` with `begin <= j` and `j + 1
< end` holds of the state it leaves: no other call is made and no assertion fails. -/
theorem inplaceSort_invariant {σ : Type} (begin end_ : Int)
    (compare : Int → Int → σ → Bool × σ) (swap : Int → Int → σ → σ) (I : σ → Prop)
    (hcompare : ∀ j s, begin ≤ j → j + 1 < end_ → I s → I (compare j (j + 1) s).2)
    (hswap : ∀ j s, begin ≤ j → j + 1 < end_ → I s → I (swap j (j + 1) s))
    (s : σ) (hI : I s) :
    ∃ s', inplaceSort false begin end_ compare swap s = .ok s' ∧ I s' := by
  have hcs : ∀ j s, begin ≤ j → j + 1 < end_ → I s →
      ∃ s', compareSwap end_ compare swap j s = .ok s' ∧ I s' := by
    intro j s h1 h2 hs
    refine ⟨_, compareSwap_ok end_ compare swap j s h2, ?_⟩
    split
    · exact hcompare j s h1 h2 hs
    · exact hswap j _ h1 h2 (hcompare j s h1 h2 hs)
  have key := sortLoop_rule begin end_ compare swap
    (fun left right s => begin ≤ left ∧ right < end_ ∧ I s) (by
      intro left right s hlr hW
      obtain ⟨w1, w2, w3⟩ := hW
      obtain ⟨s1, f1, f2⟩ := forwardPass_rule end_ compare swap right
        (fun j s => left ≤ j ∧ I s) (by
          intro j s hj hP
          obtain ⟨s', e1, e2⟩ := hcs j s (by omega) (by omega) hP.2
          exact ⟨s', e1, by omega, e2⟩)
        (end_ - begin).toNat left s (by omega) ⟨le_refl _, w3⟩
      obtain ⟨s2, b1, b2⟩ := backwardPass_rule end_ compare swap left
        (fun j s => j ≤ right - 1 ∧ I s) (by
          intro j s hj hP
          obtain ⟨s', e1, e2⟩ := hcs j s (by omega) (by omega) hP.2
          exact ⟨s', e1, by omega, e2⟩)
        (end_ - begin).toNat (right - 1) s1 (by omega) ⟨le_refl _, f2.2⟩
      exact ⟨s1, s2, f1, b1, by omega, by omega, b2.2⟩)
    (end_ - begin).toNat begin (end_ - 1) s (by omega) ⟨le_refl _, by omega, hI⟩
  obtain ⟨s', _, _, h1, h2, _⟩ := key
  refine ⟨s', ?_, h2.2.2⟩
  unfold inplaceSort
  simpa using h1

/-- C27: on a non-CUDA device `inplaceSort` returns, whatever `compare` and `swap` do, and
every index pair passed to `compare` and to `swap` is a pair `(j, j + 1)` with `begin <= j` and
`j + 1 < end`; no `TNL_ASSERT_LT( j + 1, end )` fails in the forward or in the backward
loop. -/
theorem inplaceSort_touches_only_its_range {σ : Type} (begin end_ : Int)
    (compare : Int → Int → σ → Bool × σ) (swap : Int → Int → σ → σ) (s : σ) :
    (∃ s', inplaceSort false begin end_ compare swap s = .ok s') ∧
    ∃ s' calls, inplaceSort false begin end_ (recordCompare compare) (recordSwap swap) (s, [])
        = .ok (s', calls) ∧
      ∀ c ∈ calls, begin ≤ c.1 ∧ c.2 = c.1 + 1 ∧ c.2 < end_ := by
  constructor
  · obtain ⟨s', h, _⟩ := inplaceSort_invariant begin end_ compare swap (fun _ => True)
      (fun _ _ _ _ _ => trivial) (fun _ _ _ _ _ => trivial) s trivial
    exact ⟨s', h⟩
  · obtain ⟨st, h, hI⟩ := inplaceSort_invariant begin end_ (recordCompare compare)
      (recordSwap swap)
      (fun st => ∀ c ∈ st.2, begin ≤ c.1 ∧ c.2 = c.1 + 1 ∧ c.2 < end_)
      (by
        intro j st h1 h2 hs c hc
        simp only [recordCompare, List.mem_append, List.mem_singleton] at hc
        rcases hc with hc | hc
        · exact hs c hc
        · rw [hc]
          exact ⟨h1, rfl, h2⟩)
      (by
        intro j st h1 h2 hs c hc
        simp only [recordSwap, List.mem_append, List.mem_singleton] at hc
        rcases hc with hc | hc
        · exact hs c hc
        · rw [hc]
          exact ⟨h1, rfl, h2⟩)
      (s, []) (by simp)
    exact ⟨st.1, st.2, h, hI⟩

end BubbleSort

namespace BubbleSort

theorem perm_window (π : Equiv.Perm Int) (l r : Int)
    (hfix : ∀ k, (k < l ∨ r < k) → π k = k) (k : Int) (h1 : l ≤ k) (h2 : k ≤ r) :
    l ≤ π k ∧ π k ≤ r := by
  by_contra hcon
  have hout : π k < l ∨ r < π k := by omega
  have h3 : π (π k) = π k := hfix (π k) hout
  have h4 : π k = k := π.injective h3
  omega

/-- One pass of the loop body on an array of elements: the pair `(j, j + 1)` is put in order
by exchanging the two elements if need be. -/
theorem compareSwap_elements {α : Type} (le : α → α → Bool)
    (htot : ∀ a b, le a b = true ∨ le b a = true) (end_ j : Int) (s : Int → α)
    (h : j + 1 < end_) :
    ∃ (s1 : Int → α) (π : Equiv.Perm Int),
      compareSwap end_ (elementCompare le) elementSwap j s = .ok s1 ∧
      (∀ k, s1 k = s (π k)) ∧ (∀ k, k ≠ j → k ≠ j + 1 → π k = k) ∧
      le (s1 j) (s1 (j + 1)) = true ∧
      ((s1 j = s j ∧ s1 (j + 1) = s (j + 1)) ∨ (s1 j = s (j + 1) ∧ s1 (j + 1) = s j)) := by
  rw [compareSwap_ok end_ _ _ j s h]
  by_cases c : le (s j) (s (j + 1)) = true
  · refine ⟨s, Equiv.refl Int, ?_, fun k => rfl, fun k _ _ => rfl, c, Or.inl ⟨rfl, rfl⟩⟩
    show Except.ok (if le (s j) (s (j + 1)) = true then s else _) = _
    rw [if_pos c]
  · have c' : le (s (j + 1)) (s j) = true := by
      rcases htot (s j) (s (j + 1)) with h1 | h1
      · exact absurd h1 c
      · exact h1
    have hne : j + 1 ≠ j := by omega
    refine ⟨exchange s j (j + 1), Equiv.swap j (j + 1), ?_, ?_, ?_, ?_, Or.inr ⟨?_, ?_⟩⟩
    · show Except.ok (if le (s j) (s (j + 1)) = true then s else exchange s j (j + 1)) = _
      rw [if_neg c]
    · intro k
      unfold exchange
      rw [Equiv.swap_apply_def]
      by_cases k1 : k = j
      · rw [if_pos k1, if_pos k1]
      · rw [if_neg k1, if_neg k1]
        by_cases k2 : k = j + 1
        · rw [if_pos k2, if_pos k2]
        · rw [if_neg k2, if_neg k2]
    · intro k k1 k2
      exact Equiv.swap_apply_of_ne_of_ne k1 k2
    · unfold exchange
      rw [if_pos rfl, if_neg hne, if_pos rfl]
      exact c'
    · unfold exchange
      rw [if_pos rfl]
    · unfold exchange
      rw [if_neg hne, if_pos rfl]

/-- The forward loop on the window `[left, right]` brings the maximum of the elements at
`left, …, right - 1` to `right - 1` and leaves the element at `right` where it is. -/
theorem forwardPass_elements {α : Type} (le : α → α → Bool)
    (htot : ∀ a b, le a b = true ∨ le b a = true)
    (htrans : ∀ a b c, le a b = true → le b c = true → le a c = true)
    (end_ left right : Int) (s0 : Int → α) (h1 : left < right) (h2 : right < end_)
    (fuel : Nat) (hf : right - 1 - left ≤ fuel) :
    ∃ (s1 : Int → α) (π : Equiv.Perm Int),
      forwardPass end_ (elementCompare le) elementSwap right fuel left s0 = .ok s1 ∧
      (∀ k, s1 k = s0 (π k)) ∧ (∀ k, (k < left ∨ right - 1 < k) → π k = k) ∧
      (∀ k, left ≤ k → k ≤ right - 1 → le (s1 k) (s1 (right - 1)) = true) := by
  have hrefl : ∀ a, le a a = true := fun a => by rcases htot a a with h | h <;> exact h
  obtain ⟨s1, hs1, hP⟩ := forwardPass_rule end_ (elementCompare le) elementSwap right
    (fun j s => left ≤ j ∧ ∃ π : Equiv.Perm Int, (∀ k, s k = s0 (π k)) ∧
      (∀ k, (k < left ∨ j < k) → π k = k) ∧
      (∀ k, left ≤ k → k ≤ j → le (s k) (s j) = true)) (by
      intro j s hj hP
      obtain ⟨hl, π, p1, p2, p3⟩ := hP
      obtain ⟨s', σ, e1, e2, e3, e4, e5⟩ :=
        compareSwap_elements le htot end_ j s (by omega)
      refine ⟨s', e1, by omega, σ.trans π, ?_, ?_, ?_⟩
      · intro k
        rw [e2 k, p1 (σ k)]
        rfl
      · intro k hk
        have hσ : σ k = k := e3 k (by omega) (by omega)
        show π (σ k) = k
        rw [hσ]
        exact p2 k (by omega)
      · intro k k1 k2
        have hmax : le (s j) (s' (j + 1)) = true := by
          rcases e5 with ⟨a, b⟩ | ⟨a, b⟩
          · rw [← a]; exact e4
          · rw [b]; exact hrefl _
        by_cases c1 : k = j + 1
        · rw [c1]
          exact hrefl _
        · by_cases c2 : k = j
          · rw [c2]
            exact e4
          · have hk : s' k = s k := by
              rw [e2 k, e3 k c2 c1]
            rw [hk]
            exact htrans _ _ _ (p3 k k1 (by omega)) hmax)
    fuel left s0 hf ⟨le_refl _, Equiv.refl Int, fun k => rfl, fun k _ => rfl, by
      intro k k1 k2
      have : k = left := by omega
      rw [this]
      exact hrefl _⟩
  have hm : max left (right - 1) = right - 1 := by omega
  rw [hm] at hP
  obtain ⟨_, π, p1, p2, p3⟩ := hP
  exact ⟨s1, π, hs1, p1, p2, p3⟩

/-- The backward loop on the window `[left, right]`, entered with the maximum of the elements at
`left, …, right - 1` at `right - 1`, leaves the maximum of the window at `right` and the
minimum at `left`. -/
theorem backwardPass_elements {α : Type} (le : α → α → Bool)
    (htot : ∀ a b, le a b = true ∨ le b a = true)
    (htrans : ∀ a b c, le a b = true → le b c = true → le a c = true)
    (end_ left right : Int) (s1 : Int → α) (h1 : left < right) (h2 : right < end_)
    (hmax : ∀ k, left ≤ k → k ≤ right - 1 → le (s1 k) (s1 (right - 1)) = true)
    (fuel : Nat) (hf : right - left ≤ fuel) :
    ∃ (s2 : Int → α) (π : Equiv.Perm Int),
      backwardPass end_ (elementCompare le) elementSwap left fuel (right - 1) s1 = .ok s2 ∧
      (∀ k, s2 k = s1 (π k)) ∧ (∀ k, (k < left ∨ right < k) → π k = k) ∧
      (∀ k, left ≤ k → k ≤ right → le (s2 left) (s2 k) = true) ∧
      (∀ k, left ≤ k → k ≤ right → le (s2 k) (s2 right) = true) := by
  have hrefl : ∀ a, le a a = true := fun a => by rcases htot a a with h | h <;> exact h
  obtain ⟨s2, hs2, hP⟩ := backwardPass_rule end_ (elementCompare le) elementSwap left
    (fun j s => j ≤ right - 1 ∧ left - 1 ≤ j ∧ ∃ π : Equiv.Perm Int, (∀ k, s k = s1 (π k)) ∧
      (∀ k, (k < j + 1 ∨ right < k) → π k = k) ∧
      (∀ k, j + 1 ≤ k → k ≤ right → le (s (j + 1)) (s k) = true) ∧
      ((j = right - 1 ∧ ∀ k, left ≤ k → k ≤ right - 1 → le (s k) (s (right - 1)) = true) ∨
       (j < right - 1 ∧ ∀ k, left ≤ k → k ≤ right → le (s k) (s right) = true))) (by
      intro j s hj hP
      obtain ⟨hj1, hj2, π, p1, p2, p3, p4⟩ := hP
      obtain ⟨s', σ, e1, e2, e3, e4, e5⟩ :=
        compareSwap_elements le htot end_ j s (by omega)
      have hother : ∀ k, k ≠ j → k ≠ j + 1 → s' k = s k := by
        intro k c1 c2
        rw [e2 k, e3 k c1 c2]
      have hmin : le (s' j) (s (j + 1)) = true := by
        rcases e5 with ⟨a, b⟩ | ⟨a, b⟩
        · rw [← b]; exact e4
        · rw [a]; exact hrefl _
      have hmx : le (s j) (s' (j + 1)) = true := by
        rcases e5 with ⟨a, b⟩ | ⟨a, b⟩
        · rw [← a]; exact e4
        · rw [b]; exact hrefl _
      refine ⟨s', e1, by omega, by omega, σ.trans π, ?_, ?_, ?_, ?_⟩
      · intro k
        rw [e2 k, p1 (σ k)]
        rfl
      · intro k hk
        have hσ : σ k = k := e3 k (by omega) (by omega)
        show π (σ k) = k
        rw [hσ]
        exact p2 k (by omega)
      · intro k k1 k2
        have hj' : j - 1 + 1 = j := by omega
        rw [hj']
        by_cases c1 : k = j
        · rw [c1]
          exact hrefl _
        · by_cases c2 : k = j + 1
          · rw [c2]
            exact e4
          · rw [hother k c1 c2]
            exact htrans _ _ _ hmin (p3 k (by omega) k2)
      · right
        refine ⟨by omega, ?_⟩
        intro k k1 k2
        rcases p4 with ⟨q1, q2⟩ | ⟨q1, q2⟩
        · -- the first pass of the loop: the pair `(right - 1, right)`
          have hr : j + 1 = right := by omega
          rw [← hr]
          by_cases c1 : k = j + 1
          · rw [c1]
            exact hrefl _
          · by_cases c2 : k = j
            · rw [c2]
              exact e4
            · rw [hother k c2 c1]
              have := q2 k k1 (by omega)
              rw [← q1] at this
              exact htrans _ _ _ this hmx
        · -- a later pass: the element at `right` is not touched
          have hr : s' right = s right := hother right (by omega) (by omega)
          rw [hr]
          by_cases c1 : k = j
          · rw [c1]
            rcases e5 with ⟨a, b⟩ | ⟨a, b⟩
            · rw [a]
              exact q2 j (by omega) (by omega)
            · rw [a]
              exact q2 (j + 1) (by omega) (by omega)
          · by_cases c2 : k = j + 1
            · rw [c2]
              rcases e5 with ⟨a, b⟩ | ⟨a, b⟩
              · rw [b]
                exact q2 (j + 1) (by omega) (by omega)
              · rw [b]
                exact q2 j (by omega) (by omega)
            · rw [hother k c1 c2]
              exact q2 k k1 k2)
    fuel (right - 1) s1 (by omega) ⟨le_refl _, by omega, Equiv.refl Int, fun k => rfl,
      fun k _ => rfl, by
        intro k k1 k2
        have : k = right - 1 + 1 := by omega
        rw [this]
        exact hrefl _, Or.inl ⟨rfl, hmax⟩⟩
  have hm : min (right - 1) (left - 1) = left - 1 := by omega
  rw [hm] at hP
  obtain ⟨_, _, π, p1, p2, p3, p4⟩ := hP
  have hl : left - 1 + 1 = left := by omega
  rw [hl] at p2 p3
  refine ⟨s2, π, hs2, p1, p2, p3, ?_⟩
  rcases p4 with ⟨q1, _⟩ | ⟨_, q2⟩
  · omega
  · exact q2

end BubbleSort

namespace BubbleSort

/-- One pass of the `while` loop on the window `[left, right]`: the forward loop, `right--` and
the backward loop permute the elements of the window and leave its minimum at `left` and its
maximum at `right`. -/
theorem sortPass_elements {α : Type} (le : α → α → Bool)
    (htot : ∀ a b, le a b = true ∨ le b a = true)
    (htrans : ∀ a b c, le a b = true → le b c = true → le a c = true)
    (begin end_ left right : Int) (s : Int → α) (h0 : begin ≤ left) (h1 : left < right)
    (h2 : right < end_) :
    ∃ (s1 s2 : Int → α) (π : Equiv.Perm Int),
      forwardPass end_ (elementCompare le) elementSwap right (end_ - begin).toNat left s
        = .ok s1 ∧
      backwardPass end_ (elementCompare le) elementSwap left (end_ - begin).toNat (right - 1) s1
        = .ok s2 ∧
      (∀ k, s2 k = s (π k)) ∧ (∀ k, (k < left ∨ right < k) → π k = k) ∧
      (∀ k, left ≤ k → k ≤ right → le (s2 left) (s2 k) = true) ∧
      (∀ k, left ≤ k → k ≤ right → le (s2 k) (s2 right) = true) := by
  obtain ⟨s1, π1, f1, f2, f3, f4⟩ := forwardPass_elements le htot htrans end_ left right s h1 h2
    (end_ - begin).toNat (by omega)
  obtain ⟨s2, π2, b1, b2, b3, b4, b5⟩ := backwardPass_elements le htot htrans end_ left right s1
    h1 h2 f4 (end_ - begin).toNat (by omega)
  refine ⟨s1, s2, π2.trans π1, f1, b1, ?_, ?_, b4, b5⟩
  · intro k
    rw [b2 k, f2 (π2 k)]
    rfl
  · intro k hk
    show π1 (π2 k) = k
    rw [b3 k hk]
    exact f3 k (by omega)

/-- Function `inplaceSort` on an array of elements, with `compare( i, j )` the test "the element
at `i` is `<=` the element at `j`" of a total preorder and `swap( i, j )` the exchange of the
two elements: it returns, the elements at `begin, …, end - 1` are in non-decreasing order
and the array is a rearrangement of the elements of that range. -/
theorem inplaceSort_elements {α : Type} (le : α → α → Bool)
    (htot : ∀ a b, le a b = true ∨ le b a = true)
    (htrans : ∀ a b c, le a b = true → le b c = true → le a c = true)
    (begin end_ : Int) (s : Int → α) :
    ∃ (s' : Int → α) (π : Equiv.Perm Int),
      inplaceSort false begin end_ (elementCompare le) elementSwap s = .ok s' ∧
      (∀ i j, begin ≤ i → i ≤ j → j < end_ → le (s' i) (s' j) = true) ∧
      (∀ k, s' k = s (π k)) ∧ (∀ k, (k < begin ∨ end_ ≤ k) → π k = k) := by
  have hrefl : ∀ a, le a a = true := fun a => by rcases htot a a with h | h <;> exact h
  have key := sortLoop_rule begin end_ (elementCompare le) elementSwap
    (fun left right s' => begin ≤ left ∧ right < end_ ∧
      (∃ π : Equiv.Perm Int, (∀ k, s' k = s (π k)) ∧ ∀ k, (k < begin ∨ end_ ≤ k) → π k = k) ∧
      ∀ i j, begin ≤ i → i ≤ j → j < end_ → (i < left ∨ right < j) →
        le (s' i) (s' j) = true) (by
      intro left right s0 hlr hW
      obtain ⟨w1, w2, ⟨π0, w3, w4⟩, w5⟩ := hW
      obtain ⟨s1, s2, ρ, f1, b1, r1, r2, rmin, rmax⟩ :=
        sortPass_elements le htot htrans begin end_ left right s0 w1 hlr w2
      have hwin : ∀ k, left ≤ k → k ≤ right → left ≤ ρ k ∧ ρ k ≤ right :=
        fun k k1 k2 => perm_window ρ left right r2 k k1 k2
      refine ⟨s1, s2, f1, b1, by omega, by omega, ⟨ρ.trans π0, ?_, ?_⟩, ?_⟩
      · intro k
        rw [r1 k, w3 (ρ k)]
        rfl
      · intro k hk
        show π0 (ρ k) = k
        rw [r2 k (by omega)]
        exact w4 k hk
      · intro i j i1 ij j1 hout
        by_cases ci : left ≤ i ∧ i ≤ right
        · by_cases cj : left ≤ j ∧ j ≤ right
          · -- both in the window: `i = left` or `j = right`
            rcases hout with hout | hout
            · have : i = left := by omega
              rw [this]
              exact rmin j cj.1 cj.2
            · have : j = right := by omega
              rw [this]
              exact rmax i ci.1 ci.2
          · -- `j` is right of the window
            have hj : right < j := by omega
            obtain ⟨a1, a2⟩ := hwin i ci.1 ci.2
            rw [r1 i, r1 j, r2 j (Or.inr hj)]
            exact w5 (ρ i) j (by omega) (by omega) j1 (Or.inr hj)
        · by_cases cj : left ≤ j ∧ j ≤ right
          · -- `i` is left of the window
            have hi : i < left := by omega
            obtain ⟨a1, a2⟩ := hwin j cj.1 cj.2
            rw [r1 i, r1 j, r2 i (Or.inl hi)]
            exact w5 i (ρ j) i1 (by omega) (by omega) (Or.inl hi)
          · have hi : i < left ∨ right < i := by omega
            have hj : j < left ∨ right < j := by omega
            rw [r1 i, r1 j, r2 i hi, r2 j hj]
            exact w5 i j i1 ij j1 (by omega))
    (end_ - begin).toNat begin (end_ - 1) s (by omega)
    ⟨le_refl _, by omega, ⟨Equiv.refl Int, fun k => rfl, fun k _ => rfl⟩, by
      intro i j i1 ij j1 hout
      omega⟩
  obtain ⟨s', l, r, h1, ⟨_, _, ⟨π, p1, p2⟩, hW⟩, hlr⟩ := key
  refine ⟨s', π, ?_, ?_, p1, p2⟩
  · unfold inplaceSort
    simpa using h1
  · intro i j i1 ij j1
    by_cases c : i < l ∨ r < j
    · exact hW i j i1 ij j1 c
    · have : i = j := by omega
      rw [this]
      exact hrefl _

/-- C26: for a non-CUDA device, `compare( i, j )` the test "the element at `i` is `<=` the
element at `j`" of a total preorder and `swap( i, j )` the exchange of the two elements,
`inplaceSort( begin, end, compare, swap )` returns with the elements at `begin, …, end - 1`
in non-decreasing order, the array being a rearrangement of the elements of that range; each
pass of its `while` loop leaves the maximum of the unsorted window `[left, right]` at its
right end and the minimum at its left end. -/
theorem inplaceSort_sorts_its_range {α : Type} (le : α → α → Bool)
    (htot : ∀ a b, le a b = true ∨ le b a = true)
    (htrans : ∀ a b c, le a b = true → le b c = true → le a c = true)
    (begin end_ : Int) (s : Int → α) :
    (∃ (s' : Int → α) (π : Equiv.Perm Int),
      inplaceSort false begin end_ (elementCompare le) elementSwap s = .ok s' ∧
      (∀ i j, begin ≤ i → i ≤ j → j < end_ → le (s' i) (s' j) = true) ∧
      (∀ k, s' k = s (π k)) ∧ (∀ k, (k < begin ∨ end_ ≤ k) → π k = k)) ∧
    (∀ (left right : Int) (s0 : Int → α), begin ≤ left → left < right → right < end_ →
      ∃ (s1 s2 : Int → α) (π : Equiv.Perm Int),
        forwardPass end_ (elementCompare le) elementSwap right (end_ - begin).toNat left s0
          = .ok s1 ∧
        backwardPass end_ (elementCompare le) elementSwap left (end_ - begin).toNat
          (right - 1) s1 = .ok s2 ∧
        (∀ k, s2 k = s0 (π k)) ∧ (∀ k, (k < left ∨ right < k) → π k = k) ∧
        (∀ k, left ≤ k → k ≤ right → le (s2 left) (s2 k) = true) ∧
        (∀ k, left ≤ k → k ≤ right → le (s2 k) (s2 right) = true)) :=
  ⟨inplaceSort_elements le htot htrans begin end_ s,
    fun left right s0 h0 h1 h2 =>
      sortPass_elements le htot htrans begin end_ left right s0 h0 h1 h2⟩

/-- Witness for `inplaceSort_sorts_its_range`: the integers with `<=`, and the array
`[3, 1, 5, 2, 4]`. -/
theorem inplaceSort_sorts_its_range_witness :
    ((∀ a b : Int, decide (a ≤ b) = true ∨ decide (b ≤ a) = true) ∧
      (∀ a b c : Int, decide (a ≤ b) = true → decide (b ≤ c) = true → decide (a ≤ c) = true)) ∧
    (∃ (s' : Int → Int) (π : Equiv.Perm Int),
      inplaceSort false 0 5 (elementCompare (fun a b => decide (a ≤ b))) elementSwap
        (arrayOf [3, 1, 5, 2, 4]) = .ok s' ∧
      (∀ i j, 0 ≤ i → i ≤ j → j < 5 → decide (s' i ≤ s' j) = true) ∧
      (∀ k, s' k = arrayOf [3, 1, 5, 2, 4] (π k)) ∧ (∀ k, (k < 0 ∨ 5 ≤ k) → π k = k)) ∧
    sortedElements 0 5 (inplaceSort false 0 5 (elementCompare (fun a b => decide (a ≤ b)))
      elementSwap (arrayOf [3, 1, 5, 2, 4])) = [1, 2, 3, 4, 5] :=
  ⟨⟨fun a b => by simp only [decide_eq_true_eq]; omega,
      fun a b c => by simp only [decide_eq_true_eq]; omega⟩,
    (inplaceSort_sorts_its_range (fun a b : Int => decide (a ≤ b))
      (fun a b => by simp only [decide_eq_true_eq]; omega)
      (fun a b c => by simp only [decide_eq_true_eq]; omega) 0 5 (arrayOf [3, 1, 5, 2, 4])).1,
    by decide⟩

/-- The forward loop stops one pair before the right end of the window: on `[3, 1, 2]` it
compares the pair `(0, 1)` only and leaves the maximum at position 1; the first comparison
of the backward loop, of the pair `(1, 2)`, brings it to position 2. -/
theorem forwardPass_stops_before_right_end :
    sortedElements 0 3 (forwardPass 3 (elementCompare (fun a b => decide (a ≤ b))) elementSwap 2
      3 0 (arrayOf [3, 1, 2])) = [1, 3, 2] ∧
    sortedElements 0 3 (inplaceSort false 0 3 (elementCompare (fun a b => decide (a ≤ b)))
      elementSwap (arrayOf [3, 1, 2])) = [1, 2, 3] ∧
    (match inplaceSort false 0 3 (recordCompare (elementCompare (fun a b => decide (a ≤ b))))
        (recordSwap elementSwap) (arrayOf [3, 1, 2], []) with
      | .ok st => st.2
      | .error _ => []) = [(0, 1), (0, 1), (1, 2), (1, 2), (0, 1)] := by
  refine ⟨by decide, by decide, by decide⟩

end BubbleSort

/-- The configuration `Quicksorter::sort` chooses, by the size `s = sizeof(Value)` of an element that
fits the shared memory left after the reserve (`1 <= s <= maxSharable = sharedMemPerBlock -
448 < 2^31`): 512 threads when `513 * s <= maxSharable`, else 256 threads when `257 * s <=
maxSharable`, else the global-memory configuration. -/
theorem sort_configuration_choice {Value : Type} [Inhabited Value] (M : Machine Value)
    (sharedMemPerBlock : Int) (hs : 1 ≤ M.sizeofValue)
    (hfit : M.sizeofValue ≤ sharedMemPerBlock - 448) (hint : sharedMemPerBlock - 448 < 2 ^ 31) :
    (513 * M.sizeofValue ≤ sharedMemPerBlock - 448 →
      ∃ multiplier : Int, 1 ≤ multiplier ∧ multiplier ≤ 8 ∧
        ∀ (fuel : Nat) (q : Quicksorter Value) (arr : List Value),
          Quicksorter.sort M sharedMemPerBlock fuel q arr
            = (init M q arr (2 ^ 20) 512 (multiplier * 512) (sharedMemPerBlock - 448)
                >>= performSort M fuel)) ∧
    (¬ (513 * M.sizeofValue ≤ sharedMemPerBlock - 448) →
      257 * M.sizeofValue ≤ sharedMemPerBlock - 448 →
      ∃ multiplier : Int, 1 ≤ multiplier ∧ multiplier ≤ 8 ∧
        ∀ (fuel : Nat) (q : Quicksorter Value) (arr : List Value),
          Quicksorter.sort M sharedMemPerBlock fuel q arr
            = (init M q arr (2 ^ 20) 256 (multiplier * 256) (sharedMemPerBlock - 448)
                >>= performSort M fuel)) ∧
    (¬ (257 * M.sizeofValue ≤ sharedMemPerBlock - 448) →
      ∀ (fuel : Nat) (q : Quicksorter Value) (arr : List Value),
        Quicksorter.sort M sharedMemPerBlock fuel q arr
          = (init M q arr (2 ^ 20) 512 0 0 >>= performSort M fuel)) := by
  have hr : toInt (toSizeT (4 * (16 + 3 * 32))) = 448 := by decide
  have hm : toInt (toSizeT (sharedMemPerBlock - 448)) = sharedMemPerBlock - 448 := by
    rw [toSizeT_of_range _ (by omega) (by omega), toInt_of_range _ (by omega) hint]
  have hq0 : 0 ≤ (sharedMemPerBlock - 448 - M.sizeofValue) / M.sizeofValue :=
    Int.ediv_nonneg (by omega) (by omega)
  have hq1 : (sharedMemPerBlock - 448 - M.sizeofValue) / M.sizeofValue * M.sizeofValue
      ≤ sharedMemPerBlock - 448 - M.sizeofValue := Int.ediv_mul_le _ (by omega)
  have hq2 : (sharedMemPerBlock - 448 - M.sizeofValue) / M.sizeofValue
      ≤ sharedMemPerBlock - 448 - M.sizeofValue := by nlinarith
  have he : toInt (toSizeT (sharedMemPerBlock - 448 - M.sizeofValue) / M.sizeofValue)
      = (sharedMemPerBlock - 448 - M.sizeofValue) / M.sizeofValue := by
    rw [toSizeT_of_range _ (by omega) (by omega), toInt_of_range _ hq0 (by omega)]
  -- `elemPerBlock >= n` iff `n` elements and the pivot fit
  have hfits : ∀ n : Int, 0 ≤ n →
      (n ≤ (sharedMemPerBlock - 448 - M.sizeofValue) / M.sizeofValue ↔
        (n + 1) * M.sizeofValue ≤ sharedMemPerBlock - 448) := by
    intro n _
    rw [Int.le_ediv_iff_mul_le (by omega)]
    constructor <;> intro h <;> nlinarith
  have hmult : ∀ bd : Int, 0 < bd →
      (1 ≤ min (cdiv ((sharedMemPerBlock - 448 - M.sizeofValue) / M.sizeofValue) bd) 8 ↔
        bd ≤ (sharedMemPerBlock - 448 - M.sizeofValue) / M.sizeofValue) := by
    intro bd hbd
    unfold cdiv
    rw [Int.tdiv_eq_ediv hq0 (by omega)]
    have : (1 : Int) ≤ (sharedMemPerBlock - 448 - M.sizeofValue) / M.sizeofValue / bd ↔
        1 * bd ≤ (sharedMemPerBlock - 448 - M.sizeofValue) / M.sizeofValue :=
      Int.le_ediv_iff_mul_le hbd
    omega
  have budget : ∀ blockDim multiplier : Int, 0 < blockDim → 0 ≤ multiplier →
      multiplier ≤ cdiv ((sharedMemPerBlock - 448 - M.sizeofValue) / M.sizeofValue) blockDim →
      0 ≤ blockDim * multiplier * M.sizeofValue ∧
      blockDim * multiplier * M.sizeofValue + 1 * M.sizeofValue ≤ sharedMemPerBlock - 448 := by
    intro bd mu hbd hmu hle
    unfold cdiv at hle
    rw [Int.tdiv_eq_ediv hq0 (by omega)] at hle
    have h1 : (sharedMemPerBlock - 448 - M.sizeofValue) / M.sizeofValue / bd * bd
        ≤ (sharedMemPerBlock - 448 - M.sizeofValue) / M.sizeofValue := Int.ediv_mul_le _ (by omega)
    have h2 : mu * bd ≤ (sharedMemPerBlock - 448 - M.sizeofValue) / M.sizeofValue := by
      nlinarith
    have h3 : 0 ≤ mu * bd := Int.mul_nonneg hmu (by omega)
    constructor
    · have : 0 ≤ mu * bd * M.sizeofValue := Int.mul_nonneg h3 (by omega)
      nlinarith
    · nlinarith
  have h512 := (hmult 512 (by decide)).trans (hfits 512 (by decide))
  have h256 := (hmult 256 (by decide)).trans (hfits 256 (by decide))
  refine ⟨?_, ?_, ?_⟩
  · intro hc
    have c1 : ¬ min (cdiv ((sharedMemPerBlock - 448 - M.sizeofValue) / M.sizeofValue) 512) 8 ≤ 0 := by
      have := h512.mpr (by omega)
      omega
    obtain ⟨b0, b1⟩ := budget 512
      (min (cdiv ((sharedMemPerBlock - 448 - M.sizeofValue) / M.sizeofValue) 512) 8)
      (by decide) (by omega) (by omega)
    refine ⟨min (cdiv ((sharedMemPerBlock - 448 - M.sizeofValue) / M.sizeofValue) 512) 8,
      by omega, by omega, ?_⟩
    intro fuel q arr
    unfold Quicksorter.sort
    simp only [hr, hm, he]
    rw [if_neg c1]
    exact sortShared_of_budget M fuel q arr _ 512 _ _ b0 (by omega) hint
  · intro hc1 hc2
    have c1 : min (cdiv ((sharedMemPerBlock - 448 - M.sizeofValue) / M.sizeofValue) 512) 8 ≤ 0 := by
      by_contra hcon
      have := h512.mp (by omega)
      omega
    have c2 : ¬ min (cdiv ((sharedMemPerBlock - 448 - M.sizeofValue) / M.sizeofValue) 256) 8 ≤ 0 := by
      have := h256.mpr (by omega)
      omega
    obtain ⟨b0, b1⟩ := budget 256
      (min (cdiv ((sharedMemPerBlock - 448 - M.sizeofValue) / M.sizeofValue) 256) 8)
      (by decide) (by omega) (by omega)
    refine ⟨min (cdiv ((sharedMemPerBlock - 448 - M.sizeofValue) / M.sizeofValue) 256) 8,
      by omega, by omega, ?_⟩
    intro fuel q arr
    unfold Quicksorter.sort
    simp only [hr, hm, he]
    rw [if_pos c1, if_neg c2]
    exact sortShared_of_budget M fuel q arr _ 256 _ _ b0 (by omega) hint
  · intro hc fuel q arr
    have c2 : min (cdiv ((sharedMemPerBlock - 448 - M.sizeofValue) / M.sizeofValue) 256) 8 ≤ 0 := by
      by_contra hcon
      have := h256.mp (by omega)
      omega
    have c1 : min (cdiv ((sharedMemPerBlock - 448 - M.sizeofValue) / M.sizeofValue) 512) 8 ≤ 0 := by
      by_contra hcon
      have := h512.mp (by omega)
      omega
    unfold Quicksorter.sort
    simp only [hr, hm, he]
    rw [if_pos c1, if_pos c2]

/-- The global-memory configuration `init( arr, 1 << 20, 512, 0, 0 )` followed by
`performSort` returns for an array of one element on a Quicksorter that has not sorted before: the loop of
`firstPhase` is left at once (`maxTasks = 1`), and the launch of `secondPhase` is given the
one task. -/
theorem global_configuration_single_element {Value : Type} [Inhabited Value] (M : Machine Value)
    (hg : 1 ≤ M.g_maxTasks) (x : Value) (fuel : Nat) :
    ∃ q', (init M (Quicksorter.fresh Value) [x] (2 ^ 20) 512 0 0 >>= performSort M (fuel + 1))
      = .ok q' := by
  have hi := init_fresh_above_threshold M [x] (2 ^ 20) 512 0 0 (le_refl 0) (by simp) hg
  obtain ⟨q, hq⟩ : ∃ q, init M (Quicksorter.fresh Value) [x] (2 ^ 20) 512 0 0 = .ok q := ⟨_, hi⟩
  obtain ⟨_, _, _, _, _, hmax, _, hlen, _, hlen2, _, _, _, _, _, hit, hcnt⟩ :=
    init_spec M _ q [x] _ _ _ _ hq
  obtain ⟨_, _, hc2, hc3, _⟩ := init_countsInBounds M q [x] _ _ _ _ hq
  have hlen1 : (([x] : List Value).length : Int) = 1 := rfl
  rw [hlen1] at hmax hcnt
  have hm1 : q.maxTasks = 1 := by omega
  have h1 : q.host_1stPhaseTasksAmount = 1 := by
    rcases hcnt with ⟨_, h, _⟩ | ⟨h, _⟩
    · exact h
    · omega
  have hcur : currentTasks q.iteration = TaskQueue.cuda_tasks := by
    rw [hit]
    rfl
  rw [hq]
  show ∃ q', performSort M (fuel + 1) q = .ok q'
  rw [(firstPhase_of_full_queue M fuel q (by omega)).2.2, if_pos (by omega)]
  refine secondPhase_returns M q ?_ hc2 (by omega)
  rw [hcur]
  show q.host_1stPhaseTasksAmount ≤ (q.dev.cuda_tasks.length : Int)
  omega

/-- C21 (failing input): for elements of 50000 bytes on a device with 49152 bytes of shared
memory per block (`maxSharable = 48704`) not even one element fits (`s > maxSharable`, so
`257 * s > maxSharable`), but `sort` does not fall back to the global-memory configuration
`init( arr, 1 << 20, 512, 0, 0 )`: the unsigned `maxSharable - sizeof( Value )` wraps,
`multiplier` is 8, and `sort` stops at the assertion before `init( arr, 1 << 20, 512, 4096,
maxSharable )`, where the global-memory configuration returns.  For every element that fits
the shared memory left after the reserve (`1 <= s <= maxSharable < 2^31`) the choice is the one
stated: 512 threads when `513 * s <= maxSharable`, else 256 threads when `257 * s <=
maxSharable`, else the global-memory configuration. -/
theorem sort_misses_fallback_for_oversized_elements :
    49152 - 448 < bigValueMachine.sizeofValue ∧
    257 * bigValueMachine.sizeofValue > 49152 - 448 ∧
    (∀ (fuel : Nat) (q : Quicksorter Int) (arr : List Int),
      Quicksorter.sort bigValueMachine 49152 fuel q arr = .error .assertionFailed) ∧
    (∀ (fuel : Nat) (x : Int),
      ∃ q', (init bigValueMachine (Quicksorter.fresh Int) [x] (2 ^ 20) 512 0 0
              >>= performSort bigValueMachine (fuel + 1)) = .ok q') ∧
    (∀ (fuel : Nat) (x : Int),
      Quicksorter.sort bigValueMachine 49152 (fuel + 1) (Quicksorter.fresh Int) [x]
        ≠ (init bigValueMachine (Quicksorter.fresh Int) [x] (2 ^ 20) 512 0 0
            >>= performSort bigValueMachine (fuel + 1))) ∧
    (∀ (Value : Type) [Inhabited Value] (M : Machine Value) (sharedMemPerBlock : Int),
      1 ≤ M.sizeofValue → M.sizeofValue ≤ sharedMemPerBlock - 448 →
      sharedMemPerBlock - 448 < 2 ^ 31 →
      (513 * M.sizeofValue ≤ sharedMemPerBlock - 448 →
        ∃ multiplier : Int, 1 ≤ multiplier ∧ multiplier ≤ 8 ∧
          ∀ (fuel : Nat) (q : Quicksorter Value) (arr : List Value),
            Quicksorter.sort M sharedMemPerBlock fuel q arr
              = (init M q arr (2 ^ 20) 512 (multiplier * 512) (sharedMemPerBlock - 448)
                  >>= performSort M fuel)) ∧
      (¬ (513 * M.sizeofValue ≤ sharedMemPerBlock - 448) →
        257 * M.sizeofValue ≤ sharedMemPerBlock - 448 →
        ∃ multiplier : Int, 1 ≤ multiplier ∧ multiplier ≤ 8 ∧
          ∀ (fuel : Nat) (q : Quicksorter Value) (arr : List Value),
            Quicksorter.sort M sharedMemPerBlock fuel q arr
              = (init M q arr (2 ^ 20) 256 (multiplier * 256) (sharedMemPerBlock - 448)
                  >>= performSort M fuel)) ∧
      (¬ (257 * M.sizeofValue ≤ sharedMemPerBlock - 448) →
        ∀ (fuel : Nat) (q : Quicksorter Value) (arr : List Value),
          Quicksorter.sort M sharedMemPerBlock fuel q arr
            = (init M q arr (2 ^ 20) 512 0 0 >>= performSort M fuel))) := by
  refine ⟨by decide, by decide, fun _ _ _ => rfl,
    fun fuel x => global_configuration_single_element bigValueMachine (by decide) x fuel, ?_,
    fun Value _ M s h1 h2 h3 => sort_configuration_choice M s h1 h2 h3⟩
  intro fuel x heq
  obtain ⟨q', hq'⟩ := global_configuration_single_element bigValueMachine (by decide) x fuel
  rw [hq'] at heq
  have hs : Quicksorter.sort bigValueMachine 49152 (fuel + 1) (Quicksorter.fresh Int) [x]
      = .error .assertionFailed := rfl
  rw [hs] at heq
  cases heq

/-- With the threshold `desiredElemPerBlock = 0` and an array of at least two elements (and
`g_maxTasks >= 2`), on a Quicksorter that has not sorted before, the loop of `firstPhase` is entered, its
first pass goes to the distributed round, and `initTasks` launches `cudaCalcBlocksNeeded`
with `elemPerBlock = getElemPerBlock() = 0` on the initial task. -/
theorem zero_threshold_first_round {Value : Type} [Inhabited Value] (M : Machine Value)
    (hg : 2 ≤ M.g_maxTasks) (arr : List Value) (ha : 2 ≤ arr.length)
    (gridDim blockDim maxSharable : Int) :
    ∃ q, init M (Quicksorter.fresh Value) arr gridDim blockDim 0 maxSharable = .ok q ∧
      0 < q.host_1stPhaseTasksAmount ∧ getElemPerBlock q = 0 ∧
      firstPhaseBody M q = distributedRound M q ∧
      ∃ b q1, initTasksCount (getElemPerBlock q) q = .ok (b, q1) ∧
        q1.launches =
          [.cudaCalcBlocksNeeded
            ⟨blockDim, cdiv 1 blockDim + (if cmod 1 blockDim ≠ 0 then 1 else 0), 0⟩
            TaskQueue.cuda_tasks 1 0] := by
  have hlen : (2 : Int) ≤ (arr.length : Int) := by exact_mod_cast ha
  have hi := init_fresh_above_threshold M arr gridDim blockDim 0 maxSharable (le_refl 0)
    (by omega) (by omega)
  obtain ⟨q, hq⟩ : ∃ q, init M (Quicksorter.fresh Value) arr gridDim blockDim 0 maxSharable
      = .ok q := ⟨_, hi⟩
  obtain ⟨_, htb, hd, _, _, hmax, _, hl1, _, _, hl4, _, _, _, hla, hit, hcnt⟩ :=
    init_spec M _ q arr _ _ _ _ hq
  have hit0 : q.iteration = 0 := hit
  have hla0 : q.launches = [] := hla
  have h1 : q.host_1stPhaseTasksAmount = 1 := by
    rcases hcnt with ⟨_, h, _⟩ | ⟨h, _⟩
    · exact h
    · omega
  have h2 : q.host_2ndPhaseTasksAmount = 0 := by
    rcases hcnt with ⟨_, _, h⟩ | ⟨h, _⟩
    · exact h
    · omega
  have hm : 2 ≤ q.maxTasks := by omega
  have hcur : currentTasks q.iteration = TaskQueue.cuda_tasks := by
    rw [hit0]
    rfl
  have he : getElemPerBlock q = 0 := hd
  have hv1 : q.host_1stPhaseTasksAmount ≤ ((q.dev.queue (currentTasks q.iteration)).length : Int) := by
    rw [hcur]
    show q.host_1stPhaseTasksAmount ≤ (q.dev.cuda_tasks.length : Int)
    omega
  refine ⟨q, hq, by omega, he,
    firstPhaseBody_eq_distributedRound M q (by omega) (by omega) (by omega), _, _,
    initTasksCount_eq _ q (by omega) hv1 (by omega), ?_⟩
  show q.launches ++ [Launch.cudaCalcBlocksNeeded
      ⟨q.threadsPerBlock, cdiv q.host_1stPhaseTasksAmount q.threadsPerBlock
        + (if cmod q.host_1stPhaseTasksAmount q.threadsPerBlock ≠ 0 then 1 else 0), 0⟩
      (currentTasks q.iteration) q.host_1stPhaseTasksAmount (getElemPerBlock q)] = _
  rw [hla0, hcur, h1, htb, he]
  rfl

/-- C22 (failing input): for elements of 30000 bytes on a device with 49152 bytes of shared
memory per block (an element fits, 257 of them do not) `sort` chooses the global-memory
configuration `init( arr, 1 << 20, 512, 0, 0 )`, whose `desiredElemPerBlock` is 0: after it
`getElemPerBlock()` is 0, and for every array of at least two elements the first pass of the
loop of `firstPhase` reaches `initTasks`, which hands `elemPerBlock = 0` to the kernel that
divides the task size by it.  In the configurations that use shared memory the divisor is
`multiplier * blockDim >= 256`. -/
theorem global_configuration_divides_by_zero :
    (∀ (fuel : Nat) (q : Quicksorter Int) (arr : List Int),
      Quicksorter.sort largeValueMachine 49152 fuel q arr
        = (init largeValueMachine q arr (2 ^ 20) 512 0 0 >>= performSort largeValueMachine fuel)) ∧
    (∀ (q0 q : Quicksorter Int) (arr : List Int),
      init largeValueMachine q0 arr (2 ^ 20) 512 0 0 = .ok q → getElemPerBlock q = 0) ∧
    (∀ arr : List Int, 2 ≤ arr.length →
      ∃ q, init largeValueMachine (Quicksorter.fresh Int) arr (2 ^ 20) 512 0 0 = .ok q ∧
        0 < q.host_1stPhaseTasksAmount ∧ getElemPerBlock q = 0 ∧
        firstPhaseBody largeValueMachine q = distributedRound largeValueMachine q ∧
        ∃ b q1, initTasksCount (getElemPerBlock q) q = .ok (b, q1) ∧
          q1.launches = [.cudaCalcBlocksNeeded ⟨512, 1, 0⟩ TaskQueue.cuda_tasks 1 0]) ∧
    (∀ (Value : Type) [Inhabited Value] (M : Machine Value) (sharedMemPerBlock : Int),
      1 ≤ M.sizeofValue → 257 * M.sizeofValue ≤ sharedMemPerBlock - 448 →
      sharedMemPerBlock - 448 < 2 ^ 31 →
      ∃ blockDim elemPerBlock : Int, 256 ≤ elemPerBlock ∧
        (∀ (fuel : Nat) (q : Quicksorter Value) (arr : List Value),
          Quicksorter.sort M sharedMemPerBlock fuel q arr
            = (init M q arr (2 ^ 20) blockDim elemPerBlock (sharedMemPerBlock - 448)
                >>= performSort M fuel)) ∧
        ∀ (q0 q : Quicksorter Value) (arr : List Value),
          init M q0 arr (2 ^ 20) blockDim elemPerBlock (sharedMemPerBlock - 448) = .ok q →
          getElemPerBlock q = elemPerBlock) := by
  refine ⟨?_, ?_, ?_, ?_⟩
  · exact (sort_configuration_choice largeValueMachine 49152 (by decide) (by decide)
      (by decide)).2.2 (by decide)
  · intro q0 q arr h
    exact (init_spec largeValueMachine q0 q arr _ _ _ _ h).2.2.1
  · intro arr ha
    exact zero_threshold_first_round largeValueMachine (by decide) arr ha (2 ^ 20) 512 0
  · intro Value _ M s h1 h2 h3
    obtain ⟨c1, c2, _⟩ := sort_configuration_choice M s h1 (by omega) h3
    by_cases hc : 513 * M.sizeofValue ≤ s - 448
    · obtain ⟨mu, m1, _, hsort⟩ := c1 hc
      exact ⟨512, mu * 512, by omega, hsort,
        fun q0 q arr h => (init_spec M q0 q arr _ _ _ _ h).2.2.1⟩
    · obtain ⟨mu, m1, _, hsort⟩ := c2 hc h2
      exact ⟨256, mu * 256, by omega, hsort,
        fun q0 q arr h => (init_spec M q0 q arr _ _ _ _ h).2.2.1⟩

/-- `setElement( 0, v )` leaves `v` as the first element. -/
theorem setElement_head {α : Type} (a t : List α) (v : α) (h : setElement a 0 v = .ok t) :
    t.head? = some v := by
  unfold setElement at h
  split at h
  · injection h with h
    subst h
    cases a with
    | nil => rename_i hc; simp at hc
    | cons x xs => rfl
  · cases h

/-- The initial task of `init`: `TASK( 0, size, 0 )` is written to element 0 of `cuda_tasks`
when the array is longer than the threshold and to element 0 of `cuda_2ndPhaseTasks`
otherwise; the count of that queue is set to 1, and the count of the other queue and the
round counter `iteration` keep the values they had before the call. -/
theorem init_task {Value : Type} [Inhabited Value] (M : Machine Value)
    (q0 q : Quicksorter Value) (arr : List Value) (gridDim blockDim e maxSharable : Int)
    (h : init M q0 arr gridDim blockDim e maxSharable = .ok q) :
    q.iteration = q0.iteration ∧
    ((arr.length : Int) > e →
      q.host_1stPhaseTasksAmount = 1 ∧
      q.host_2ndPhaseTasksAmount = q0.host_2ndPhaseTasksAmount ∧
      q.dev.cuda_tasks.head? = some ⟨0, arr.length, 0⟩) ∧
    (¬ ((arr.length : Int) > e) →
      q.host_2ndPhaseTasksAmount = 1 ∧
      q.host_1stPhaseTasksAmount = q0.host_1stPhaseTasksAmount ∧
      q.dev.cuda_2ndPhaseTasks.head? = some ⟨0, arr.length, 0⟩) := by
  unfold init at h
  simp only [] at h
  by_cases c : (arr.length : Int) > e
  · rw [if_pos c] at h
    cases hs : setElement (setSize q0.dev.cuda_tasks (min (arr.length : Int) M.g_maxTasks)) 0
        (TASK.mk 0 arr.length 0) with
    | error e1 => simp [hs, bind, Except.bind] at h
    | ok t =>
      simp only [hs, bind, Except.bind, pure, Except.pure] at h
      injection h with h
      subst h
      exact ⟨rfl, fun _ => ⟨rfl, rfl, setElement_head _ _ _ hs⟩, fun hc => absurd c hc⟩
  · rw [if_neg c] at h
    cases hs : setElement (setSize q0.dev.cuda_2ndPhaseTasks (min (arr.length : Int) M.g_maxTasks))
        0 (TASK.mk 0 arr.length 0) with
    | error e1 => simp [hs, bind, Except.bind] at h
    | ok t =>
      simp only [hs, bind, Except.bind, pure, Except.pure] at h
      injection h with h
      subst h
      exact ⟨rfl, fun hc => absurd hc c, fun _ => ⟨rfl, rfl, setElement_head _ _ _ hs⟩⟩

/-- C23 (failing input): `init` assigns neither the round counter `iteration` nor the count of
the queue it does not write the initial task to, so both keep what a previous sort on the
same object left.  On a Quicksorter that sorted `[3, 1, 2]` in one distributed round (8 blocks of
2 threads, threshold 2), `init` for `[6, 5, 4]` leaves `host_1stPhaseTasksAmount = 1` and
`host_2ndPhaseTasksAmount = 1` (two tasks, not one) and `iteration = 1`: the current buffer
is `cuda_newTasks`, whose first task is empty, while the initial task `[0, 3)` is in
`cuda_tasks`; the second `performSort` returns with `arr = [1, 2, 4]`.  On a new
Quicksorter `init` leaves exactly one task, and the current buffer is `cuda_tasks`. -/
theorem init_keeps_round_counter_and_other_count :
    (∀ (Value : Type) [Inhabited Value] (M : Machine Value) (q0 q : Quicksorter Value)
        (arr : List Value) (gridDim blockDim e maxSharable : Int),
      init M q0 arr gridDim blockDim e maxSharable = .ok q →
      q.iteration = q0.iteration ∧
      ((arr.length : Int) > e →
        q.host_1stPhaseTasksAmount = 1 ∧
        q.host_2ndPhaseTasksAmount = q0.host_2ndPhaseTasksAmount ∧
        q.dev.cuda_tasks.head? = some ⟨0, arr.length, 0⟩) ∧
      (¬ ((arr.length : Int) > e) →
        q.host_2ndPhaseTasksAmount = 1 ∧
        q.host_1stPhaseTasksAmount = q0.host_1stPhaseTasksAmount ∧
        q.dev.cuda_2ndPhaseTasks.head? = some ⟨0, arr.length, 0⟩)) ∧
    (∀ (Value : Type) [Inhabited Value] (M : Machine Value) (q : Quicksorter Value)
        (arr : List Value) (gridDim blockDim e maxSharable : Int),
      init M (Quicksorter.fresh Value) arr gridDim blockDim e maxSharable = .ok q →
      q.host_1stPhaseTasksAmount + q.host_2ndPhaseTasksAmount = 1 ∧
      (q.host_1stPhaseTasksAmount = 0 ∨ q.host_2ndPhaseTasksAmount = 0) ∧
      currentTasks q.iteration = TaskQueue.cuda_tasks) ∧
    (∃ q0 q1 q2 q3 : Quicksorter Int,
      init exampleMachine (Quicksorter.fresh Int) [3, 1, 2] 8 2 2 1000 = .ok q0 ∧
      performSort exampleMachine 3 q0 = .ok q1 ∧
      q1.dev.arr = [1, 2, 3] ∧ q1.iteration = 1 ∧
      q1.host_1stPhaseTasksAmount = 0 ∧ q1.host_2ndPhaseTasksAmount = 1 ∧
      init exampleMachine q1 [6, 5, 4] 8 2 2 1000 = .ok q2 ∧
      q2.host_1stPhaseTasksAmount = 1 ∧ q2.host_2ndPhaseTasksAmount = 1 ∧
      q2.iteration = 1 ∧ currentTasks q2.iteration = TaskQueue.cuda_newTasks ∧
      q2.dev.cuda_tasks.head? = some ⟨0, 3, 0⟩ ∧
      (q2.dev.queue (currentTasks q2.iteration)).head? = some ⟨0, 0, 0⟩ ∧
      performSort exampleMachine 3 q2 = .ok q3 ∧
      q3.dev.arr = [1, 2, 4]) := by
  refine ⟨fun Value _ M q0 q arr g b e ms h => init_task M q0 q arr g b e ms h, ?_,
    ⟨_, _, _, _, rfl, rfl, rfl, rfl, rfl, rfl, rfl, rfl, rfl, rfl, rfl, rfl, rfl, rfl, rfl⟩⟩
  intro Value _ M q arr g b e ms h
  obtain ⟨hit, ha, hb⟩ := init_task M _ q arr g b e ms h
  have hit0 : q.iteration = 0 := hit
  refine ⟨?_, ?_, ?_⟩
  · by_cases c : (arr.length : Int) > e
    · obtain ⟨h1, h2, _⟩ := ha c
      have h20 : q.host_2ndPhaseTasksAmount = 0 := h2
      omega
    · obtain ⟨h2, h1, _⟩ := hb c
      have h10 : q.host_1stPhaseTasksAmount = 0 := h1
      omega
  · by_cases c : (arr.length : Int) > e
    · exact Or.inr (ha c).2.1
    · exact Or.inl (hb c).2.1
  · rw [hit0]
    rfl

/-- A task longer than a positive `elemPerBlock` needs at least two blocks. -/
theorem blocksForTask_above_threshold (T : Int) (hT : 0 < T) (t : TASK)
    (h : t.partitionEnd - t.partitionBegin > T) : 2 ≤ blocksForTask T t := by
  unfold blocksForTask cdiv cmod
  simp only []
  rw [Int.tdiv_eq_ediv (by omega) (le_of_lt hT), Int.tmod_eq_emod (by omega) (le_of_lt hT)]
  have hdiv := Int.emod_add_ediv (t.partitionEnd - t.partitionBegin) T
  have hr0 := Int.emod_nonneg (t.partitionEnd - t.partitionBegin) (ne_of_gt hT)
  have hr1 := Int.emod_lt_of_pos (t.partitionEnd - t.partitionBegin) hT
  have hd1 : 1 ≤ (t.partitionEnd - t.partitionBegin) / T := by
    rw [Int.le_ediv_iff_mul_le hT]
    omega
  by_cases c : (t.partitionEnd - t.partitionBegin) % T ≠ 0
  · rw [if_pos c]
    omega
  · rw [if_neg c]
    have hr : (t.partitionEnd - t.partitionBegin) % T = 0 := by omega
    rw [hr] at hdiv
    by_contra hcon
    have hd : (t.partitionEnd - t.partitionBegin) / T = 1 := by omega
    rw [hd] at hdiv
    omega

/-- A sum of numbers that are all at least two. -/
theorem two_mul_length_le_sum {α : Type} (f : α → Int) (l : List α) (h : ∀ t ∈ l, 2 ≤ f t) :
    2 * (l.length : Int) ≤ (l.map f).sum := by
  induction l with
  | nil => simp
  | cons x xs ih =>
    have hx := h x (List.mem_cons_self _ _)
    have hxs := ih (fun t ht => h t (List.mem_cons_of_mem _ ht))
    simp only [List.map_cons, List.sum_cons, List.length_cons]
    push_cast
    omega

/-- C24: `getElemPerBlock()` returns `desiredElemPerBlock`, which `init` sets together with
`desired_2ndPhasElemPerBlock` to the same value and no pass of the loop of `firstPhase`
changes.  When that value is positive and each of the `host_1stPhaseTasksAmount >= 1` current
tasks is longer than it, `initTasks` returns a block count of at least `2 *
host_1stPhaseTasksAmount`, so the round does not leave the loop by `blocksCnt <= 1`: it
leaves it only when the count exceeds the block map, and partitions otherwise. -/
theorem blocks_at_least_two_per_large_task {Value : Type} [Inhabited Value] (M : Machine Value)
    (q : Quicksorter Value)
    (hd : q.desiredElemPerBlock = q.desired_2ndPhasElemPerBlock)
    (hT : 0 < q.desired_2ndPhasElemPerBlock)
    (h0 : 1 ≤ q.host_1stPhaseTasksAmount)
    (h1 : q.host_1stPhaseTasksAmount ≤ (q.dev.queue (currentTasks q.iteration)).length)
    (h2 : q.host_1stPhaseTasksAmount ≤ q.dev.cuda_reductionTaskInitMem.length)
    (hsize : ∀ t ∈ (q.dev.queue (currentTasks q.iteration)).take q.host_1stPhaseTasksAmount.toNat,
      t.partitionEnd - t.partitionBegin > q.desired_2ndPhasElemPerBlock) :
    getElemPerBlock q = q.desired_2ndPhasElemPerBlock ∧
    (∃ b q', initTasks M (getElemPerBlock q) q = .ok (b, q') ∧
      2 * q.host_1stPhaseTasksAmount ≤ b ∧ ¬ (b ≤ 1) ∧
      distributedRound M q =
        (if b > q'.dev.cuda_blockToTaskMapping.length then .ok (.exit q')
         else .ok (.next (partitionAndSpawn M q' (getElemPerBlock q) b)))) ∧
    (∀ (q0 q1 : Quicksorter Value) (arr : List Value) (gridDim blockDim e maxSharable : Int),
      init M q0 arr gridDim blockDim e maxSharable = .ok q1 →
      getElemPerBlock q1 = e ∧ q1.desired_2ndPhasElemPerBlock = e) ∧
    (∀ r, firstPhaseBody M q = .ok r →
      getElemPerBlock r.state = getElemPerBlock q ∧
      r.state.desired_2ndPhasElemPerBlock = q.desired_2ndPhasElemPerBlock) := by
  have he : getElemPerBlock q = q.desired_2ndPhasElemPerBlock := hd
  have hcount := initTasksCount_total (getElemPerBlock q) q h0 h1 h2
  have hlen : (((q.dev.queue (currentTasks q.iteration)).take
      q.host_1stPhaseTasksAmount.toNat).length : Int) = q.host_1stPhaseTasksAmount := by
    rw [List.length_take]
    omega
  have hsum := two_mul_length_le_sum (blocksForTask (getElemPerBlock q))
    ((q.dev.queue (currentTasks q.iteration)).take q.host_1stPhaseTasksAmount.toNat)
    (fun t ht => blocksForTask_above_threshold _ (by rw [he]; exact hT) t
      (by rw [he]; exact hsize t ht))
  rw [hlen] at hsum
  have hmap : (afterCalcBlocksNeeded (getElemPerBlock q) q).dev.cuda_blockToTaskMapping
      = q.dev.cuda_blockToTaskMapping := rfl
  refine ⟨he, ?_, ?_, ?_⟩
  · by_cases c : (((q.dev.queue (currentTasks q.iteration)).take
        q.host_1stPhaseTasksAmount.toNat).map (blocksForTask (getElemPerBlock q))).sum
        > q.dev.cuda_blockToTaskMapping.length
    · have hi := initTasks_of_count_too_many M _ q _ _ hcount (by rw [hmap]; exact c)
      refine ⟨_, _, hi, hsum, by omega, ?_⟩
      rw [distributedRound_of_initTasks M q _ _ hi, if_pos (Or.inr (by rw [hmap]; exact c)),
        if_pos (by rw [hmap]; exact c)]
    · have hi := initTasks_of_count M _ q _ _ hcount (by omega) (by omega) h0 h1 h2
      have hmap2 : (afterInitTask M (afterCalcBlocksNeeded (getElemPerBlock q) q)
          (((q.dev.queue (currentTasks q.iteration)).take
            q.host_1stPhaseTasksAmount.toNat).map (blocksForTask (getElemPerBlock q))).sum
          ).dev.cuda_blockToTaskMapping.length = q.dev.cuda_blockToTaskMapping.length := by
        exact (SameConfig.toSameSetup (initTasks_spec M _ q _ _ hi).1).2.2.2.2.2.2.2.2.2.1
      refine ⟨_, _, hi, hsum, by omega, ?_⟩
      rw [distributedRound_of_initTasks M q _ _ hi, if_neg (by rw [hmap2]; omega),
        if_neg (by rw [hmap2]; omega)]
  · intro q0 q1 arr g b e ms h
    obtain ⟨_, _, h3, _, h5, _⟩ := init_spec M q0 q1 arr g b e ms h
    exact ⟨h3, h5⟩
  · intro r h
    obtain ⟨_, _, h3, _, h5, _⟩ := firstPhaseBody_setup M q r h
    exact ⟨h3, h5⟩

/-- Witness for `blocks_at_least_two_per_large_task`: the scheduler `init` leaves for `[3, 1,
2]` with threshold 2; its one task of 3 elements needs 2 blocks. -/
theorem blocks_at_least_two_per_large_task_witness :
    (exampleScheduler.desiredElemPerBlock = exampleScheduler.desired_2ndPhasElemPerBlock ∧
      0 < exampleScheduler.desired_2ndPhasElemPerBlock ∧
      1 ≤ exampleScheduler.host_1stPhaseTasksAmount ∧
      exampleScheduler.host_1stPhaseTasksAmount
        ≤ (exampleScheduler.dev.queue (currentTasks exampleScheduler.iteration)).length ∧
      exampleScheduler.host_1stPhaseTasksAmount
        ≤ exampleScheduler.dev.cuda_reductionTaskInitMem.length ∧
      ∀ t ∈ (exampleScheduler.dev.queue (currentTasks exampleScheduler.iteration)).take
          exampleScheduler.host_1stPhaseTasksAmount.toNat,
        t.partitionEnd - t.partitionBegin > exampleScheduler.desired_2ndPhasElemPerBlock) ∧
    ∃ b q', initTasks exampleMachine (getElemPerBlock exampleScheduler) exampleScheduler
        = .ok (b, q') ∧
      2 * exampleScheduler.host_1stPhaseTasksAmount ≤ b ∧ ¬ (b ≤ 1) ∧
      distributedRound exampleMachine exampleScheduler =
        (if b > q'.dev.cuda_blockToTaskMapping.length then .ok (.exit q')
         else .ok (.next (partitionAndSpawn exampleMachine q'
            (getElemPerBlock exampleScheduler) b))) :=
  ⟨by decide,
    (blocks_at_least_two_per_large_task exampleMachine exampleScheduler (by decide) (by decide)
      (by decide) (by decide) (by decide) (by decide)).2.1⟩

/-- A kernel that leaves an array as it is: the host sees the same contents. -/
theorem fitTo_self {α : Type} (a : List α) : fitTo a a = a := by
  simp [fitTo]

/-- C25: the premature second-phase sort inside `firstPhase` (the same statements at both
sites) returns when the terminal count is within the terminal queue.  Its one launch is made by
`secondPhase` on the scheduler with `host_1stPhaseTasksAmount = 0`: a self-contained kernel
with `host_2ndPhaseTasksAmount` groups over the view of the first `host_2ndPhaseTasksAmount`
tasks of `cuda_2ndPhaseTasks` and no other tasks.  Afterwards `host_1stPhaseTasksAmount` is
what it was, `host_2ndPhaseTasksAmount` and the device counter `cuda_2ndPhaseTasksAmount`
are 0, the configuration, the round counter and with it the choice of the current buffer are
unchanged, and, for kernels that write the data arrays only, so are the contents of the task
buffers, the new-task counter and the block tables.  The two sites are the pass with a full
terminal queue and the pass where the growth test fires with the terminal queue at least 75%
full. -/
theorem premature_drain_changes_terminal_bookkeeping {Value : Type} (M : Machine Value)
    (q : Quicksorter Value) (h2 : 0 ≤ q.host_2ndPhaseTasksAmount)
    (h3 : q.host_2ndPhaseTasksAmount ≤ q.dev.cuda_2ndPhaseTasks.length) :
    (∃ l q', prematureSecondPhase M q = .ok q' ∧
      secondPhase M { q with host_1stPhaseTasksAmount := 0 }
        = .ok (launchKernelSync M l { q with host_1stPhaseTasksAmount := 0 }) ∧
      l.isSecondPhase = true ∧ l.config.gridSize = q.host_2ndPhaseTasksAmount ∧
      l.taskViews = [(TaskQueue.cuda_2ndPhaseTasks, q.host_2ndPhaseTasksAmount)] ∧
      q'.launches = q.launches ++ [l] ∧
      q'.host_1stPhaseTasksAmount = q.host_1stPhaseTasksAmount ∧
      q'.host_2ndPhaseTasksAmount = 0 ∧ q'.dev.cuda_2ndPhaseTasksAmount = 0 ∧
      q'.iteration = q.iteration ∧ currentTasks q'.iteration = currentTasks q.iteration ∧
      SameConfig q q' ∧
      (SelfContainedStageWritesData M →
        q'.dev.cuda_tasks = q.dev.cuda_tasks ∧ q'.dev.cuda_newTasks = q.dev.cuda_newTasks ∧
        q'.dev.cuda_2ndPhaseTasks = q.dev.cuda_2ndPhaseTasks ∧
        q'.dev.cuda_newTasksAmount = q.dev.cuda_newTasksAmount ∧
        q'.dev.cuda_blockToTaskMapping = q.dev.cuda_blockToTaskMapping ∧
        q'.dev.cuda_reductionTaskInitMem = q.dev.cuda_reductionTaskInitMem)) ∧
    (q.host_1stPhaseTasksAmount < q.maxTasks → q.host_2ndPhaseTasksAmount ≥ q.maxTasks →
      firstPhaseBody M q = (prematureSecondPhase M q >>= distributedRound M)) ∧
    (q.host_1stPhaseTasksAmount < q.maxTasks → q.host_2ndPhaseTasksAmount < q.maxTasks →
      2 * q.host_1stPhaseTasksAmount + q.host_2ndPhaseTasksAmount ≥ 2 * q.maxTasks →
      4 * q.host_2ndPhaseTasksAmount ≥ 3 * q.maxTasks →
      firstPhaseBody M q = (prematureSecondPhase M q >>= distributedRound M)) := by
  have hsec : secondPhase M { q with host_1stPhaseTasksAmount := 0 }
      = .ok (launchKernelSync M
          (.cudaQuickSort2ndPhase
            { blockSize := q.threadsPerBlock
              gridSize := 0 + q.host_2ndPhaseTasksAmount
              dynamicSharedMemorySize :=
                if q.desiredElemPerBlock * M.sizeofValue + M.sizeofValue > q.maxSharable
                then M.sizeofValue
                else q.desiredElemPerBlock * M.sizeofValue + M.sizeofValue }
            .cuda_2ndPhaseTasks q.host_2ndPhaseTasksAmount
            (if q.desiredElemPerBlock * M.sizeofValue + M.sizeofValue > q.maxSharable then 0
             else q.desiredElemPerBlock)
            q.desired_2ndPhasElemPerBlock)
          { q with host_1stPhaseTasksAmount := 0 }) := by
    unfold secondPhase
    simp only []
    rw [if_neg (by intro h; exact absurd h.1 (by decide)), if_neg (by decide)]
    show (getView q.dev.cuda_2ndPhaseTasks q.host_2ndPhaseTasksAmount >>= fun _ => _) = _
    rw [getView_ok _ _ h2 h3]
    rfl
  have hpre : prematureSecondPhase M q = .ok
      { launchKernelSync M
          (.cudaQuickSort2ndPhase
            { blockSize := q.threadsPerBlock
              gridSize := 0 + q.host_2ndPhaseTasksAmount
              dynamicSharedMemorySize :=
                if q.desiredElemPerBlock * M.sizeofValue + M.sizeofValue > q.maxSharable
                then M.sizeofValue
                else q.desiredElemPerBlock * M.sizeofValue + M.sizeofValue }
            .cuda_2ndPhaseTasks q.host_2ndPhaseTasksAmount
            (if q.desiredElemPerBlock * M.sizeofValue + M.sizeofValue > q.maxSharable then 0
             else q.desiredElemPerBlock)
            q.desired_2ndPhasElemPerBlock)
          { q with host_1stPhaseTasksAmount := 0 } with
        dev :=
          { (launchKernelSync M
              (.cudaQuickSort2ndPhase
                { blockSize := q.threadsPerBlock
                  gridSize := 0 + q.host_2ndPhaseTasksAmount
                  dynamicSharedMemorySize :=
                    if q.desiredElemPerBlock * M.sizeofValue + M.sizeofValue > q.maxSharable
                    then M.sizeofValue
                    else q.desiredElemPerBlock * M.sizeofValue + M.sizeofValue }
                .cuda_2ndPhaseTasks q.host_2ndPhaseTasksAmount
                (if q.desiredElemPerBlock * M.sizeofValue + M.sizeofValue > q.maxSharable then 0
                 else q.desiredElemPerBlock)
                q.desired_2ndPhasElemPerBlock)
              { q with host_1stPhaseTasksAmount := 0 }).dev with
            cuda_2ndPhaseTasksAmount := 0 }
        host_2ndPhaseTasksAmount := 0
        host_1stPhaseTasksAmount := q.host_1stPhaseTasksAmount } := by
    unfold prematureSecondPhase
    simp only [hsec, bind, Except.bind]
    rfl
  refine ⟨⟨_, _, hpre, hsec, rfl, ?_, rfl, rfl, rfl, rfl, rfl, rfl, rfl, ?_, ?_⟩, ?_, ?_⟩
  · show 0 + q.host_2ndPhaseTasksAmount = q.host_2ndPhaseTasksAmount
    omega
  · refine ⟨rfl, rfl, rfl, rfl, rfl, rfl, rfl, ?_, ?_, ?_, ?_, ?_⟩ <;>
      simp [launchKernelSync, Device.keepSizes, fitTo_length]
  · intro hf
    obtain ⟨e1, e2, e3, e4, e5, e6⟩ := hf
      (.cudaQuickSort2ndPhase
        { blockSize := q.threadsPerBlock
          gridSize := 0 + q.host_2ndPhaseTasksAmount
          dynamicSharedMemorySize :=
            if q.desiredElemPerBlock * M.sizeofValue + M.sizeofValue > q.maxSharable
            then M.sizeofValue
            else q.desiredElemPerBlock * M.sizeofValue + M.sizeofValue }
        .cuda_2ndPhaseTasks q.host_2ndPhaseTasksAmount
        (if q.desiredElemPerBlock * M.sizeofValue + M.sizeofValue > q.maxSharable then 0
         else q.desiredElemPerBlock)
        q.desired_2ndPhasElemPerBlock) q.dev rfl
    refine ⟨?_, ?_, ?_, e4, ?_, ?_⟩
    · show fitTo q.dev.cuda_tasks _ = _
      rw [e1, fitTo_self]
    · show fitTo q.dev.cuda_newTasks _ = _
      rw [e2, fitTo_self]
    · show fitTo q.dev.cuda_2ndPhaseTasks _ = _
      rw [e3, fitTo_self]
    · show fitTo q.dev.cuda_blockToTaskMapping _ = _
      rw [e5, fitTo_self]
    · show fitTo q.dev.cuda_reductionTaskInitMem _ = _
      rw [e6, fitTo_self]
  · intro a b
    rw [firstPhaseBody_by_counts, if_neg (by omega), if_pos b]
  · intro a b c d
    rw [firstPhaseBody_by_counts, if_neg (by omega), if_neg (by omega), if_pos (by omega),
      if_pos d]

/-- The self-contained kernel as modelled from the spec writes `arr` only. -/
theorem sortTasks_frame {Value : Type} (cmp : Value → Value → Bool) (ts : List TASK)
    (d : Device Value) :
    (sortTasks cmp ts d).cuda_tasks = d.cuda_tasks ∧
    (sortTasks cmp ts d).cuda_newTasks = d.cuda_newTasks ∧
    (sortTasks cmp ts d).cuda_2ndPhaseTasks = d.cuda_2ndPhaseTasks ∧
    (sortTasks cmp ts d).cuda_newTasksAmount = d.cuda_newTasksAmount ∧
    (sortTasks cmp ts d).cuda_blockToTaskMapping = d.cuda_blockToTaskMapping ∧
    (sortTasks cmp ts d).cuda_reductionTaskInitMem = d.cuda_reductionTaskInitMem := by
  induction ts generalizing d with
  | nil => exact ⟨rfl, rfl, rfl, rfl, rfl, rfl⟩
  | cons t ts ih =>
    unfold sortTasks
    exact ih _

/-- The kernels modelled from the spec satisfy `SelfContainedStageWritesData`. -/
theorem specExec_selfContainedStageWritesData {Value : Type} (cmp : Value → Value → Bool)
    (sizeofValue g_maxTasks : Int) :
    SelfContainedStageWritesData
      ({ sizeofValue := sizeofValue, g_maxTasks := g_maxTasks, exec := specExec cmp } :
        Machine Value) := by
  intro l d hl
  cases l with
  | cudaQuickSort2ndPhase cfg tasks count e m => exact sortTasks_frame cmp _ d
  | cudaQuickSort2ndPhase2 cfg tasks count count2 e m => exact sortTasks_frame cmp _ d
  | cudaCalcBlocksNeeded _ _ _ _ => cases hl
  | cudaInitTask _ _ _ _ _ => cases hl
  | cudaQuickSort1stPhase _ _ _ _ => cases hl
  | cudaWritePivot _ _ _ _ => cases hl

/-- Witness for `premature_drain_changes_terminal_bookkeeping`: the scheduler after three
rounds on `[8, 2, 5, 3, 4, 6, 7, 1, 10, 12, 11, 13, 14, 9]`, with three tasks in the terminal
queue of four entries, on the machine whose kernels are the ones modelled from the spec. -/
theorem premature_drain_changes_terminal_bookkeeping_witness :
    ((0 : Int) ≤ (drainRound 3).host_2ndPhaseTasksAmount ∧
      (drainRound 3).host_2ndPhaseTasksAmount ≤ (drainRound 3).dev.cuda_2ndPhaseTasks.length) ∧
    SelfContainedStageWritesData growthMachine ∧
    ∃ l q', prematureSecondPhase growthMachine (drainRound 3) = .ok q' ∧
      secondPhase growthMachine { drainRound 3 with host_1stPhaseTasksAmount := 0 }
        = .ok (launchKernelSync growthMachine l
            { drainRound 3 with host_1stPhaseTasksAmount := 0 }) ∧
      l.isSecondPhase = true ∧ l.config.gridSize = (drainRound 3).host_2ndPhaseTasksAmount ∧
      l.taskViews = [(TaskQueue.cuda_2ndPhaseTasks, (drainRound 3).host_2ndPhaseTasksAmount)] ∧
      q'.launches = (drainRound 3).launches ++ [l] ∧
      q'.host_1stPhaseTasksAmount = (drainRound 3).host_1stPhaseTasksAmount ∧
      q'.host_2ndPhaseTasksAmount = 0 ∧ q'.dev.cuda_2ndPhaseTasksAmount = 0 ∧
      q'.iteration = (drainRound 3).iteration ∧
      currentTasks q'.iteration = currentTasks (drainRound 3).iteration ∧
      SameConfig (drainRound 3) q' ∧
      (SelfContainedStageWritesData growthMachine →
        q'.dev.cuda_tasks = (drainRound 3).dev.cuda_tasks ∧
        q'.dev.cuda_newTasks = (drainRound 3).dev.cuda_newTasks ∧
        q'.dev.cuda_2ndPhaseTasks = (drainRound 3).dev.cuda_2ndPhaseTasks ∧
        q'.dev.cuda_newTasksAmount = (drainRound 3).dev.cuda_newTasksAmount ∧
        q'.dev.cuda_blockToTaskMapping = (drainRound 3).dev.cuda_blockToTaskMapping ∧
        q'.dev.cuda_reductionTaskInitMem = (drainRound 3).dev.cuda_reductionTaskInitMem) :=
  ⟨by decide, specExec_selfContainedStageWritesData _ 4 4,
    (premature_drain_changes_terminal_bookkeeping growthMachine (drainRound 3) (by decide)
      (by decide)).1⟩

/-- The second-phase counter at capacity does not end `firstPhase`, with the kernels as modelled
from the spec: on `[2, 1, 4, 3, 6, 5]` with task queues of two entries and threshold 1, the
second round leaves one distributed task and a second-phase counter of `2 = maxTasks`; the
next pass drains the two terminal tasks with a self-contained launch and runs a third
distributed round, and the array is returned sorted. -/
theorem full_terminal_queue_example :
    ∃ q0 q1 q2 q3 q : Quicksorter Int,
      init smallQueueMachine (Quicksorter.fresh Int) [2, 1, 4, 3, 6, 5] 8 2 1 1000 = .ok q0 ∧
      firstPhaseBody smallQueueMachine q0 = .ok (.next q1) ∧
      firstPhaseBody smallQueueMachine q1 = .ok (.next q2) ∧
      q2.maxTasks = 2 ∧ q2.dev.cuda_newTasksAmount = 1 ∧
      q2.dev.cuda_2ndPhaseTasksAmount = 2 ∧
      q2.host_1stPhaseTasksAmount = 1 ∧ q2.host_2ndPhaseTasksAmount = 2 ∧
      firstPhaseBody smallQueueMachine q2 = .ok (.next q3) ∧
      (q3.launches.drop q2.launches.length).map Launch.isSecondPhase
        = [true, false, false, false, false] ∧
      (q3.launches.drop q2.launches.length).map Launch.isPartition
        = [false, false, false, true, false] ∧
      performSort smallQueueMachine 4 q0 = .ok q ∧
      q.dev.arr = [1, 2, 3, 4, 5, 6] :=
  ⟨_, _, _, _, _, rfl, rfl, rfl, rfl, rfl, rfl, rfl, rfl, rfl, rfl, rfl, rfl, rfl⟩

end Sorting
end Algorithms
end TNL
